import Mathlib

/-! # rsrc: the two-pass layout engine

A shallow embedding of `src/rsrc.go`: the reflective tree walker (`Walk`, `walk`,
`stopping`, `Plain`), the `Coff` record tree that `run` builds, the Pass-1 callback
(offset accumulation and the path-keyed patch switch) and the Pass-2 callback
(serialisation).

Conventions.
* Go `uint32` values are `Nat`s; every `uint32` addition and subtraction is reduced
  modulo `2 ^ 32` explicitly (`add32`, `sub32`, `toUint32`).
* A Go `error` is an `Error` (`nil`, the sentinel `WALK_SKIP`, or another error).
* A run-time panic (failed type assertion, index out of range, `v.Type()` or
  `v.Interface()` on the zero `reflect.Value`) is `none`.
* A `reflect.Value` is a `Value`: a finite tree tagged with the kind of each node.
-/

namespace Rsrc

/-! ## reflect kinds and values -/

/-- The `reflect.Kind`s that occur in `Plain` and in the `switch` of `walk`, and
`Invalid`, the kind of the zero `reflect.Value`. -/
inductive Kind where
  | Invalid
  | Bool | Int | Int8 | Int16 | Int32 | Int64
  | Uint | Uint8 | Uint16 | Uint32 | Uint64 | Uintptr
  | Float32 | Float64 | Complex64 | Complex128
  | Array | Interface | Ptr | Slice | String | Struct
  deriving DecidableEq, Repr

/-- Go `Plain(kind)`: the sixteen numeric and boolean kinds. -/
def Plain : Kind → Bool
  | .Bool | .Int | .Int8 | .Int16 | .Int32 | .Int64
  | .Uint | .Uint8 | .Uint16 | .Uint32 | .Uint64 | .Uintptr
  | .Float32 | .Float64 | .Complex64 | .Complex128 => true
  | _ => false

mutual
/-- A `reflect.Value` as a finite tree.  `invalid` is the zero `reflect.Value`, which
`v.Elem()` yields for a nil pointer and for a nil interface: a nil pointer is
`ptr invalid`, a nil interface is `iface invalid`.  `leaf k n` is a value of the
non-composite kind `k` with payload `n`.  `reader content e` is a pointer whose dynamic
type implements `SizedReader` (in `run`: the manifest), with the bytes it yields and
its pointee `e`. -/
inductive Value where
  | invalid
  | leaf (k : Kind) (n : Nat)
  | array (es : Values)
  | slice (es : Values)
  | iface (e : Value)
  | ptr (e : Value)
  | struct (fs : Fields)
  | reader (content : List Nat) (e : Value)
/-- The elements of a slice or array, in index order. -/
inductive Values where
  | nil
  | cons (v : Value) (vs : Values)
/-- The fields of a struct, in declaration order, each with its name. -/
inductive Fields where
  | nil
  | cons (name : String) (v : Value) (fs : Fields)
end

/-- Go `v.Kind()`. -/
def Value.Kind : Value → Rsrc.Kind
  | .invalid => .Invalid
  | .leaf k _ => k
  | .array _ => .Array
  | .slice _ => .Slice
  | .iface _ => .Interface
  | .ptr _ => .Ptr
  | .struct _ => .Struct
  | .reader _ _ => .Ptr

/-- Go `reflect.Indirect(v)`: the pointee of a pointer, any other value unchanged. -/
def Value.Indirect : Value → Value
  | .ptr e => e
  | .reader _ e => e
  | v => v

/-- Go `v.IsValid()`: false for the zero `reflect.Value` only. -/
def Value.IsValid : Value → Bool
  | .invalid => false
  | _ => true

/-- Go `v.Interface().(SizedReader)`: `some content` when the assertion succeeds.
For a value of kind Interface, `v.Interface()` is the value the interface holds. -/
def Value.asSizedReader : Value → Option (List Nat)
  | .reader c _ => some c
  | .iface (.reader c _) => some c
  | _ => none

/-- Build `Values` from a list. -/
def Values.ofList : List Value → Values
  | [] => .nil
  | v :: vs => .cons v (Values.ofList vs)

/-- Build `Fields` from a list of named values. -/
def Fields.ofList : List (String × Value) → Fields
  | [] => .nil
  | (n, v) :: fs => .cons n v (Fields.ofList fs)

/-! ## uint32 arithmetic -/

/-- Go conversion `uint32(n)` of an integer. -/
def toUint32 (n : Int) : Nat := (n % 4294967296).toNat

/-- Go `a + b` on `uint32`. -/
def add32 (a b : Nat) : Nat := (a + b) % 4294967296

/-- Go `a - b` on `uint32`. -/
def sub32 (a b : Nat) : Nat := toUint32 ((a : Int) - (b : Int))

/-- Go `binary.Size` of a value of a plain kind: its encoded width in bytes, and
`-1` for the kinds without a fixed width (`int`, `uint`, `uintptr`). -/
def binarySize : Kind → Int
  | .Bool | .Int8 | .Uint8 => 1
  | .Int16 | .Uint16 => 2
  | .Int32 | .Uint32 | .Float32 => 4
  | .Int64 | .Uint64 | .Float64 | .Complex64 => 8
  | .Complex128 => 16
  | _ => -1

/-! ## The walker -/

/-- A Go `error` as `walk` distinguishes them. -/
inductive Error where
  | nil
  | WALK_SKIP
  | other (msg : String)
  deriving DecidableEq, Repr

/-- Go `stopping(err)`. -/
def stopping (err : Error) : Bool := err ≠ .nil && err ≠ .WALK_SKIP

/-- Go `type Walker func(v reflect.Value, path string) error`, with the state the
closure captures passed explicitly; `none` is a panic inside the callback. -/
abbrev Walker (σ : Type) := Value → String → σ → Option (σ × Error)

/-- Go `path.Join(spath, name)` for a clean `spath` and a field name. -/
def pathJoin (spath name : String) : String :=
  if spath = "/" then "/" ++ name else spath ++ "/" ++ name

/-- Go `spath + fmt.Sprintf("[%d]", i)`. -/
def indexPath (spath : String) (i : Nat) : String :=
  spath ++ "[" ++ toString i ++ "]"

mutual
/-- Go `walk(v, spath, walker)`: the callback, then the `switch` on the kind of
`reflect.Indirect(v)`, which for a pointer is the switch on its pointee
(`walkPointee`) and otherwise the switch on `v` itself.  On the zero `reflect.Value`
`v.Type()` panics. -/
def walk {σ : Type} (walker : Walker σ) : Value → String → σ → Option (σ × Error)
  | v, spath, s =>
    match walker v spath s with
    | none => none
    | some (s1, err) =>
      if err ≠ .nil then some (s1, err)
      else
        match v with
        | .invalid => none
        | .ptr e => walkPointee walker e spath s1
        | .reader _ e => walkPointee walker e spath s1
        | .array es => walkElems walker es 0 spath s1
        | .slice es => walkElems walker es 0 spath s1
        | .iface e =>
          match walk walker e spath s1 with
          | none => none
          | some (s2, err) => if stopping err then some (s2, err) else some (s2, .nil)
        | .struct fs => walkFields walker fs spath s1
        | _ => some (s1, .nil)
termination_by structural v => v
/-- The `switch v.Type().Kind()` of `walk` when `v` was a pointer and
`reflect.Indirect` has replaced it by its pointee `e`; for a nil pointer `e` is the
zero `reflect.Value` and `v.Type()` panics. -/
def walkPointee {σ : Type} (walker : Walker σ) : Value → String → σ → Option (σ × Error)
  | e, spath, s1 =>
    match e with
    | .invalid => none
    | .array es => walkElems walker es 0 spath s1
    | .slice es => walkElems walker es 0 spath s1
    | .iface x =>
      match walk walker x spath s1 with
      | none => none
      | some (s2, err) => if stopping err then some (s2, err) else some (s2, .nil)
    | .struct fs => walkFields walker fs spath s1
    | _ => some (s1, .nil)
termination_by structural e => e
/-- The `for` loop of the `case reflect.Slice, reflect.Array` arm of `walk`, from
index `i` on. -/
def walkElems {σ : Type} (walker : Walker σ) : Values → Nat → String → σ → Option (σ × Error)
  | .nil, _, _, s => some (s, .nil)
  | .cons v vs, i, spath, s =>
    match walk walker v (indexPath spath i) s with
    | none => none
    | some (s1, err) =>
      if stopping err then some (s1, err) else walkElems walker vs (i + 1) spath s1
termination_by structural es => es
/-- The `for` loop of the `case reflect.Struct` arm of `walk`. -/
def walkFields {σ : Type} (walker : Walker σ) : Fields → String → σ → Option (σ × Error)
  | .nil, _, s => some (s, .nil)
  | .cons name v fs, spath, s =>
    match walk walker v (pathJoin spath name) s with
    | none => none
    | some (s1, err) =>
      if stopping err then some (s1, err) else walkFields walker fs spath s1
termination_by structural fs => fs
end

/-- Go `Walk(value, walker)`. -/
def Walk {σ : Type} (value : Value) (walker : Walker σ) (s : σ) : Option (σ × Error) :=
  match walk walker value "/" s with
  | none => none
  | some (s1, err) => if err = .WALK_SKIP then some (s1, .nil) else some (s1, err)

/-! ## The record model -/

/-- Modelled from the spec: `pe.FileHeader` of the Go standard library (the
FileHeader row of the data-model table), which `src/rsrc.go` imports. -/
structure FileHeader where
  Machine : Nat := 0
  NumberOfSections : Nat := 0
  TimeDateStamp : Nat := 0
  PointerToSymbolTable : Nat := 0
  NumberOfSymbols : Nat := 0
  SizeOfOptionalHeader : Nat := 0
  Characteristics : Nat := 0
  deriving DecidableEq, Repr

/-- Modelled from the spec: `pe.SectionHeader32` of the Go standard library (the
SectionHeader row of the data-model table), which `src/rsrc.go` imports. -/
structure SectionHeader32 where
  Name : List Nat := [0, 0, 0, 0, 0, 0, 0, 0]
  VirtualSize : Nat := 0
  VirtualAddress : Nat := 0
  SizeOfRawData : Nat := 0
  PointerToRawData : Nat := 0
  PointerToRelocations : Nat := 0
  PointerToLineNumbers : Nat := 0
  NumberOfRelocations : Nat := 0
  NumberOfLineNumbers : Nat := 0
  Characteristics : Nat := 0
  deriving DecidableEq, Repr

/-- Go `type ImageResourceDirectory struct`. -/
structure ImageResourceDirectory where
  Characteristics : Nat := 0
  TimeDateStamp : Nat := 0
  MajorVersion : Nat := 0
  MinorVersion : Nat := 0
  NumberOfNamedEntries : Nat := 0
  NumberOfIdEntries : Nat := 0
  deriving DecidableEq, Repr

/-- Go `type ImageResourceDirectoryEntry struct`. -/
structure ImageResourceDirectoryEntry where
  NameOrId : Nat := 0
  OffsetToData : Nat := 0
  deriving DecidableEq, Repr

/-- Go `type ImageResourceDataEntry struct`. -/
structure ImageResourceDataEntry where
  OffsetToData : Nat := 0
  Size1 : Nat := 0
  CodePage : Nat := 0
  Reserved : Nat := 0
  deriving DecidableEq, Repr

/-- Go `type RelocationEntry struct` (its field `Type` is `Type_` here). -/
structure RelocationEntry where
  RVA : Nat := 0
  SymbolIndex : Nat := 0
  Type_ : Nat := 0
  deriving DecidableEq, Repr

/-- Go `type Symbol struct` (its fields `Value` and `Type` are `Value_` and `Type_`
here). -/
structure Symbol where
  Name : List Nat := [0, 0, 0, 0, 0, 0, 0, 0]
  Value_ : Nat := 0
  SectionNumber : Nat := 0
  Type_ : Nat := 0
  StorageClass : Nat := 0
  AuxiliaryCount : Nat := 0
  deriving DecidableEq, Repr

/-- Go `type StringsHeader struct`. -/
structure StringsHeader where
  Length : Nat := 0
  deriving DecidableEq, Repr

/-- Go `MASK_SUBDIRECTORY = 1 << 31`. -/
def MASK_SUBDIRECTORY : Nat := 1 <<< 31

/-- Go `RT_MANIFEST = 24`. -/
def RT_MANIFEST : Nat := 24

/-- Go `STRING_RSRC`: the bytes of ".rsrc" padded with zeros to eight. -/
def STRING_RSRC : List Nat := [46, 114, 115, 114, 99, 0, 0, 0]

/-- One element of `Coff.Data`, a Go `[]interface{}`: a pointer to one of the three
resource records, or the manifest, a `SizedReader` given by the bytes it yields. -/
inductive DataItem where
  | dir (d : ImageResourceDirectory)
  | entry (e : ImageResourceDirectoryEntry)
  | dataEntry (e : ImageResourceDataEntry)
  | manifest (content : List Nat)
  deriving DecidableEq, Repr

/-- Go `type Coff struct`. -/
structure Coff where
  FileHeader : FileHeader
  SectionHeader32 : SectionHeader32
  Data : List DataItem
  Relocations : List RelocationEntry
  Symbols : List Symbol
  StringsHeader : StringsHeader
  deriving DecidableEq, Repr

/-! ### The records as reflect values -/

/-- A `uint8` field. -/
def u8 (n : Nat) : Value := .leaf .Uint8 n
/-- A `uint16` field. -/
def u16 (n : Nat) : Value := .leaf .Uint16 n
/-- A `uint32` field. -/
def u32 (n : Nat) : Value := .leaf .Uint32 n
/-- A `[8]byte` field. -/
def bytes8 (bs : List Nat) : Value := .array (Values.ofList (bs.map u8))

/-- The reflect value of a `pe.FileHeader`. -/
def FileHeader.toValue (h : FileHeader) : Value :=
  .struct (Fields.ofList [
    ("Machine", u16 h.Machine),
    ("NumberOfSections", u16 h.NumberOfSections),
    ("TimeDateStamp", u32 h.TimeDateStamp),
    ("PointerToSymbolTable", u32 h.PointerToSymbolTable),
    ("NumberOfSymbols", u32 h.NumberOfSymbols),
    ("SizeOfOptionalHeader", u16 h.SizeOfOptionalHeader),
    ("Characteristics", u16 h.Characteristics)])

/-- The reflect value of a `pe.SectionHeader32`. -/
def SectionHeader32.toValue (h : SectionHeader32) : Value :=
  .struct (Fields.ofList [
    ("Name", bytes8 h.Name),
    ("VirtualSize", u32 h.VirtualSize),
    ("VirtualAddress", u32 h.VirtualAddress),
    ("SizeOfRawData", u32 h.SizeOfRawData),
    ("PointerToRawData", u32 h.PointerToRawData),
    ("PointerToRelocations", u32 h.PointerToRelocations),
    ("PointerToLineNumbers", u32 h.PointerToLineNumbers),
    ("NumberOfRelocations", u16 h.NumberOfRelocations),
    ("NumberOfLineNumbers", u16 h.NumberOfLineNumbers),
    ("Characteristics", u32 h.Characteristics)])

/-- The reflect value of an `ImageResourceDirectory`. -/
def ImageResourceDirectory.toValue (d : ImageResourceDirectory) : Value :=
  .struct (Fields.ofList [
    ("Characteristics", u32 d.Characteristics),
    ("TimeDateStamp", u32 d.TimeDateStamp),
    ("MajorVersion", u16 d.MajorVersion),
    ("MinorVersion", u16 d.MinorVersion),
    ("NumberOfNamedEntries", u16 d.NumberOfNamedEntries),
    ("NumberOfIdEntries", u16 d.NumberOfIdEntries)])

/-- The reflect value of an `ImageResourceDirectoryEntry`. -/
def ImageResourceDirectoryEntry.toValue (e : ImageResourceDirectoryEntry) : Value :=
  .struct (Fields.ofList [
    ("NameOrId", u32 e.NameOrId),
    ("OffsetToData", u32 e.OffsetToData)])

/-- The reflect value of an `ImageResourceDataEntry`. -/
def ImageResourceDataEntry.toValue (e : ImageResourceDataEntry) : Value :=
  .struct (Fields.ofList [
    ("OffsetToData", u32 e.OffsetToData),
    ("Size1", u32 e.Size1),
    ("CodePage", u32 e.CodePage),
    ("Reserved", u32 e.Reserved)])

/-- The reflect value of a `RelocationEntry`. -/
def RelocationEntry.toValue (r : RelocationEntry) : Value :=
  .struct (Fields.ofList [
    ("RVA", u32 r.RVA),
    ("SymbolIndex", u32 r.SymbolIndex),
    ("Type", u16 r.Type_)])

/-- The reflect value of a `Symbol`. -/
def Symbol.toValue (s : Symbol) : Value :=
  .struct (Fields.ofList [
    ("Name", bytes8 s.Name),
    ("Value", u32 s.Value_),
    ("SectionNumber", u16 s.SectionNumber),
    ("Type", u16 s.Type_),
    ("StorageClass", u8 s.StorageClass),
    ("AuxiliaryCount", u8 s.AuxiliaryCount)])

/-- The reflect value of a `StringsHeader`. -/
def StringsHeader.toValue (h : StringsHeader) : Value :=
  .struct (Fields.ofList [("Length", u32 h.Length)])

/-- The reflect value of an element of `Coff.Data`: an interface holding a pointer
to a record, or holding the manifest.  The manifest is the pointer `SizedOpen`
returns; the type it points to is absent from `src/` and its fields are not modelled
(both callbacks of `run` return `WALK_SKIP` at the manifest, so neither walk of `run`
looks at the pointee). -/
def DataItem.toValue : DataItem → Value
  | .dir d => .iface (.ptr d.toValue)
  | .entry e => .iface (.ptr e.toValue)
  | .dataEntry e => .iface (.ptr e.toValue)
  | .manifest content => .iface (.reader content (.struct .nil))

/-- The reflect value of a `Coff`, as `reflect.ValueOf(coff)` yields it. -/
def Coff.toValue (c : Coff) : Value :=
  .struct (Fields.ofList [
    ("FileHeader", c.FileHeader.toValue),
    ("SectionHeader32", c.SectionHeader32.toValue),
    ("Data", .slice (Values.ofList (c.Data.map DataItem.toValue))),
    ("Relocations", .slice (Values.ofList (c.Relocations.map RelocationEntry.toValue))),
    ("Symbols", .slice (Values.ofList (c.Symbols.map Symbol.toValue))),
    ("StringsHeader", c.StringsHeader.toValue)])

/-- The `coff := Coff{...}` literal of `run`, for a manifest yielding `content`
(`manifest.Size()` is its length). -/
def mkCoff (content : List Nat) : Coff :=
  { FileHeader :=
      { Machine := 0x014c, NumberOfSections := 1, TimeDateStamp := 0,
        NumberOfSymbols := 1, SizeOfOptionalHeader := 0, Characteristics := 0x0104 }
    SectionHeader32 :=
      { Name := STRING_RSRC, NumberOfRelocations := 1, Characteristics := 0x40000040 }
    Data := [
      .dir { NumberOfIdEntries := 1 },
      .entry { NameOrId := RT_MANIFEST },
      .dir { NumberOfIdEntries := 1 },
      .entry { NameOrId := 1 },
      .dir { NumberOfIdEntries := 1 },
      .entry { NameOrId := 0x0409 },
      .dataEntry { Size1 := toUint32 content.length, CodePage := 0 },
      .manifest content]
    Relocations := [{ SymbolIndex := 0, Type_ := 7 }]
    Symbols := [{ Name := STRING_RSRC, Value_ := 0, SectionNumber := 1, Type_ := 0,
                  StorageClass := 3, AuxiliaryCount := 0 }]
    StringsHeader := { Length := toUint32 (binarySize .Uint32) } }

/-! ## Pass 1: offsets and patches -/

/-- The variables the Pass-1 closure of `run` captures: `coff`, `offset`, `diroff`. -/
structure Pass1 where
  coff : Coff
  offset : Nat
  diroff : Nat
  deriving DecidableEq, Repr

/-- Go `coff.Data[i].(*ImageResourceDirectoryEntry).OffsetToData = x`; `none` when
the index is out of range or the type assertion fails. -/
def setEntryOffsetToData (data : List DataItem) (i x : Nat) : Option (List DataItem) :=
  match data[i]? with
  | some (.entry e) => some (data.set i (.entry { e with OffsetToData := x }))
  | _ => none

/-- Go `coff.Data[i].(*ImageResourceDataEntry).OffsetToData = x`; `none` when the
index is out of range or the type assertion fails. -/
def setDataEntryOffsetToData (data : List DataItem) (i x : Nat) : Option (List DataItem) :=
  match data[i]? with
  | some (.dataEntry e) => some (data.set i (.dataEntry { e with OffsetToData := x }))
  | _ => none

/-- Go `coff.Relocations[0].RVA = x`; `none` when the slice is empty. -/
def setRVA (rs : List RelocationEntry) (x : Nat) : Option (List RelocationEntry) :=
  match rs with
  | r :: rest => some ({ r with RVA := x } :: rest)
  | [] => none

/-- The `switch path` of the Pass-1 callback of `run`, on the captured variables
`coff`, `offset`, `diroff`. -/
def patch (path : String) : Pass1 → Option Pass1
  | ⟨⟨fh, sh, data, relocs, syms, strs⟩, offset, diroff⟩ =>
    if path = "/Data" then
      some ⟨⟨fh, { sh with PointerToRawData := offset }, data, relocs, syms, strs⟩, offset, offset⟩
    else if path = "/Data[2]" then
      match setEntryOffsetToData data 1 (MASK_SUBDIRECTORY ||| sub32 offset diroff) with
      | some d => some ⟨⟨fh, sh, d, relocs, syms, strs⟩, offset, diroff⟩
      | none => none
    else if path = "/Data[4]" then
      match setEntryOffsetToData data 3 (MASK_SUBDIRECTORY ||| sub32 offset diroff) with
      | some d => some ⟨⟨fh, sh, d, relocs, syms, strs⟩, offset, diroff⟩
      | none => none
    else if path = "/Data[6]" then
      match setEntryOffsetToData data 5 (sub32 offset diroff) with
      | some d => some ⟨⟨fh, sh, d, relocs, syms, strs⟩, offset, diroff⟩
      | none => none
    else if path = "/Data[6]/OffsetToData" then
      match setRVA relocs (sub32 offset diroff) with
      | some r => some ⟨⟨fh, sh, data, r, syms, strs⟩, offset, diroff⟩
      | none => none
    else if path = "/Data[7]" then
      match setDataEntryOffsetToData data 6 (sub32 offset diroff) with
      | some d => some ⟨⟨fh, sh, d, relocs, syms, strs⟩, offset, diroff⟩
      | none => none
    else if path = "/Relocations" then
      some ⟨⟨fh, { sh with PointerToRelocations := offset, SizeOfRawData := sub32 offset diroff },
        data, relocs, syms, strs⟩, offset, diroff⟩
    else if path = "/Symbols" then
      some ⟨⟨{ fh with PointerToSymbolTable := offset }, sh, data, relocs, syms, strs⟩,
        offset, diroff⟩
    else some ⟨⟨fh, sh, data, relocs, syms, strs⟩, offset, diroff⟩

/-- The Pass-1 callback of `run`: the patch switch, then the size accumulation.  It
reads of `v` only its kind and, for a sized reader, its `Size()`; no patch changes
either, so the walked tree may be the value of `coff` as it was when `Walk` was
called.  On the zero `reflect.Value`, `v.Interface()` panics. -/
def pass1Walker : Walker Pass1 := fun v path s =>
  match patch path s with
  | none => none
  | some ⟨coff, offset, diroff⟩ =>
    if Plain v.Kind then
      some (⟨coff, add32 offset (toUint32 (binarySize v.Kind)), diroff⟩, .nil)
    else if v.IsValid = false then none
    else
      match v.asSizedReader with
      | some content => some (⟨coff, add32 offset (toUint32 content.length), diroff⟩, .WALK_SKIP)
      | none => some (⟨coff, offset, diroff⟩, .nil)

/-- The first `Walk(coff, ...)` of `run`, from `offset = diroff = 0`: the captured
variables when it returns (its result is discarded by `run`). -/
def pass1 (coff : Coff) : Option Pass1 :=
  (Walk coff.toValue pass1Walker { coff := coff, offset := 0, diroff := 0 }).map Prod.fst

/-! ## Pass 2: serialisation -/

/-- The two methods of `Writer` that the Pass-2 callback calls, over a writer state
`ω`: `WriteLE` receives the kind and payload of the plain value `v.Interface()`,
`WriteFromSized` the bytes the sized reader yields. -/
structure WriterOps (ω : Type) where
  WriteLE : Kind → Nat → ω → ω
  WriteFromSized : List Nat → ω → ω

/-- The Pass-2 callback of `run`.  On the zero `reflect.Value`, `v.Interface()`
panics. -/
def pass2Walker {ω : Type} (ops : WriterOps ω) : Walker ω := fun v _ w =>
  match v with
  | .leaf k n =>
    if Plain k then some (ops.WriteLE k n w, .nil)
    else some (w, .nil)
  | .invalid => none
  | _ =>
    match v.asSizedReader with
    | some content => some (ops.WriteFromSized content w, .WALK_SKIP)
    | none => some (w, .nil)

/-- Modelled from the spec: the `Writer` type that `run` uses (`Writer{W: out}`,
`w.Err`), absent from `src/`.  `W` is the byte stream emitted so far, `Err` the first
error met. -/
structure Writer where
  W : List Nat
  Err : Option String
  deriving DecidableEq, Repr

/-- The `width` low bytes of `n`, least significant first. -/
def leBytes (width n : Nat) : List Nat :=
  (List.range width).map fun i => n / 256 ^ i % 256

/-- Modelled from the spec: `Writer.WriteLE`, absent from `src/`: a scalar is emitted
as fixed-width little-endian bytes; after an error nothing more is written; a value
without a fixed width is an error. -/
def Writer.WriteLE (k : Kind) (n : Nat) (w : Writer) : Writer :=
  if w.Err.isSome then w
  else if 0 ≤ binarySize k then { w with W := w.W ++ leBytes (binarySize k).toNat n }
  else { w with Err := some "binary.Write: invalid type" }

/-- Modelled from the spec: `Writer.WriteFromSized`, absent from `src/`: the bytes of
the sized reader are copied verbatim; after an error nothing more is written. -/
def Writer.WriteFromSized (content : List Nat) (w : Writer) : Writer :=
  if w.Err.isSome then w else { w with W := w.W ++ content }

/-- The spec-modelled writer as `WriterOps`. -/
def writerOps : WriterOps Writer :=
  { WriteLE := Writer.WriteLE, WriteFromSized := Writer.WriteFromSized }

/-- The second `Walk(coff, ...)` of `run`, into the writer `w`. -/
def pass2 (coff : Coff) (w : Writer) : Option Writer :=
  (Walk coff.toValue (pass2Walker writerOps) w).map Prod.fst

/-- Go `run`, from the `coff` literal on, for a manifest yielding `content`: the
bytes written to the output file and the error returned; `none` is a panic. -/
def run (content : List Nat) : Option (List Nat × Error) :=
  match pass1 (mkCoff content) with
  | none => none
  | some s =>
    match pass2 s.coff { W := [], Err := none } with
    | none => none
    | some w =>
      match w.Err with
      | some e => some (w.W, .other ("Error writing output file: " ++ e))
      | none => some (w.W, .nil)

/-! ## Observing a walk -/

/-- A callback that also logs, at every invocation, an observation of the node, the
path and the state it is entered with. -/
def traced {σ α : Type} (obs : Value → String → σ → α) (walker : Walker σ) :
    Walker (σ × List α) := fun v path sl =>
  match walker v path sl.1 with
  | none => none
  | some (s1, err) => some ((s1, sl.2 ++ [obs v path sl.1]), err)

/-- The log of a traced `Walk` from state `s`. -/
def traceOf {σ α : Type} (obs : Value → String → σ → α) (walker : Walker σ)
    (value : Value) (s : σ) : Option (List α) :=
  (Walk value (traced obs walker) (s, [])).map fun r => r.1.2

/-- Forget the log of a traced result. -/
def dropLog {σ α : Type} (r : Option ((σ × List α) × Error)) : Option (σ × Error) :=
  r.map fun x => (x.1.1, x.2)

/-- The value a Pass-2 invocation hands to `WriteLE`: the payload of a plain leaf. -/
def Value.written : Value → Option Nat
  | .leaf k n => if Plain k then some n else none
  | _ => none

/-- Pass 1 of `run`: each path the callback is invoked on, with the running offset
on entering it. -/
def pass1Trace (content : List Nat) : Option (List (String × Nat)) :=
  traceOf (fun _ path s => (path, s.offset)) pass1Walker (mkCoff content).toValue
    { coff := mkCoff content, offset := 0, diroff := 0 }

/-- Pass 2 of `run`, on the tree Pass 1 has patched: each path the callback is
invoked on, with the number of bytes emitted before entering it and the value it
hands to `WriteLE` there, if any. -/
def pass2Trace (content : List Nat) : Option (List (String × Nat × Option Nat)) :=
  match pass1 (mkCoff content) with
  | none => none
  | some s =>
    traceOf (fun v path w => (path, w.W.length, v.written)) (pass2Walker writerOps)
      s.coff.toValue { W := [], Err := none }

/-! ## The layout in closed form -/

/-- The `coff` of `run` after Pass 1, written out: the `coff` literal with the eight
patched fields filled in. -/
def patchedCoff (content : List Nat) : Coff :=
  { FileHeader :=
      { Machine := 0x014c, NumberOfSections := 1, TimeDateStamp := 0,
        PointerToSymbolTable := (content.length + 158) % 4294967296,
        NumberOfSymbols := 1, SizeOfOptionalHeader := 0, Characteristics := 0x0104 }
    SectionHeader32 :=
      { Name := STRING_RSRC, NumberOfRelocations := 1, Characteristics := 0x40000040,
        SizeOfRawData := sub32 ((content.length + 148) % 4294967296) 60,
        PointerToRawData := 60,
        PointerToRelocations := (content.length + 148) % 4294967296 }
    Data := [
      .dir { NumberOfIdEntries := 1 },
      .entry { NameOrId := RT_MANIFEST, OffsetToData := MASK_SUBDIRECTORY ||| 24 },
      .dir { NumberOfIdEntries := 1 },
      .entry { NameOrId := 1, OffsetToData := MASK_SUBDIRECTORY ||| 48 },
      .dir { NumberOfIdEntries := 1 },
      .entry { NameOrId := 0x0409, OffsetToData := 72 },
      .dataEntry { OffsetToData := 88, Size1 := content.length % 4294967296, CodePage := 0 },
      .manifest content]
    Relocations := [{ RVA := 72, SymbolIndex := 0, Type_ := 7 }]
    Symbols := [{ Name := STRING_RSRC, Value_ := 0, SectionNumber := 1, Type_ := 0,
                  StorageClass := 3, AuxiliaryCount := 0 }]
    StringsHeader := { Length := 4 } }

/-- The layout table of the emitted file for a manifest of `L` bytes: for every
callback invocation of a walk, in order, the path, the number of bytes that precede
the node in the file, and the value serialised there (for a plain field). -/
def layout (L : Nat) : List (String × Nat × Option Nat) :=
  [("/", 0, none), ("/FileHeader", 0, none), ("/FileHeader/Machine", 0, some 332),
   ("/FileHeader/NumberOfSections", 2, some 1), ("/FileHeader/TimeDateStamp", 4, some 0),
   ("/FileHeader/PointerToSymbolTable", 8, some ((L + 158) % 4294967296)),
   ("/FileHeader/NumberOfSymbols", 12, some 1),
   ("/FileHeader/SizeOfOptionalHeader", 16, some 0),
   ("/FileHeader/Characteristics", 18, some 260), ("/SectionHeader32", 20, none),
   ("/SectionHeader32/Name", 20, none), ("/SectionHeader32/Name[0]", 20, some 46),
   ("/SectionHeader32/Name[1]", 21, some 114), ("/SectionHeader32/Name[2]", 22, some 115),
   ("/SectionHeader32/Name[3]", 23, some 114), ("/SectionHeader32/Name[4]", 24, some 99),
   ("/SectionHeader32/Name[5]", 25, some 0), ("/SectionHeader32/Name[6]", 26, some 0),
   ("/SectionHeader32/Name[7]", 27, some 0), ("/SectionHeader32/VirtualSize", 28, some 0),
   ("/SectionHeader32/VirtualAddress", 32, some 0),
   ("/SectionHeader32/SizeOfRawData", 36, some (sub32 ((L + 148) % 4294967296) 60)),
   ("/SectionHeader32/PointerToRawData", 40, some 60),
   ("/SectionHeader32/PointerToRelocations", 44, some ((L + 148) % 4294967296)),
   ("/SectionHeader32/PointerToLineNumbers", 48, some 0),
   ("/SectionHeader32/NumberOfRelocations", 52, some 1),
   ("/SectionHeader32/NumberOfLineNumbers", 54, some 0),
   ("/SectionHeader32/Characteristics", 56, some 1073741888), ("/Data", 60, none),
   ("/Data[0]", 60, none), ("/Data[0]", 60, none), ("/Data[0]/Characteristics", 60, some 0),
   ("/Data[0]/TimeDateStamp", 64, some 0), ("/Data[0]/MajorVersion", 68, some 0),
   ("/Data[0]/MinorVersion", 70, some 0), ("/Data[0]/NumberOfNamedEntries", 72, some 0),
   ("/Data[0]/NumberOfIdEntries", 74, some 1), ("/Data[1]", 76, none), ("/Data[1]", 76, none),
   ("/Data[1]/NameOrId", 76, some 24),
   ("/Data[1]/OffsetToData", 80, some (MASK_SUBDIRECTORY ||| 24)), ("/Data[2]", 84, none),
   ("/Data[2]", 84, none), ("/Data[2]/Characteristics", 84, some 0),
   ("/Data[2]/TimeDateStamp", 88, some 0), ("/Data[2]/MajorVersion", 92, some 0),
   ("/Data[2]/MinorVersion", 94, some 0), ("/Data[2]/NumberOfNamedEntries", 96, some 0),
   ("/Data[2]/NumberOfIdEntries", 98, some 1), ("/Data[3]", 100, none),
   ("/Data[3]", 100, none), ("/Data[3]/NameOrId", 100, some 1),
   ("/Data[3]/OffsetToData", 104, some (MASK_SUBDIRECTORY ||| 48)), ("/Data[4]", 108, none),
   ("/Data[4]", 108, none), ("/Data[4]/Characteristics", 108, some 0),
   ("/Data[4]/TimeDateStamp", 112, some 0), ("/Data[4]/MajorVersion", 116, some 0),
   ("/Data[4]/MinorVersion", 118, some 0), ("/Data[4]/NumberOfNamedEntries", 120, some 0),
   ("/Data[4]/NumberOfIdEntries", 122, some 1), ("/Data[5]", 124, none),
   ("/Data[5]", 124, none), ("/Data[5]/NameOrId", 124, some 1033),
   ("/Data[5]/OffsetToData", 128, some 72), ("/Data[6]", 132, none), ("/Data[6]", 132, none),
   ("/Data[6]/OffsetToData", 132, some 88), ("/Data[6]/Size1", 136, some (L % 4294967296)),
   ("/Data[6]/CodePage", 140, some 0), ("/Data[6]/Reserved", 144, some 0),
   ("/Data[7]", 148, none), ("/Relocations", L + 148, none),
   ("/Relocations[0]", L + 148, none), ("/Relocations[0]/RVA", L + 148, some 72),
   ("/Relocations[0]/SymbolIndex", L + 152, some 0), ("/Relocations[0]/Type", L + 156, some 7),
   ("/Symbols", L + 158, none), ("/Symbols[0]", L + 158, none),
   ("/Symbols[0]/Name", L + 158, none), ("/Symbols[0]/Name[0]", L + 158, some 46),
   ("/Symbols[0]/Name[1]", L + 159, some 114), ("/Symbols[0]/Name[2]", L + 160, some 115),
   ("/Symbols[0]/Name[3]", L + 161, some 114), ("/Symbols[0]/Name[4]", L + 162, some 99),
   ("/Symbols[0]/Name[5]", L + 163, some 0), ("/Symbols[0]/Name[6]", L + 164, some 0),
   ("/Symbols[0]/Name[7]", L + 165, some 0), ("/Symbols[0]/Value", L + 166, some 0),
   ("/Symbols[0]/SectionNumber", L + 170, some 1), ("/Symbols[0]/Type", L + 172, some 0),
   ("/Symbols[0]/StorageClass", L + 174, some 3),
   ("/Symbols[0]/AuxiliaryCount", L + 175, some 0), ("/StringsHeader", L + 176, none),
   ("/StringsHeader/Length", L + 176, some 4)]

/-! ## Reading a trace and a patched tree -/

/-- What a trace records for the invocations of the callback on `path`, in order. -/
def invocationsAt {α : Type} (t : List (String × α)) (path : String) : List α :=
  (t.filter fun e => e.1 == path).map Prod.snd

/-- The `OffsetToData` of `coff.Data[i]` when that is an
`*ImageResourceDirectoryEntry`. -/
def Coff.entryOffsetToData (c : Coff) (i : Nat) : Option Nat :=
  match c.Data[i]? with
  | some (.entry e) => some e.OffsetToData
  | _ => none

/-- The record `coff.Data[i]` when that is an `*ImageResourceDataEntry`. -/
def Coff.dataEntryAt (c : Coff) (i : Nat) : Option ImageResourceDataEntry :=
  match c.Data[i]? with
  | some (.dataEntry e) => some e
  | _ => none

/-- Whether `coff.Data[i]` is an `*ImageResourceDirectory`. -/
def Coff.isDirectoryAt (c : Coff) (i : Nat) : Bool :=
  match c.Data[i]? with
  | some (.dir _) => true
  | _ => false

/-- The `RVA` of `coff.Relocations[0]`. -/
def Coff.relocationRVA (c : Coff) : Option Nat :=
  c.Relocations.head?.map fun r => r.RVA

/-! ## The traversal as a listing -/

/-- A callback that never panics and whose returned error depends on the node and
its path only: it updates the state by `step` and returns `verdict v path`. -/
def pureWalker {σ : Type} (step : Value → String → σ → σ)
    (verdict : Value → String → Error) : Walker σ :=
  fun v path s => some (step v path s, verdict v path)

mutual
/-- The nodes of the tree at `v`, each with its path, in depth-first pre-order: a
node, then (unless `verdict` is non-nil there) what lies below it, elements by
increasing index and fields in declaration order.  The root has path `p`, the field
`F` of a struct at `p` has `pathJoin p F`, the element `i` of a slice or array at `p`
has `indexPath p i`, the value held by an interface has the path of the interface,
and a pointer stands for what it points to (`visitsPointee`). -/
def visits (verdict : Value → String → Error) : Value → String → List (Value × String)
  | v, p =>
    (v, p) ::
      (if verdict v p ≠ .nil then []
       else
        match v with
        | .ptr e => visitsPointee verdict e p
        | .reader _ e => visitsPointee verdict e p
        | .array es => visitsElems verdict es 0 p
        | .slice es => visitsElems verdict es 0 p
        | .iface e => visits verdict e p
        | .struct fs => visitsFields verdict fs p
        | _ => [])
termination_by structural v => v
/-- What lies below a pointer to `e` at path `p`: what lies below `e`, when `e` is a
slice, an array, a struct or an interface. -/
def visitsPointee (verdict : Value → String → Error) : Value → String → List (Value × String)
  | e, p =>
    match e with
    | .array es => visitsElems verdict es 0 p
    | .slice es => visitsElems verdict es 0 p
    | .iface x => visits verdict x p
    | .struct fs => visitsFields verdict fs p
    | _ => []
termination_by structural e => e
/-- The listing of the elements of a slice or array at path `p`, from index `i` on. -/
def visitsElems (verdict : Value → String → Error) :
    Values → Nat → String → List (Value × String)
  | .nil, _, _ => []
  | .cons v vs, i, p => visits verdict v (indexPath p i) ++ visitsElems verdict vs (i + 1) p
termination_by structural es => es
/-- The listing of the fields of a struct at path `p`. -/
def visitsFields (verdict : Value → String → Error) : Fields → String → List (Value × String)
  | .nil, _ => []
  | .cons name v fs, p => visits verdict v (pathJoin p name) ++ visitsFields verdict fs p
termination_by structural fs => fs
end

/-- The first stopping verdict in a listing, `nil` when there is none. -/
def firstStop (verdict : Value → String → Error) : List (Value × String) → Error
  | [] => .nil
  | (v, p) :: rest => if stopping (verdict v p) then verdict v p else firstStop verdict rest

/-- A listing up to and including its first node with a stopping verdict. -/
def upToStop (verdict : Value → String → Error) :
    List (Value × String) → List (Value × String)
  | [] => []
  | (v, p) :: rest =>
    if stopping (verdict v p) then [(v, p)] else (v, p) :: upToStop verdict rest

/-- The error `walk` returns at a node whose callback returns `verdict`: the
callback's own `WALK_SKIP`, and otherwise the first stopping verdict met. -/
def nodeResult (verdict : Value → String → Error) (v : Value) (p : String) : Error :=
  if verdict v p = .WALK_SKIP then .WALK_SKIP else firstStop verdict (visits verdict v p)

/-- The state after the callback has made its `step` at each node of a listing, in
order. -/
def steps {σ : Type} (step : Value → String → σ → σ) (l : List (Value × String)) (s : σ) : σ :=
  l.foldl (fun s x => step x.1 x.2 s) s

/-! ## The values of a tree -/

mutual
/-- All the values of the tree at `v`: `v` itself and every value inside it. -/
def subvalues : Value → List Value
  | .invalid => [.invalid]
  | .leaf k n => [.leaf k n]
  | .reader c e => .reader c e :: subvalues e
  | .array es => .array es :: subvaluesElems es
  | .slice es => .slice es :: subvaluesElems es
  | .iface e => .iface e :: subvalues e
  | .ptr e => .ptr e :: subvalues e
  | .struct fs => .struct fs :: subvaluesFields fs
/-- All the values inside the elements of a slice or array. -/
def subvaluesElems : Values → List Value
  | .nil => []
  | .cons v vs => subvalues v ++ subvaluesElems vs
/-- All the values inside the fields of a struct. -/
def subvaluesFields : Fields → List Value
  | .nil => []
  | .cons _ v fs => subvalues v ++ subvaluesFields fs
end

/-- Whether a value is a pointer. -/
def Value.isPtr : Value → Bool
  | .ptr _ => true
  | .reader _ _ => true
  | _ => false

mutual
/-- No pointer in the tree points to a pointer. -/
def noPtrToPtr : Value → Bool
  | .invalid => true
  | .leaf _ _ => true
  | .reader _ e => !e.isPtr && noPtrToPtr e
  | .array es => noPtrToPtrElems es
  | .slice es => noPtrToPtrElems es
  | .iface e => noPtrToPtr e
  | .ptr e => !e.isPtr && noPtrToPtr e
  | .struct fs => noPtrToPtrFields fs
/-- No pointer in the elements points to a pointer. -/
def noPtrToPtrElems : Values → Bool
  | .nil => true
  | .cons v vs => noPtrToPtr v && noPtrToPtrElems vs
/-- No pointer in the fields points to a pointer. -/
def noPtrToPtrFields : Fields → Bool
  | .nil => true
  | .cons _ v fs => noPtrToPtr v && noPtrToPtrFields fs
end

mutual
/-- No nil pointer and no nil interface in the tree: the zero `reflect.Value` occurs
nowhere in it. -/
def noNil : Value → Bool
  | .invalid => false
  | .leaf _ _ => true
  | .reader _ e => noNil e
  | .array es => noNilElems es
  | .slice es => noNilElems es
  | .iface e => noNil e
  | .ptr e => noNil e
  | .struct fs => noNilFields fs
/-- No nil pointer and no nil interface in the elements. -/
def noNilElems : Values → Bool
  | .nil => true
  | .cons v vs => noNil v && noNilElems vs
/-- No nil pointer and no nil interface in the fields. -/
def noNilFields : Fields → Bool
  | .nil => true
  | .cons _ v fs => noNil v && noNilFields fs
end

/-- The verdict of a callback that always returns nil. -/
def alwaysNil : Value → String → Error := fun _ _ => .nil

/-! ## The Pass-2 callback on the values other than the zero value -/

/-- The error the Pass-2 callback returns at a node: `WALK_SKIP` when the node is not
plain and its value is a sized reader, nil otherwise. -/
def skipReader : Value → String → Error := fun v _ =>
  match v with
  | .leaf _ _ => .nil
  | _ => if v.asSizedReader.isSome then .WALK_SKIP else .nil

/-- The effect of the Pass-2 callback on the writer. -/
def pass2Step {ω : Type} (ops : WriterOps ω) : Value → String → ω → ω := fun v _ w =>
  match v with
  | .leaf k n => if Plain k then ops.WriteLE k n w else w
  | _ =>
    match v.asSizedReader with
    | some content => ops.WriteFromSized content w
    | none => w

/-- A writer whose every write fails: `WriteLE` and `WriteFromSized` emit nothing and
set `Err`. -/
def failingOps : WriterOps Writer :=
  { WriteLE := fun _ _ w => { w with Err := some "write failed" }
    WriteFromSized := fun _ w => { w with Err := some "write failed" } }

/-- A writer whose every write fails and that counts the writes requested of it: the
state is the count and the error recorded. -/
def countingOps : WriterOps (Nat × Option String) :=
  { WriteLE := fun _ _ w => (w.1 + 1, some "write failed")
    WriteFromSized := fun _ w => (w.1 + 1, some "write failed") }

/-- Go `run`, from the `coff` literal on, over any `Writer`: `ops` are its two write
methods, `errOf` reads `w.Err` and `outOf` the bytes that reached the output file. -/
def runWith {ω : Type} (ops : WriterOps ω) (errOf : ω → Option String)
    (outOf : ω → List Nat) (w0 : ω) (content : List Nat) : Option (List Nat × Error) :=
  match pass1 (mkCoff content) with
  | none => none
  | some s =>
    match Walk s.coff.toValue (pass2Walker ops) w0 with
    | none => none
    | some (w, _) =>
      match errOf w with
      | some e => some (outOf w, .other ("Error writing output file: " ++ e))
      | none => some (outOf w, .nil)

/-! ## A walk with the log of its invocations -/

mutual
/-- The function `walk` made to return, next to its result, the log of the invocations
of the callback: the node and path of each and the error it returned (`none` when the
callback panicked).  The log is there also when the walk panics. -/
def walkLog {σ : Type} (walker : Walker σ) :
    Value → String → σ → List (Value × String × Option Error) →
      Option (σ × Error) × List (Value × String × Option Error)
  | v, spath, s, log =>
    match walker v spath s with
    | none => (none, log ++ [(v, spath, none)])
    | some (s1, err) =>
      if err ≠ .nil then (some (s1, err), log ++ [(v, spath, some err)])
      else
        match v with
        | .invalid => (none, log ++ [(.invalid, spath, some .nil)])
        | .ptr e => walkPointeeLog walker e spath s1 (log ++ [(.ptr e, spath, some .nil)])
        | .reader c e =>
          walkPointeeLog walker e spath s1 (log ++ [(.reader c e, spath, some .nil)])
        | .array es => walkElemsLog walker es 0 spath s1 (log ++ [(.array es, spath, some .nil)])
        | .slice es => walkElemsLog walker es 0 spath s1 (log ++ [(.slice es, spath, some .nil)])
        | .iface e =>
          match walkLog walker e spath s1 (log ++ [(.iface e, spath, some .nil)]) with
          | (none, l) => (none, l)
          | (some (s2, err), l) =>
            if stopping err then (some (s2, err), l) else (some (s2, .nil), l)
        | .struct fs =>
          walkFieldsLog walker fs spath s1 (log ++ [(.struct fs, spath, some .nil)])
        | .leaf k n => (some (s1, .nil), log ++ [(.leaf k n, spath, some .nil)])
termination_by structural v => v
/-- The function `walkPointee` with the log. -/
def walkPointeeLog {σ : Type} (walker : Walker σ) :
    Value → String → σ → List (Value × String × Option Error) →
      Option (σ × Error) × List (Value × String × Option Error)
  | e, spath, s1, log =>
    match e with
    | .invalid => (none, log)
    | .array es => walkElemsLog walker es 0 spath s1 log
    | .slice es => walkElemsLog walker es 0 spath s1 log
    | .iface x =>
      match walkLog walker x spath s1 log with
      | (none, l) => (none, l)
      | (some (s2, err), l) =>
        if stopping err then (some (s2, err), l) else (some (s2, .nil), l)
    | .struct fs => walkFieldsLog walker fs spath s1 log
    | _ => (some (s1, .nil), log)
termination_by structural e => e
/-- The function `walkElems` with the log. -/
def walkElemsLog {σ : Type} (walker : Walker σ) :
    Values → Nat → String → σ → List (Value × String × Option Error) →
      Option (σ × Error) × List (Value × String × Option Error)
  | .nil, _, _, s, log => (some (s, .nil), log)
  | .cons v vs, i, spath, s, log =>
    match walkLog walker v (indexPath spath i) s log with
    | (none, l) => (none, l)
    | (some (s1, err), l) =>
      if stopping err then (some (s1, err), l) else walkElemsLog walker vs (i + 1) spath s1 l
termination_by structural es => es
/-- The function `walkFields` with the log. -/
def walkFieldsLog {σ : Type} (walker : Walker σ) :
    Fields → String → σ → List (Value × String × Option Error) →
      Option (σ × Error) × List (Value × String × Option Error)
  | .nil, _, s, log => (some (s, .nil), log)
  | .cons name v fs, spath, s, log =>
    match walkLog walker v (pathJoin spath name) s log with
    | (none, l) => (none, l)
    | (some (s1, err), l) =>
      if stopping err then (some (s1, err), l) else walkFieldsLog walker fs spath s1 l
termination_by structural fs => fs
end

/-- The function `Walk` with the log of the invocations. -/
def WalkLog {σ : Type} (value : Value) (walker : Walker σ) (s : σ) :
    Option (σ × Error) × List (Value × String × Option Error) :=
  match walkLog walker value "/" s [] with
  | (none, l) => (none, l)
  | (some (s1, err), l) =>
    if err = .WALK_SKIP then (some (s1, .nil), l) else (some (s1, err), l)

/-! ## The errors observed along a walk -/

/-- The observation that records, at every invocation, the node, the path and the
error the callback returns there (`none` when the callback panics). -/
def verdictOf {σ : Type} (walker : Walker σ) (v : Value) (path : String) (s : σ) :
    Value × String × Option Error :=
  (v, path, (walker v path s).map Prod.snd)

/-- An invocation that returned nil or WALK_SKIP. -/
def passed (y : Value × String × Option Error) : Prop :=
  ∃ e, y.2.2 = some e ∧ stopping e = false

/-- A log of invocations in which a stopping error, if `e` is one, is returned by the
last invocation only, and in which no invocation returns a stopping error if `e` is
not one. -/
def stopsLast (e : Error) (t : List (Value × String × Option Error)) : Prop :=
  if stopping e = true then
    ∃ t0 x q, t = t0 ++ [(x, q, some e)] ∧ ∀ y ∈ t0, passed y
  else ∀ y ∈ t, passed y

/-- A log of invocations that agrees with the outcome `r` of the walk: when the walk
returns the error `e`, a stopping error is returned by the last invocation only and is
`e`; when the walk panics, no invocation has returned a stopping error. -/
def logAgrees {σ : Type} (r : Option (σ × Error))
    (t : List (Value × String × Option Error)) : Prop :=
  match r with
  | some (_, e) => stopsLast e t
  | none => ∀ y ∈ t, ∀ e, y.2.2 = some e → stopping e = false

/-! # Theorems -/

/-! ## Evaluation lemmas -/

theorem toString_0 : toString (0 : Nat) = "0" := by decide
theorem toString_1 : toString (1 : Nat) = "1" := by decide
theorem toString_2 : toString (2 : Nat) = "2" := by decide
theorem toString_3 : toString (3 : Nat) = "3" := by decide
theorem toString_4 : toString (4 : Nat) = "4" := by decide
theorem toString_5 : toString (5 : Nat) = "5" := by decide
theorem toString_6 : toString (6 : Nat) = "6" := by decide
theorem toString_7 : toString (7 : Nat) = "7" := by decide

theorem stopping_nil : stopping .nil = false := by decide

theorem stopping_skip : stopping .WALK_SKIP = false := by decide

theorem toUint32_natCast (n : Nat) : toUint32 (n : Int) = n % 4294967296 := by
  unfold toUint32; omega

theorem toUint32_1 : toUint32 1 = 1 := by decide

theorem toUint32_2 : toUint32 2 = 2 := by decide

theorem toUint32_4 : toUint32 4 = 4 := by decide

theorem add32_reader (c L : Nat) : add32 c (L % 4294967296) = (L + c) % 4294967296 := by
  unfold add32; omega

theorem add32_after (c d L : Nat) :
    add32 ((L + c) % 4294967296) d = (L + (c + d)) % 4294967296 := by
  unfold add32; omega

theorem sub32_of_le (a b : Nat) (h1 : b ≤ a) (h2 : a < 4294967296) : sub32 a b = a - b := by
  unfold sub32 toUint32; omega

theorem pass1Walker_apply (v : Value) (path : String) (s : Pass1) :
    pass1Walker v path s =
      match patch path s with
      | none => none
      | some ⟨coff, offset, diroff⟩ =>
        if Plain v.Kind then
          some (⟨coff, add32 offset (toUint32 (binarySize v.Kind)), diroff⟩, .nil)
        else if v.IsValid = false then none
        else
          match v.asSizedReader with
          | some content =>
            some (⟨coff, add32 offset (toUint32 content.length), diroff⟩, .WALK_SKIP)
          | none => some (⟨coff, offset, diroff⟩, .nil) := rfl

theorem traced_apply {σ α : Type} (obs : Value → String → σ → α) (walker : Walker σ)
    (v : Value) (path : String) (s : σ) (log : List α) :
    traced obs walker v path (s, log) =
      match walker v path s with
      | none => none
      | some (s1, err) => some ((s1, log ++ [obs v path s]), err) := rfl

/-! Unfolding of the walk at a state given by its constructor: the walk is unfolded
one step at a time, only once the state it starts from is known. -/

theorem walk_unfold {σ : Type} (w : Walker σ) (v : Value) (p : String) (s : σ) :
    walk w v p s =
      match w v p s with
      | none => none
      | some (s1, err) =>
        if err ≠ .nil then some (s1, err)
        else
          match v with
          | .invalid => none
          | .ptr e => walkPointee w e p s1
          | .reader _ e => walkPointee w e p s1
          | .array es => walkElems w es 0 p s1
          | .slice es => walkElems w es 0 p s1
          | .iface e =>
            match walk w e p s1 with
            | none => none
            | some (s2, err) => if stopping err then some (s2, err) else some (s2, .nil)
          | .struct fs => walkFields w fs p s1
          | _ => some (s1, .nil) := by
  rw [walk]

theorem walkPointee_unfold {σ : Type} (w : Walker σ) (e : Value) (p : String) (s : σ) :
    walkPointee w e p s =
      match e with
      | .invalid => none
      | .array es => walkElems w es 0 p s
      | .slice es => walkElems w es 0 p s
      | .iface x =>
        match walk w x p s with
        | none => none
        | some (s2, err) => if stopping err then some (s2, err) else some (s2, .nil)
      | .struct fs => walkFields w fs p s
      | _ => some (s, .nil) := by
  cases e <;> rfl

theorem walkElems_nil {σ : Type} (w : Walker σ) (i : Nat) (p : String) (s : σ) :
    walkElems w .nil i p s = some (s, .nil) := rfl

theorem walkElems_cons {σ : Type} (w : Walker σ) (v : Value) (vs : Values)
    (i : Nat) (p : String) (s : σ) :
    walkElems w (.cons v vs) i p s =
      match walk w v (indexPath p i) s with
      | none => none
      | some (s1, err) =>
        if stopping err then some (s1, err) else walkElems w vs (i + 1) p s1 := by
  rw [walkElems]

theorem walkFields_nil {σ : Type} (w : Walker σ) (p : String) (s : σ) :
    walkFields w .nil p s = some (s, .nil) := rfl

theorem walkFields_cons {σ : Type} (w : Walker σ) (name : String)
    (v : Value) (fs : Fields) (p : String) (s : σ) :
    walkFields w (.cons name v fs) p s =
      match walk w v (pathJoin p name) s with
      | none => none
      | some (s1, err) =>
        if stopping err then some (s1, err) else walkFields w fs p s1 := by
  rw [walkFields]

theorem walk_at {σ α : Type} (w : Walker (σ × List α)) (v : Value) (p : String) (s : σ)
    (log : List α) :
    walk w v p (s, log) =
      match w v p (s, log) with
      | none => none
      | some (s1, err) =>
        if err ≠ .nil then some (s1, err)
        else
          match v with
          | .invalid => none
          | .ptr e => walkPointee w e p s1
          | .reader _ e => walkPointee w e p s1
          | .array es => walkElems w es 0 p s1
          | .slice es => walkElems w es 0 p s1
          | .iface e =>
            match walk w e p s1 with
            | none => none
            | some (s2, err) => if stopping err then some (s2, err) else some (s2, .nil)
          | .struct fs => walkFields w fs p s1
          | _ => some (s1, .nil) := by
  rw [walk]
  rcases w v p (s, log) with _ | ⟨s1, err⟩
  · rfl
  · cases v <;> try rfl
    all_goals cases err <;> try rfl
    all_goals simp only [ne_eq, not_true_eq_false, reduceIte]
    all_goals split <;> simp only [*]

theorem walkPointee_at {σ α : Type} (w : Walker (σ × List α)) (e : Value) (p : String)
    (s : σ) (log : List α) :
    walkPointee w e p (s, log) =
      match e with
      | .invalid => none
      | .array es => walkElems w es 0 p (s, log)
      | .slice es => walkElems w es 0 p (s, log)
      | .iface x =>
        match walk w x p (s, log) with
        | none => none
        | some (s2, err) => if stopping err then some (s2, err) else some (s2, .nil)
      | .struct fs => walkFields w fs p (s, log)
      | _ => some ((s, log), .nil) := by
  cases e <;> try rfl
  all_goals rw [walkPointee]
  all_goals split <;> simp only [*]

theorem walkElems_cons_at {σ α : Type} (w : Walker (σ × List α)) (v : Value) (vs : Values)
    (i : Nat) (p : String) (s : σ) (log : List α) :
    walkElems w (.cons v vs) i p (s, log) =
      match walk w v (indexPath p i) (s, log) with
      | none => none
      | some (s1, err) =>
        if stopping err then some (s1, err) else walkElems w vs (i + 1) p s1 := by
  rw [walkElems]
  split <;> simp only [*]

theorem walkFields_cons_at {σ α : Type} (w : Walker (σ × List α)) (name : String)
    (v : Value) (fs : Fields) (p : String) (s : σ) (log : List α) :
    walkFields w (.cons name v fs) p (s, log) =
      match walk w v (pathJoin p name) (s, log) with
      | none => none
      | some (s1, err) =>
        if stopping err then some (s1, err) else walkFields w fs p s1 := by
  rw [walkFields]
  split <;> simp only [*]

theorem add32_of_lt (a b : Nat) (h : a + b < 4294967296) : add32 a b = a + b := by
  unfold add32; omega

/-! ## A traced walk is the walk itself, with a log -/

mutual
theorem walk_traced {σ α : Type} (obs : Value → String → σ → α) (w : Walker σ) :
    ∀ (v : Value) (p : String) (s : σ) (log : List α),
      dropLog (walk (traced obs w) v p (s, log)) = walk w v p s
  | v, p, s, log => by
    rw [walk, walk, traced_apply]
    rcases w v p s with _ | ⟨s1, err⟩
    · rfl
    · by_cases h : err = .nil
      · subst h
        cases v with
        | invalid => rfl
        | leaf k n => rfl
        | reader c e =>
          simp only [ne_eq, not_true_eq_false, if_false]
          exact walkPointee_traced obs w e p s1 _
        | ptr e =>
          simp only [ne_eq, not_true_eq_false, if_false]
          exact walkPointee_traced obs w e p s1 _
        | array es =>
          simp only [ne_eq, not_true_eq_false, if_false]
          exact walkElems_traced obs w es 0 p s1 _
        | slice es =>
          simp only [ne_eq, not_true_eq_false, if_false]
          exact walkElems_traced obs w es 0 p s1 _
        | struct fs =>
          simp only [ne_eq, not_true_eq_false, if_false]
          exact walkFields_traced obs w fs p s1 _
        | iface e =>
          simp only [ne_eq, not_true_eq_false, if_false]
          have ih := walk_traced obs w e p s1 (log ++ [obs (.iface e) p s])
          rcases hr : walk (traced obs w) e p (s1, log ++ [obs (.iface e) p s])
            with _ | ⟨⟨s2, l2⟩, err⟩
          · rw [hr] at ih; rw [← ih]; rfl
          · rw [hr] at ih; rw [← ih]
            by_cases hs : stopping err = true <;> simp [dropLog, hs]
      · simp [dropLog, h]
theorem walkPointee_traced {σ α : Type} (obs : Value → String → σ → α) (w : Walker σ) :
    ∀ (e : Value) (p : String) (s : σ) (log : List α),
      dropLog (walkPointee (traced obs w) e p (s, log)) = walkPointee w e p s
  | e, p, s, log => by
    cases e with
    | invalid => rfl
    | leaf k n => rfl
    | reader c e => rfl
    | ptr e => rfl
    | array es => rw [walkPointee, walkPointee]; exact walkElems_traced obs w es 0 p s _
    | slice es => rw [walkPointee, walkPointee]; exact walkElems_traced obs w es 0 p s _
    | struct fs => rw [walkPointee, walkPointee]; exact walkFields_traced obs w fs p s _
    | iface x =>
      rw [walkPointee, walkPointee]
      have ih := walk_traced obs w x p s log
      rcases hr : walk (traced obs w) x p (s, log) with _ | ⟨⟨s2, l2⟩, err⟩
      · rw [hr] at ih; rw [← ih]; rfl
      · rw [hr] at ih; rw [← ih]
        by_cases hs : stopping err = true <;> simp [dropLog, hs]
theorem walkElems_traced {σ α : Type} (obs : Value → String → σ → α) (w : Walker σ) :
    ∀ (es : Values) (i : Nat) (p : String) (s : σ) (log : List α),
      dropLog (walkElems (traced obs w) es i p (s, log)) = walkElems w es i p s
  | .nil, i, p, s, log => rfl
  | .cons v vs, i, p, s, log => by
    rw [walkElems, walkElems]
    have ih := walk_traced obs w v (indexPath p i) s log
    rcases hr : walk (traced obs w) v (indexPath p i) (s, log) with _ | ⟨⟨s1, l1⟩, err⟩
    · rw [hr] at ih; rw [← ih]; rfl
    · rw [hr] at ih; rw [← ih]
      by_cases hs : stopping err = true
      · simp [dropLog, hs]
      · simp only [dropLog, Option.map_some', hs, if_false]
        exact walkElems_traced obs w vs (i + 1) p s1 l1
theorem walkFields_traced {σ α : Type} (obs : Value → String → σ → α) (w : Walker σ) :
    ∀ (fs : Fields) (p : String) (s : σ) (log : List α),
      dropLog (walkFields (traced obs w) fs p (s, log)) = walkFields w fs p s
  | .nil, p, s, log => rfl
  | .cons name v fs, p, s, log => by
    rw [walkFields, walkFields]
    have ih := walk_traced obs w v (pathJoin p name) s log
    rcases hr : walk (traced obs w) v (pathJoin p name) (s, log) with _ | ⟨⟨s1, l1⟩, err⟩
    · rw [hr] at ih; rw [← ih]; rfl
    · rw [hr] at ih; rw [← ih]
      by_cases hs : stopping err = true
      · simp [dropLog, hs]
      · simp only [dropLog, Option.map_some', hs, if_false]
        exact walkFields_traced obs w fs p s1 l1
end

theorem Walk_traced {σ α : Type} (obs : Value → String → σ → α) (w : Walker σ)
    (v : Value) (s : σ) (log : List α) :
    dropLog (Walk v (traced obs w) (s, log)) = Walk v w s := by
  unfold Walk
  have h := walk_traced obs w v "/" s log
  rcases hr : walk (traced obs w) v "/" (s, log) with _ | ⟨⟨s1, l1⟩, err⟩
  · rw [hr] at h; rw [← h]; rfl
  · rw [hr] at h; rw [← h]
    by_cases he : err = .WALK_SKIP <;> simp [dropLog, he]


/-! ## Callbacks whose result depends on their state -/

theorem stopsLast_single (v : Value) (p : String) (e : Error) :
    stopsLast e [(v, p, some e)] := by
  unfold stopsLast
  split
  · exact ⟨[], v, p, rfl, fun y hy => by cases hy⟩
  · rename_i h
    intro y hy
    rw [List.mem_singleton] at hy
    subst hy
    exact ⟨e, rfl, by simpa using h⟩

theorem stopsLast_append (e : Error) (t1 t2 : List (Value × String × Option Error))
    (h1 : ∀ y ∈ t1, passed y) (h2 : stopsLast e t2) : stopsLast e (t1 ++ t2) := by
  unfold stopsLast at *
  split
  · rename_i h
    rw [if_pos h] at h2
    obtain ⟨t0, x, q, ht, h0⟩ := h2
    refine ⟨t1 ++ t0, x, q, by rw [ht, List.append_assoc], ?_⟩
    intro y hy
    rcases List.mem_append.1 hy with hy | hy
    · exact h1 y hy
    · exact h0 y hy
  · rename_i h
    rw [if_neg h] at h2
    intro y hy
    rcases List.mem_append.1 hy with hy | hy
    · exact h1 y hy
    · exact h2 y hy

theorem stopsLast_nil_of (e : Error) (t : List (Value × String × Option Error))
    (h : stopping e = false) (h2 : stopsLast e t) : stopsLast .nil t := by
  unfold stopsLast at *
  rw [if_neg (by simp [h])] at h2
  rw [if_neg (by simp [stopping_nil])]
  exact h2

theorem stopsLast_passed (e : Error) (t : List (Value × String × Option Error))
    (h : stopping e = false) (h2 : stopsLast e t) : ∀ y ∈ t, passed y := by
  unfold stopsLast at h2
  rw [if_neg (by simp [h])] at h2
  exact h2

theorem stopsLast_empty : stopsLast .nil [] := by
  unfold stopsLast
  rw [if_neg (by simp [stopping_nil])]
  intro y hy
  cases hy

theorem passed_nil (v : Value) (p : String) :
    ∀ y ∈ [((v, p, some Error.nil) : Value × String × Option Error)], passed y := by
  intro y hy
  rw [List.mem_singleton] at hy
  subst hy
  exact ⟨.nil, rfl, stopping_nil⟩


theorem passed_of_mem_singleton (v : Value) (p : String) (e : Error)
    (h : stopping e = false) :
    ∀ y ∈ [((v, p, some e) : Value × String × Option Error)], passed y := by
  intro y hy
  rw [List.mem_singleton] at hy
  subst hy
  exact ⟨e, rfl, h⟩

theorem logAgrees_stop {σ : Type} (s : σ) (v : Value) (p : String) (e : Error) :
    logAgrees (some (s, e)) [(v, p, some e)] :=
  stopsLast_single v p e

theorem logAgrees_panic {σ : Type} (v : Value) (p : String) :
    logAgrees (none : Option (σ × Error)) [(v, p, none)] := by
  intro y hy e he
  rw [List.mem_singleton] at hy
  subst hy
  cases he

theorem logAgrees_none_of_passed {σ : Type} (t : List (Value × String × Option Error))
    (h : ∀ y ∈ t, passed y) : logAgrees (none : Option (σ × Error)) t := by
  intro y hy e he
  obtain ⟨e1, h1, h2⟩ := h y hy
  rw [h1] at he
  simp only [Option.some.injEq] at he
  subst he
  exact h2

theorem logAgrees_append {σ : Type} (r : Option (σ × Error))
    (t1 t2 : List (Value × String × Option Error)) (h1 : ∀ y ∈ t1, passed y)
    (h2 : logAgrees r t2) : logAgrees r (t1 ++ t2) := by
  rcases r with _ | ⟨s, e⟩
  · intro y hy e he
    rcases List.mem_append.1 hy with hy | hy
    · exact @logAgrees_none_of_passed σ t1 h1 y hy e he
    · exact h2 y hy e he
  · exact stopsLast_append e t1 t2 h1 h2

theorem logAgrees_iface {σ : Type} (s2 : σ) (e2 : Error)
    (t : List (Value × String × Option Error)) (h : logAgrees (some (s2, e2)) t) :
    logAgrees (if stopping e2 = true then some (s2, e2) else some (s2, Error.nil)) t := by
  by_cases hs : stopping e2 = true
  · rw [if_pos hs]; exact h
  · rw [if_neg hs]; exact stopsLast_nil_of e2 t (by simpa using hs) h

theorem logAgrees_passed {σ : Type} (s1 : σ) (e1 : Error)
    (t : List (Value × String × Option Error)) (hs : ¬ stopping e1 = true)
    (h : logAgrees (some (s1, e1)) t) : ∀ y ∈ t, passed y :=
  stopsLast_passed e1 t (by simpa using hs) h

theorem logAgrees_nil_empty {σ : Type} (s : σ) :
    logAgrees (some (s, Error.nil)) [] := stopsLast_empty

/-! ### The walk with its log: the same result, and a log that agrees with it -/

mutual
theorem walkLog_spec {σ : Type} (f : Walker σ) :
    ∀ (v : Value) (p : String) (s : σ) (log : List (Value × String × Option Error)),
      (walkLog f v p s log).1 = walk f v p s ∧
      ∃ t, (walkLog f v p s log).2 = log ++ (v, p, (f v p s).map Prod.snd) :: t ∧
        logAgrees (walk f v p s) ((v, p, (f v p s).map Prod.snd) :: t)
  | v, p, s, log => by
    rw [walkLog, walk_unfold]
    rcases f v p s with _ | ⟨s1, err⟩
    · exact ⟨rfl, [], rfl, logAgrees_panic v p⟩
    · by_cases hn : err = .nil
      · subst hn
        simp only [ne_eq, not_true_eq_false, if_false, Option.map_some']
        cases v with
        | invalid =>
          exact ⟨rfl, [], rfl, logAgrees_none_of_passed _ (passed_nil _ p)⟩
        | leaf k n =>
          exact ⟨rfl, [], rfl, logAgrees_stop s1 _ p .nil⟩
        | ptr e =>
          obtain ⟨h1, t, h2, h3⟩ := walkPointeeLog_spec f e p s1 (log ++ [(.ptr e, p, some .nil)])
          exact ⟨h1, t, by rw [h2, List.append_assoc]; rfl,
            logAgrees_append _ [(.ptr e, p, some .nil)] t (passed_nil _ p) h3⟩
        | reader c e =>
          obtain ⟨h1, t, h2, h3⟩ :=
            walkPointeeLog_spec f e p s1 (log ++ [(.reader c e, p, some .nil)])
          exact ⟨h1, t, by rw [h2, List.append_assoc]; rfl,
            logAgrees_append _ [(.reader c e, p, some .nil)] t (passed_nil _ p) h3⟩
        | array es =>
          obtain ⟨h1, t, h2, h3⟩ :=
            walkElemsLog_spec f es 0 p s1 (log ++ [(.array es, p, some .nil)])
          exact ⟨h1, t, by rw [h2, List.append_assoc]; rfl,
            logAgrees_append _ [(.array es, p, some .nil)] t (passed_nil _ p) h3⟩
        | slice es =>
          obtain ⟨h1, t, h2, h3⟩ :=
            walkElemsLog_spec f es 0 p s1 (log ++ [(.slice es, p, some .nil)])
          exact ⟨h1, t, by rw [h2, List.append_assoc]; rfl,
            logAgrees_append _ [(.slice es, p, some .nil)] t (passed_nil _ p) h3⟩
        | struct fs =>
          obtain ⟨h1, t, h2, h3⟩ :=
            walkFieldsLog_spec f fs p s1 (log ++ [(.struct fs, p, some .nil)])
          exact ⟨h1, t, by rw [h2, List.append_assoc]; rfl,
            logAgrees_append _ [(.struct fs, p, some .nil)] t (passed_nil _ p) h3⟩
        | iface e =>
          obtain ⟨h1, t, h2, h3⟩ := walkLog_spec f e p s1 (log ++ [(.iface e, p, some .nil)])
          dsimp only
          generalize hr : walkLog f e p s1 (log ++ [(.iface e, p, some .nil)]) = r at h1 h2 ⊢
          rcases r with ⟨_ | ⟨s2, e2⟩, l⟩
          · dsimp only at h1 h2 ⊢
            rw [← h1] at h3 ⊢
            exact ⟨rfl, _, by rw [h2, List.append_assoc]; rfl,
              logAgrees_append _ [(.iface e, p, some .nil)] _ (passed_nil _ p) h3⟩
          · dsimp only at h1 h2 ⊢
            rw [← h1] at h3 ⊢
            dsimp only
            refine ⟨by split <;> rfl, _, ?_,
              logAgrees_append _ [(.iface e, p, some .nil)] _ (passed_nil _ p)
                (logAgrees_iface s2 e2 _ h3)⟩
            have : (if stopping e2 = true then ((some (s2, e2) : Option (σ × Error)), l)
                else (some (s2, Error.nil), l)).2 = l := by split <;> rfl
            rw [this, h2, List.append_assoc]; rfl
      · simp only [ne_eq, hn, not_false_eq_true, if_true, Option.map_some']
        exact ⟨trivial, [], rfl, logAgrees_stop s1 v p err⟩
theorem walkPointeeLog_spec {σ : Type} (f : Walker σ) :
    ∀ (x : Value) (p : String) (s : σ) (log : List (Value × String × Option Error)),
      (walkPointeeLog f x p s log).1 = walkPointee f x p s ∧
      ∃ t, (walkPointeeLog f x p s log).2 = log ++ t ∧ logAgrees (walkPointee f x p s) t
  | x, p, s, log => by
    cases x with
    | invalid =>
      exact ⟨rfl, [], (List.append_nil _).symm, logAgrees_none_of_passed [] (by simp)⟩
    | leaf k n => exact ⟨rfl, [], (List.append_nil _).symm, logAgrees_nil_empty s⟩
    | ptr e => exact ⟨rfl, [], (List.append_nil _).symm, logAgrees_nil_empty s⟩
    | reader c e => exact ⟨rfl, [], (List.append_nil _).symm, logAgrees_nil_empty s⟩
    | array es => rw [walkPointeeLog, walkPointee]; exact walkElemsLog_spec f es 0 p s log
    | slice es => rw [walkPointeeLog, walkPointee]; exact walkElemsLog_spec f es 0 p s log
    | struct fs => rw [walkPointeeLog, walkPointee]; exact walkFieldsLog_spec f fs p s log
    | iface e =>
      rw [walkPointeeLog, walkPointee_unfold]
      obtain ⟨h1, t, h2, h3⟩ := walkLog_spec f e p s log
      dsimp only
      generalize hr : walkLog f e p s log = r at h1 h2 ⊢
      rcases r with ⟨_ | ⟨s2, e2⟩, l⟩
      · dsimp only at h1 h2 ⊢
        rw [← h1] at h3 ⊢
        exact ⟨rfl, _, h2, h3⟩
      · dsimp only at h1 h2 ⊢
        rw [← h1] at h3 ⊢
        dsimp only
        refine ⟨by split <;> rfl, _, ?_, logAgrees_iface s2 e2 _ h3⟩
        have : (if stopping e2 = true then ((some (s2, e2) : Option (σ × Error)), l)
            else (some (s2, Error.nil), l)).2 = l := by split <;> rfl
        rw [this, h2]
theorem walkElemsLog_spec {σ : Type} (f : Walker σ) :
    ∀ (es : Values) (i : Nat) (p : String) (s : σ)
      (log : List (Value × String × Option Error)),
      (walkElemsLog f es i p s log).1 = walkElems f es i p s ∧
      ∃ t, (walkElemsLog f es i p s log).2 = log ++ t ∧ logAgrees (walkElems f es i p s) t
  | .nil, i, p, s, log => ⟨rfl, [], (List.append_nil _).symm, logAgrees_nil_empty s⟩
  | .cons v vs, i, p, s, log => by
    rw [walkElemsLog, walkElems_cons]
    obtain ⟨h1, t, h2, h3⟩ := walkLog_spec f v (indexPath p i) s log
    generalize hr : walkLog f v (indexPath p i) s log = r at h1 h2 ⊢
    rcases r with ⟨_ | ⟨s1, e1⟩, l⟩
    · dsimp only at h1 h2 ⊢
      rw [← h1] at h3 ⊢
      exact ⟨rfl, _, h2, h3⟩
    · dsimp only at h1 h2 ⊢
      rw [← h1] at h3 ⊢
      dsimp only
      by_cases hs : stopping e1 = true
      · simp only [hs, if_true]
        exact ⟨trivial, _, h2, h3⟩
      · simp only [hs, Bool.false_eq_true, if_false]
        obtain ⟨g1, t2, g2, g3⟩ := walkElemsLog_spec f vs (i + 1) p s1 l
        refine ⟨g1, (_ :: t) ++ t2, by rw [g2, h2, List.append_assoc], ?_⟩
        exact logAgrees_append _ (_ :: t) t2 (logAgrees_passed s1 e1 _ hs h3) g3
theorem walkFieldsLog_spec {σ : Type} (f : Walker σ) :
    ∀ (fs : Fields) (p : String) (s : σ) (log : List (Value × String × Option Error)),
      (walkFieldsLog f fs p s log).1 = walkFields f fs p s ∧
      ∃ t, (walkFieldsLog f fs p s log).2 = log ++ t ∧ logAgrees (walkFields f fs p s) t
  | .nil, p, s, log => ⟨rfl, [], (List.append_nil _).symm, logAgrees_nil_empty s⟩
  | .cons name v fs, p, s, log => by
    rw [walkFieldsLog, walkFields_cons]
    obtain ⟨h1, t, h2, h3⟩ := walkLog_spec f v (pathJoin p name) s log
    generalize hr : walkLog f v (pathJoin p name) s log = r at h1 h2 ⊢
    rcases r with ⟨_ | ⟨s1, e1⟩, l⟩
    · dsimp only at h1 h2 ⊢
      rw [← h1] at h3 ⊢
      exact ⟨rfl, _, h2, h3⟩
    · dsimp only at h1 h2 ⊢
      rw [← h1] at h3 ⊢
      dsimp only
      by_cases hs : stopping e1 = true
      · simp only [hs, if_true]
        exact ⟨trivial, _, h2, h3⟩
      · simp only [hs, Bool.false_eq_true, if_false]
        obtain ⟨g1, t2, g2, g3⟩ := walkFieldsLog_spec f fs p s1 l
        refine ⟨g1, (_ :: t) ++ t2, by rw [g2, h2, List.append_assoc], ?_⟩
        exact logAgrees_append _ (_ :: t) t2 (logAgrees_passed s1 e1 _ hs h3) g3
end

theorem WalkLog_spec {σ : Type} (f : Walker σ) (v : Value) (s : σ) :
    (WalkLog v f s).1 = Walk v f s ∧
    ∃ t, (WalkLog v f s).2 = (v, "/", (f v "/" s).map Prod.snd) :: t ∧
      logAgrees (Walk v f s) ((v, "/", (f v "/" s).map Prod.snd) :: t) := by
  unfold WalkLog Walk
  obtain ⟨h1, t, h2, h3⟩ := walkLog_spec f v "/" s []
  rw [List.nil_append] at h2
  generalize hr : walkLog f v "/" s [] = r at h1 h2 ⊢
  rcases r with ⟨_ | ⟨s1, e1⟩, l⟩
  · dsimp only at h1 h2 ⊢
    rw [← h1] at h3 ⊢
    exact ⟨rfl, t, h2, h3⟩
  · dsimp only at h1 h2 ⊢
    rw [← h1] at h3 ⊢
    dsimp only
    by_cases he : e1 = .WALK_SKIP
    · simp only [he, if_true]
      refine ⟨trivial, t, h2, ?_⟩
      rw [he] at h3
      exact stopsLast_nil_of .WALK_SKIP _ stopping_skip h3
    · simp only [he, if_false]
      exact ⟨trivial, t, h2, h3⟩

theorem stopsLast_unique (e : Error) (t : List (Value × String × Option Error))
    (h : stopsLast e t) (i : Nat) (x : Value) (q : String) (e1 : Error)
    (hi : t[i]? = some (x, q, some e1)) (hs : stopping e1 = true) :
    i + 1 = t.length ∧ e = e1 := by
  have hmem : (x, q, some e1) ∈ t := List.getElem?_mem hi
  have hnp : ¬ passed (x, q, some e1) := by
    rintro ⟨e2, h1, h2⟩
    simp only [Option.some.injEq] at h1
    subst h1
    rw [hs] at h2
    cases h2
  unfold stopsLast at h
  split at h
  · obtain ⟨t0, x0, q0, ht, h0⟩ := h
    subst ht
    by_cases hlt : i < t0.length
    · rw [List.getElem?_append_left hlt] at hi
      exact absurd (h0 _ (List.getElem?_mem hi)) hnp
    · have hlen : i < (t0 ++ [(x0, q0, some e)]).length := by
        rcases List.getElem?_eq_some_iff.1 hi with ⟨hlt2, _⟩
        exact hlt2
      rw [List.length_append, List.length_singleton] at hlen
      have hi0 : i = t0.length := by omega
      subst hi0
      rw [List.getElem?_append_right (le_refl _)] at hi
      simp only [Nat.sub_self, List.getElem?_cons_zero, Option.some.injEq, Prod.mk.injEq] at hi
      exact ⟨by rw [List.length_append, List.length_singleton], by have := hi.2.2; simp only [Option.some.injEq] at this; exact this⟩
  · exact absurd (h _ hmem) hnp


theorem logAgrees_unique {σ : Type} (r : Option (σ × Error))
    (t : List (Value × String × Option Error)) (h : logAgrees r t) (i : Nat) (x : Value)
    (q : String) (e1 : Error) (hi : t[i]? = some (x, q, some e1))
    (hs : stopping e1 = true) :
    i + 1 = t.length ∧ ∃ s', r = some (s', e1) := by
  rcases r with _ | ⟨s', e⟩
  · have := h _ (List.getElem?_mem hi) e1 rfl
    rw [hs] at this
    cases this
  · obtain ⟨h1, h2⟩ := stopsLast_unique e t h i x q e1 hi hs
    exact ⟨h1, s', by rw [h2]⟩

/-! ### Trees without a nil pointer or a nil interface -/

theorem noNil_IsValid (v : Value) (h : noNil v = true) : v.IsValid = true := by
  cases v <;> first | rfl | (simp [noNil] at h)

theorem noNilElems_cons (v : Value) (vs : Values) (h : noNilElems (.cons v vs) = true) :
    noNil v = true ∧ noNilElems vs = true := by
  simpa [noNilElems] using h

theorem noNilFields_cons (name : String) (v : Value) (fs : Fields)
    (h : noNilFields (.cons name v fs) = true) :
    noNil v = true ∧ noNilFields fs = true := by
  simpa [noNilFields] using h

mutual
theorem walk_returns {σ : Type} (f : Walker σ) (A : Error → Prop) (hA : A .nil)
    (hf : ∀ v p s, v.IsValid = true → ∃ s1 e, f v p s = some (s1, e) ∧ A e) :
    ∀ (v : Value) (p : String) (s : σ), noNil v = true →
      ∃ s' e, walk f v p s = some (s', e) ∧ A e
  | v, p, s, hv => by
    rw [walk_unfold]
    obtain ⟨s1, err, h1, h2⟩ := hf v p s (noNil_IsValid v hv)
    rw [h1]
    by_cases hn : err = .nil
    · subst hn
      simp only [ne_eq, not_true_eq_false, if_false]
      cases v with
      | invalid => simp [noNil] at hv
      | leaf k n => exact ⟨s1, .nil, rfl, hA⟩
      | ptr x => exact walkPointee_returns f A hA hf x p s1 (by simpa [noNil] using hv)
      | reader c x => exact walkPointee_returns f A hA hf x p s1 (by simpa [noNil] using hv)
      | array es => exact walkElems_returns f A hA hf es 0 p s1 (by simpa [noNil] using hv)
      | slice es => exact walkElems_returns f A hA hf es 0 p s1 (by simpa [noNil] using hv)
      | struct fs => exact walkFields_returns f A hA hf fs p s1 (by simpa [noNil] using hv)
      | iface x =>
        dsimp only
        obtain ⟨s2, e2, h3, h4⟩ := walk_returns f A hA hf x p s1 (by simpa [noNil] using hv)
        rw [h3]
        by_cases hs : stopping e2 = true
        · exact ⟨s2, e2, by simp only [hs, if_true], h4⟩
        · exact ⟨s2, .nil, by simp only [hs, Bool.false_eq_true, if_false], hA⟩
    · exact ⟨s1, err, by simp only [ne_eq, hn, not_false_eq_true, if_true], h2⟩
theorem walkPointee_returns {σ : Type} (f : Walker σ) (A : Error → Prop) (hA : A .nil)
    (hf : ∀ v p s, v.IsValid = true → ∃ s1 e, f v p s = some (s1, e) ∧ A e) :
    ∀ (x : Value) (p : String) (s : σ), noNil x = true →
      ∃ s' e, walkPointee f x p s = some (s', e) ∧ A e
  | x, p, s, hx => by
    rw [walkPointee_unfold]
    cases x with
    | invalid => simp [noNil] at hx
    | leaf k n => exact ⟨s, .nil, rfl, hA⟩
    | reader c y => exact ⟨s, .nil, rfl, hA⟩
    | ptr y => exact ⟨s, .nil, rfl, hA⟩
    | array es => exact walkElems_returns f A hA hf es 0 p s (by simpa [noNil] using hx)
    | slice es => exact walkElems_returns f A hA hf es 0 p s (by simpa [noNil] using hx)
    | struct fs => exact walkFields_returns f A hA hf fs p s (by simpa [noNil] using hx)
    | iface y =>
      dsimp only
      obtain ⟨s2, e2, h3, h4⟩ := walk_returns f A hA hf y p s (by simpa [noNil] using hx)
      rw [h3]
      by_cases hs : stopping e2 = true
      · exact ⟨s2, e2, by simp only [hs, if_true], h4⟩
      · exact ⟨s2, .nil, by simp only [hs, Bool.false_eq_true, if_false], hA⟩
theorem walkElems_returns {σ : Type} (f : Walker σ) (A : Error → Prop) (hA : A .nil)
    (hf : ∀ v p s, v.IsValid = true → ∃ s1 e, f v p s = some (s1, e) ∧ A e) :
    ∀ (es : Values) (i : Nat) (p : String) (s : σ), noNilElems es = true →
      ∃ s' e, walkElems f es i p s = some (s', e) ∧ A e
  | .nil, i, p, s, _ => ⟨s, .nil, rfl, hA⟩
  | .cons v vs, i, p, s, hes => by
    rw [walkElems_cons]
    obtain ⟨hv, hvs⟩ := noNilElems_cons v vs hes
    obtain ⟨s1, e1, h3, h4⟩ := walk_returns f A hA hf v (indexPath p i) s hv
    rw [h3]
    by_cases hs : stopping e1 = true
    · exact ⟨s1, e1, by simp only [hs, if_true], h4⟩
    · simp only [hs, Bool.false_eq_true, if_false]
      exact walkElems_returns f A hA hf vs (i + 1) p s1 hvs
theorem walkFields_returns {σ : Type} (f : Walker σ) (A : Error → Prop) (hA : A .nil)
    (hf : ∀ v p s, v.IsValid = true → ∃ s1 e, f v p s = some (s1, e) ∧ A e) :
    ∀ (fs : Fields) (p : String) (s : σ), noNilFields fs = true →
      ∃ s' e, walkFields f fs p s = some (s', e) ∧ A e
  | .nil, p, s, _ => ⟨s, .nil, rfl, hA⟩
  | .cons name v fs, p, s, hfs => by
    rw [walkFields_cons]
    obtain ⟨hv, hrest⟩ := noNilFields_cons name v fs hfs
    obtain ⟨s1, e1, h3, h4⟩ := walk_returns f A hA hf v (pathJoin p name) s hv
    rw [h3]
    by_cases hs : stopping e1 = true
    · exact ⟨s1, e1, by simp only [hs, if_true], h4⟩
    · simp only [hs, Bool.false_eq_true, if_false]
      exact walkFields_returns f A hA hf fs p s1 hrest
end

theorem Walk_returns {σ : Type} (f : Walker σ) (A : Error → Prop) (hA : A .nil)
    (hf : ∀ v p s, v.IsValid = true → ∃ s1 e, f v p s = some (s1, e) ∧ A e)
    (v : Value) (s : σ) (hv : noNil v = true) :
    ∃ s' e, Walk v f s = some (s', e) ∧ A e ∧ e ≠ .WALK_SKIP := by
  unfold Walk
  obtain ⟨s1, e1, h1, h2⟩ := walk_returns f A hA hf v "/" s hv
  rw [h1]
  by_cases he : e1 = .WALK_SKIP
  · exact ⟨s1, .nil, by simp only [he, if_true], hA, by decide⟩
  · exact ⟨s1, e1, by simp only [he, if_false], h2, he⟩

mutual
theorem walk_congr {σ : Type} (f g : Walker σ)
    (h : ∀ v p s, v.IsValid = true → f v p s = g v p s) :
    ∀ (v : Value) (p : String) (s : σ), noNil v = true → walk f v p s = walk g v p s
  | v, p, s, hv => by
    rw [walk_unfold, walk_unfold, h v p s (noNil_IsValid v hv)]
    rcases g v p s with _ | ⟨s1, err⟩
    · rfl
    · by_cases hn : err = .nil
      · subst hn
        simp only [ne_eq, not_true_eq_false, if_false]
        cases v with
        | invalid => rfl
        | leaf k n => rfl
        | ptr x => exact walkPointee_congr f g h x p s1 (by simpa [noNil] using hv)
        | reader c x => exact walkPointee_congr f g h x p s1 (by simpa [noNil] using hv)
        | array es => exact walkElems_congr f g h es 0 p s1 (by simpa [noNil] using hv)
        | slice es => exact walkElems_congr f g h es 0 p s1 (by simpa [noNil] using hv)
        | struct fs => exact walkFields_congr f g h fs p s1 (by simpa [noNil] using hv)
        | iface x =>
          dsimp only
          rw [walk_congr f g h x p s1 (by simpa [noNil] using hv)]
      · simp only [ne_eq, hn, not_false_eq_true, if_true]
theorem walkPointee_congr {σ : Type} (f g : Walker σ)
    (h : ∀ v p s, v.IsValid = true → f v p s = g v p s) :
    ∀ (x : Value) (p : String) (s : σ), noNil x = true →
      walkPointee f x p s = walkPointee g x p s
  | x, p, s, hx => by
    rw [walkPointee_unfold, walkPointee_unfold]
    cases x with
    | invalid => rfl
    | leaf k n => rfl
    | reader c y => rfl
    | ptr y => rfl
    | array es => exact walkElems_congr f g h es 0 p s (by simpa [noNil] using hx)
    | slice es => exact walkElems_congr f g h es 0 p s (by simpa [noNil] using hx)
    | struct fs => exact walkFields_congr f g h fs p s (by simpa [noNil] using hx)
    | iface y =>
      dsimp only
      rw [walk_congr f g h y p s (by simpa [noNil] using hx)]
theorem walkElems_congr {σ : Type} (f g : Walker σ)
    (h : ∀ v p s, v.IsValid = true → f v p s = g v p s) :
    ∀ (es : Values) (i : Nat) (p : String) (s : σ), noNilElems es = true →
      walkElems f es i p s = walkElems g es i p s
  | .nil, i, p, s, _ => rfl
  | .cons v vs, i, p, s, hes => by
    rw [walkElems_cons, walkElems_cons]
    obtain ⟨hv, hvs⟩ := noNilElems_cons v vs hes
    rw [walk_congr f g h v (indexPath p i) s hv]
    rcases walk g v (indexPath p i) s with _ | ⟨s1, e1⟩
    · rfl
    · by_cases hs : stopping e1 = true
      · simp only [hs, if_true]
      · simp only [hs, Bool.false_eq_true, if_false]
        exact walkElems_congr f g h vs (i + 1) p s1 hvs
theorem walkFields_congr {σ : Type} (f g : Walker σ)
    (h : ∀ v p s, v.IsValid = true → f v p s = g v p s) :
    ∀ (fs : Fields) (p : String) (s : σ), noNilFields fs = true →
      walkFields f fs p s = walkFields g fs p s
  | .nil, p, s, _ => rfl
  | .cons name v fs, p, s, hfs => by
    rw [walkFields_cons, walkFields_cons]
    obtain ⟨hv, hrest⟩ := noNilFields_cons name v fs hfs
    rw [walk_congr f g h v (pathJoin p name) s hv]
    rcases walk g v (pathJoin p name) s with _ | ⟨s1, e1⟩
    · rfl
    · by_cases hs : stopping e1 = true
      · simp only [hs, if_true]
      · simp only [hs, Bool.false_eq_true, if_false]
        exact walkFields_congr f g h fs p s1 hrest
end

theorem Walk_congr {σ : Type} (f g : Walker σ)
    (h : ∀ v p s, v.IsValid = true → f v p s = g v p s) (v : Value) (s : σ)
    (hv : noNil v = true) : Walk v f s = Walk v g s := by
  unfold Walk
  rw [walk_congr f g h v "/" s hv]

theorem traced_congr {σ α : Type} (obs : Value → String → σ → α) (f g : Walker σ)
    (h : ∀ v p s, v.IsValid = true → f v p s = g v p s) :
    ∀ v p (sl : σ × List α), v.IsValid = true → traced obs f v p sl = traced obs g v p sl := by
  intro v p sl hv
  simp only [traced, h v p sl.1 hv]

theorem traced_returns {σ α : Type} (obs : Value → String → σ → α) (f : Walker σ)
    (A : Error → Prop)
    (hf : ∀ v p s, v.IsValid = true → ∃ s1 e, f v p s = some (s1, e) ∧ A e) :
    ∀ v p (sl : σ × List α), v.IsValid = true →
      ∃ s1 e, traced obs f v p sl = some (s1, e) ∧ A e := by
  intro v p sl hv
  obtain ⟨s1, e, h1, h2⟩ := hf v p sl.1 hv
  exact ⟨(s1, sl.2 ++ [obs v p sl.1]), e, by simp only [traced, h1], h2⟩
theorem walk_callback_stops {σ α : Type} (obs : Value → String → σ → α) (f : Walker σ)
    (v : Value) (p : String) (s s1 : σ) (log : List α) (e : Error)
    (hf : f v p s = some (s1, e)) (he : e ≠ .nil) :
    walk (traced obs f) v p (s, log) = some ((s1, log ++ [obs v p s]), e) := by
  rw [walk_at, traced_apply, hf]
  simp only [ne_eq, he, not_false_eq_true, if_true]

theorem walk_leaf {σ α : Type} (obs : Value → String → σ → α) (f : Walker σ)
    (k : Kind) (n : Nat) (p : String) (s s1 : σ) (log : List α)
    (hf : f (.leaf k n) p s = some (s1, .nil)) :
    walk (traced obs f) (.leaf k n) p (s, log) =
      some ((s1, log ++ [obs (.leaf k n) p s]), .nil) := by
  rw [walk_at, traced_apply, hf]
  simp only [ne_eq, not_true_eq_false, if_false]

theorem walkFields_continue {σ : Type} (w : Walker σ) (name : String) (v : Value)
    (fs : Fields) (p : String) (s s1 : σ) (e : Error)
    (h : walk w v (pathJoin p name) s = some (s1, e)) (hs : stopping e = false) :
    walkFields w (.cons name v fs) p s = walkFields w fs p s1 := by
  rw [walkFields_cons, h]
  simp only [hs, Bool.false_eq_true, if_false]

theorem walkElems_continue {σ : Type} (w : Walker σ) (v : Value) (vs : Values) (i : Nat)
    (p : String) (s s1 : σ) (e : Error)
    (h : walk w v (indexPath p i) s = some (s1, e)) (hs : stopping e = false) :
    walkElems w (.cons v vs) i p s = walkElems w vs (i + 1) p s1 := by
  rw [walkElems_cons, h]
  simp only [hs, Bool.false_eq_true, if_false]

theorem Walk_root_skip {σ α : Type} (obs : Value → String → σ → α) (f : Walker σ)
    (v : Value) (s s1 : σ) (log : List α) (hf : f v "/" s = some (s1, .WALK_SKIP)) :
    Walk v (traced obs f) (s, log) = some ((s1, log ++ [obs v "/" s]), .nil) := by
  unfold Walk
  rw [walk_callback_stops obs f v "/" s s1 log .WALK_SKIP hf (by decide)]
  rfl


theorem walkLog_iface_twice {σ : Type} (f : Walker σ) (x : Value) (p : String) (s s1 : σ)
    (log : List (Value × String × Option Error))
    (h : f (.iface x) p s = some (s1, .nil)) :
    ∃ rest, (walkLog f (.iface x) p s log).2 =
      log ++ (.iface x, p, some .nil) :: (x, p, (f x p s1).map Prod.snd) :: rest := by
  rw [walkLog, h]
  simp only [ne_eq, not_true_eq_false, if_false]
  obtain ⟨_, t, h2, _⟩ := walkLog_spec f x p s1 (log ++ [(.iface x, p, some .nil)])
  generalize walkLog f x p s1 (log ++ [(.iface x, p, some .nil)]) = r at h2 ⊢
  rcases r with ⟨_ | ⟨s2, e2⟩, l⟩
  · dsimp only at h2 ⊢
    exact ⟨t, by rw [h2, List.append_assoc]; rfl⟩
  · dsimp only at h2 ⊢
    refine ⟨t, ?_⟩
    have : (if stopping e2 = true then ((some (s2, e2) : Option (σ × Error)), l)
        else (some (s2, Error.nil), l)).2 = l := by split <;> rfl
    rw [this, h2, List.append_assoc]; rfl

theorem walkLog_callback_stops {σ : Type} (f : Walker σ) (v : Value) (p : String)
    (s s1 : σ) (log : List (Value × String × Option Error)) (e : Error)
    (hf : f v p s = some (s1, e)) (he : e ≠ .nil) :
    walkLog f v p s log = (some (s1, e), log ++ [(v, p, some e)]) := by
  rw [walkLog, hf]
  simp only [ne_eq, he, not_false_eq_true, if_true]

/-! ### Paths in the log of a walk -/

theorem walkFieldsLog_head {σ : Type} (f : Walker σ) (name : String) (v : Value)
    (fs : Fields) (p : String) (s : σ) (log : List (Value × String × Option Error)) :
    ∃ rest, (walkFieldsLog f (.cons name v fs) p s log).2 =
      log ++ (v, pathJoin p name, (f v (pathJoin p name) s).map Prod.snd) :: rest := by
  rw [walkFieldsLog]
  obtain ⟨_, t, h2, _⟩ := walkLog_spec f v (pathJoin p name) s log
  generalize walkLog f v (pathJoin p name) s log = r at h2 ⊢
  rcases r with ⟨_ | ⟨s1, e1⟩, l⟩
  · exact ⟨t, h2⟩
  · dsimp only at h2 ⊢
    by_cases hs : stopping e1 = true
    · rw [if_pos hs]
      exact ⟨t, h2⟩
    · rw [if_neg hs]
      obtain ⟨_, t2, g2, _⟩ := walkFieldsLog_spec f fs p s1 l
      exact ⟨t ++ t2, by rw [g2, h2, List.append_assoc]; rfl⟩

theorem walkElemsLog_head {σ : Type} (f : Walker σ) (v : Value) (vs : Values) (i : Nat)
    (p : String) (s : σ) (log : List (Value × String × Option Error)) :
    ∃ rest, (walkElemsLog f (.cons v vs) i p s log).2 =
      log ++ (v, indexPath p i, (f v (indexPath p i) s).map Prod.snd) :: rest := by
  rw [walkElemsLog]
  obtain ⟨_, t, h2, _⟩ := walkLog_spec f v (indexPath p i) s log
  generalize walkLog f v (indexPath p i) s log = r at h2 ⊢
  rcases r with ⟨_ | ⟨s1, e1⟩, l⟩
  · exact ⟨t, h2⟩
  · dsimp only at h2 ⊢
    by_cases hs : stopping e1 = true
    · rw [if_pos hs]
      exact ⟨t, h2⟩
    · rw [if_neg hs]
      obtain ⟨_, t2, g2, _⟩ := walkElemsLog_spec f vs (i + 1) p s1 l
      exact ⟨t ++ t2, by rw [g2, h2, List.append_assoc]; rfl⟩

theorem walkFieldsLog_next {σ : Type} (f : Walker σ) (name : String) (v : Value)
    (fs : Fields) (p : String) (s s1 : σ) (e1 : Error)
    (log l : List (Value × String × Option Error))
    (h : walkLog f v (pathJoin p name) s log = (some (s1, e1), l))
    (hs : stopping e1 = false) :
    walkFieldsLog f (.cons name v fs) p s log = walkFieldsLog f fs p s1 l := by
  rw [walkFieldsLog, h]
  simp only [hs, Bool.false_eq_true, if_false]

theorem walkElemsLog_next {σ : Type} (f : Walker σ) (v : Value) (vs : Values) (i : Nat)
    (p : String) (s s1 : σ) (e1 : Error)
    (log l : List (Value × String × Option Error))
    (h : walkLog f v (indexPath p i) s log = (some (s1, e1), l))
    (hs : stopping e1 = false) :
    walkElemsLog f (.cons v vs) i p s log = walkElemsLog f vs (i + 1) p s1 l := by
  rw [walkElemsLog, h]
  simp only [hs, Bool.false_eq_true, if_false]

theorem walkLog_struct {σ : Type} (f : Walker σ) (fs : Fields) (p : String) (s s1 : σ)
    (log : List (Value × String × Option Error))
    (h : f (.struct fs) p s = some (s1, .nil)) :
    walkLog f (.struct fs) p s log =
      walkFieldsLog f fs p s1 (log ++ [(.struct fs, p, some .nil)]) := by
  rw [walkLog, h]
  simp only [ne_eq, not_true_eq_false, if_false]

theorem walkLog_slice {σ : Type} (f : Walker σ) (es : Values) (p : String) (s s1 : σ)
    (log : List (Value × String × Option Error))
    (h : f (.slice es) p s = some (s1, .nil)) :
    walkLog f (.slice es) p s log =
      walkElemsLog f es 0 p s1 (log ++ [(.slice es, p, some .nil)]) := by
  rw [walkLog, h]
  simp only [ne_eq, not_true_eq_false, if_false]

theorem walkLog_array {σ : Type} (f : Walker σ) (es : Values) (p : String) (s s1 : σ)
    (log : List (Value × String × Option Error))
    (h : f (.array es) p s = some (s1, .nil)) :
    walkLog f (.array es) p s log =
      walkElemsLog f es 0 p s1 (log ++ [(.array es, p, some .nil)]) := by
  rw [walkLog, h]
  simp only [ne_eq, not_true_eq_false, if_false]

/-! ### The log of a traced walk that returns -/

theorem after_nil {σ : Type} (f : Walker σ) (v : Value) (p : String) (s : σ)
    (log log' : List (Value × String × Option Error)) (e : Error)
    (hv : verdictOf f v p s = (v, p, some .nil))
    (h : ∃ t, log' = (log ++ [verdictOf f v p s]) ++ t ∧ stopsLast e t) :
    ∃ t, log' = log ++ verdictOf f v p s :: t ∧ stopsLast e (verdictOf f v p s :: t) := by
  obtain ⟨t, h1, h2⟩ := h
  refine ⟨t, by rw [h1, List.append_assoc]; rfl, ?_⟩
  rw [hv]
  exact stopsLast_append e [(v, p, some .nil)] t (passed_nil v p) h2

mutual
theorem walk_verdicts {σ : Type} (f : Walker σ) :
    ∀ (v : Value) (p : String) (s : σ) (log : List (Value × String × Option Error))
      (s' : σ) (log' : List (Value × String × Option Error)) (e : Error),
      walk (traced (verdictOf f) f) v p (s, log) = some ((s', log'), e) →
        ∃ t, log' = log ++ verdictOf f v p s :: t ∧ stopsLast e (verdictOf f v p s :: t)
  | v, p, s, log, s', log', e, h => by
    rw [walk_at, traced_apply] at h
    have hv : verdictOf f v p s = (v, p, (f v p s).map Prod.snd) := rfl
    rcases hf : f v p s with _ | ⟨s1, err⟩
    · rw [hf] at h
      cases h
    · rw [hf] at h hv
      simp only [Option.map_some'] at hv
      by_cases hn : err = .nil
      · subst hn
        simp only [ne_eq, not_true_eq_false, if_false] at h
        cases v with
        | invalid => cases h
        | leaf k n =>
          simp only [Option.some.injEq, Prod.mk.injEq] at h
          obtain ⟨⟨_, rfl⟩, rfl⟩ := h
          exact ⟨[], rfl, by rw [hv]; exact stopsLast_single _ _ _⟩
        | reader c x =>
          exact after_nil f _ p s log log' e hv (walkPointee_verdicts f x p s1 _ s' log' e h)
        | ptr x =>
          exact after_nil f _ p s log log' e hv (walkPointee_verdicts f x p s1 _ s' log' e h)
        | array es =>
          exact after_nil f _ p s log log' e hv (walkElems_verdicts f es 0 p s1 _ s' log' e h)
        | slice es =>
          exact after_nil f _ p s log log' e hv (walkElems_verdicts f es 0 p s1 _ s' log' e h)
        | struct fs =>
          exact after_nil f _ p s log log' e hv (walkFields_verdicts f fs p s1 _ s' log' e h)
        | iface x =>
          apply after_nil f _ p s log log' e hv
          dsimp only at h
          rcases hr : walk (traced (verdictOf f) f) x p (s1, log ++ [verdictOf f (.iface x) p s])
            with _ | ⟨⟨s2, l2⟩, e2⟩
          · rw [hr] at h; cases h
          · rw [hr] at h
            obtain ⟨t, h1, h2⟩ := walk_verdicts f x p s1 _ s2 l2 e2 hr
            by_cases hs : stopping e2 = true
            · simp only [hs, if_true, Option.some.injEq, Prod.mk.injEq] at h
              obtain ⟨⟨_, rfl⟩, rfl⟩ := h
              exact ⟨_, h1, h2⟩
            · simp only [hs, if_false, Option.some.injEq, Prod.mk.injEq] at h
              obtain ⟨⟨_, rfl⟩, rfl⟩ := h
              exact ⟨_, h1, stopsLast_nil_of e2 _ (by simpa using hs) h2⟩
      · simp only [ne_eq, hn, not_false_eq_true, if_true, Option.some.injEq,
          Prod.mk.injEq] at h
        obtain ⟨⟨_, rfl⟩, rfl⟩ := h
        exact ⟨[], rfl, by rw [hv]; exact stopsLast_single _ _ _⟩
theorem walkPointee_verdicts {σ : Type} (f : Walker σ) :
    ∀ (x : Value) (p : String) (s : σ) (log : List (Value × String × Option Error))
      (s' : σ) (log' : List (Value × String × Option Error)) (e : Error),
      walkPointee (traced (verdictOf f) f) x p (s, log) = some ((s', log'), e) →
        ∃ t, log' = log ++ t ∧ stopsLast e t
  | x, p, s, log, s', log', e, h => by
    rw [walkPointee_at] at h
    cases x with
    | invalid => cases h
    | leaf k n =>
      simp only [Option.some.injEq, Prod.mk.injEq] at h
      obtain ⟨⟨_, rfl⟩, rfl⟩ := h
      exact ⟨[], (List.append_nil _).symm, stopsLast_empty⟩
    | reader c y =>
      simp only [Option.some.injEq, Prod.mk.injEq] at h
      obtain ⟨⟨_, rfl⟩, rfl⟩ := h
      exact ⟨[], (List.append_nil _).symm, stopsLast_empty⟩
    | ptr y =>
      simp only [Option.some.injEq, Prod.mk.injEq] at h
      obtain ⟨⟨_, rfl⟩, rfl⟩ := h
      exact ⟨[], (List.append_nil _).symm, stopsLast_empty⟩
    | array es => exact walkElems_verdicts f es 0 p s log s' log' e h
    | slice es => exact walkElems_verdicts f es 0 p s log s' log' e h
    | struct fs => exact walkFields_verdicts f fs p s log s' log' e h
    | iface y =>
      dsimp only at h
      rcases hr : walk (traced (verdictOf f) f) y p (s, log) with _ | ⟨⟨s2, l2⟩, e2⟩
      · rw [hr] at h; cases h
      · rw [hr] at h
        obtain ⟨t, h1, h2⟩ := walk_verdicts f y p s log s2 l2 e2 hr
        by_cases hs : stopping e2 = true
        · simp only [hs, if_true, Option.some.injEq, Prod.mk.injEq] at h
          obtain ⟨⟨_, rfl⟩, rfl⟩ := h
          exact ⟨_, h1, h2⟩
        · simp only [hs, if_false, Option.some.injEq, Prod.mk.injEq] at h
          obtain ⟨⟨_, rfl⟩, rfl⟩ := h
          exact ⟨_, h1, stopsLast_nil_of e2 _ (by simpa using hs) h2⟩
theorem walkElems_verdicts {σ : Type} (f : Walker σ) :
    ∀ (es : Values) (i : Nat) (p : String) (s : σ)
      (log : List (Value × String × Option Error))
      (s' : σ) (log' : List (Value × String × Option Error)) (e : Error),
      walkElems (traced (verdictOf f) f) es i p (s, log) = some ((s', log'), e) →
        ∃ t, log' = log ++ t ∧ stopsLast e t
  | .nil, i, p, s, log, s', log', e, h => by
    rw [walkElems_nil] at h
    simp only [Option.some.injEq, Prod.mk.injEq] at h
    obtain ⟨⟨_, rfl⟩, rfl⟩ := h
    exact ⟨[], (List.append_nil _).symm, stopsLast_empty⟩
  | .cons v vs, i, p, s, log, s', log', e, h => by
    rw [walkElems_cons_at] at h
    rcases hr : walk (traced (verdictOf f) f) v (indexPath p i) (s, log)
      with _ | ⟨⟨s1, l1⟩, e1⟩
    · rw [hr] at h; cases h
    · rw [hr] at h
      obtain ⟨t, h1, h2⟩ := walk_verdicts f v (indexPath p i) s log s1 l1 e1 hr
      by_cases hs : stopping e1 = true
      · simp only [hs, if_true, Option.some.injEq, Prod.mk.injEq] at h
        obtain ⟨⟨_, rfl⟩, rfl⟩ := h
        exact ⟨_, h1, h2⟩
      · simp only [hs, if_false] at h
        obtain ⟨t2, h3, h4⟩ := walkElems_verdicts f vs (i + 1) p s1 l1 s' log' e h
        refine ⟨(verdictOf f v (indexPath p i) s :: t) ++ t2, ?_, ?_⟩
        · rw [h3, h1, List.append_assoc]
        · exact stopsLast_append e _ t2 (stopsLast_passed e1 _ (by simpa using hs) h2) h4
theorem walkFields_verdicts {σ : Type} (f : Walker σ) :
    ∀ (fs : Fields) (p : String) (s : σ) (log : List (Value × String × Option Error))
      (s' : σ) (log' : List (Value × String × Option Error)) (e : Error),
      walkFields (traced (verdictOf f) f) fs p (s, log) = some ((s', log'), e) →
        ∃ t, log' = log ++ t ∧ stopsLast e t
  | .nil, p, s, log, s', log', e, h => by
    rw [walkFields_nil] at h
    simp only [Option.some.injEq, Prod.mk.injEq] at h
    obtain ⟨⟨_, rfl⟩, rfl⟩ := h
    exact ⟨[], (List.append_nil _).symm, stopsLast_empty⟩
  | .cons name v fs, p, s, log, s', log', e, h => by
    rw [walkFields_cons_at] at h
    rcases hr : walk (traced (verdictOf f) f) v (pathJoin p name) (s, log)
      with _ | ⟨⟨s1, l1⟩, e1⟩
    · rw [hr] at h; cases h
    · rw [hr] at h
      obtain ⟨t, h1, h2⟩ := walk_verdicts f v (pathJoin p name) s log s1 l1 e1 hr
      by_cases hs : stopping e1 = true
      · simp only [hs, if_true, Option.some.injEq, Prod.mk.injEq] at h
        obtain ⟨⟨_, rfl⟩, rfl⟩ := h
        exact ⟨_, h1, h2⟩
      · simp only [hs, if_false] at h
        obtain ⟨t2, h3, h4⟩ := walkFields_verdicts f fs p s1 l1 s' log' e h
        refine ⟨(verdictOf f v (pathJoin p name) s :: t) ++ t2, ?_, ?_⟩
        · rw [h3, h1, List.append_assoc]
        · exact stopsLast_append e _ t2 (stopsLast_passed e1 _ (by simpa using hs) h2) h4
end

theorem isSome_returns {σ : Type} (f : Walker σ) (hf : ∀ v p s, (f v p s).isSome = true) :
    ∀ v p s, ∃ s1 e, f v p s = some (s1, e) ∧ True := by
  intro v p s
  rcases h : f v p s with _ | ⟨s1, e⟩
  · have := hf v p s
    rw [h] at this
    cases this
  · exact ⟨s1, e, rfl, trivial⟩

theorem walk_iface_twice {σ : Type} (f : Walker σ) (hf : ∀ v p s, (f v p s).isSome = true)
    (x : Value) (p : String) (s s1 : σ) (log : List (Value × String × Option Error))
    (hx : noNil x = true) (h : f (.iface x) p s = some (s1, .nil)) :
    ∃ s' rest e, walk (traced (verdictOf f) f) (.iface x) p (s, log) =
      some ((s', log ++ (.iface x, p, some .nil) :: verdictOf f x p s1 :: rest), e) := by
  obtain ⟨⟨s', log'⟩, e, hw, _⟩ :=
    walk_returns (traced (verdictOf f) f) (fun _ => True) trivial
      (traced_returns (verdictOf f) f (fun _ => True)
        (fun v p s _ => isSome_returns f hf v p s)) (.iface x) p
      (s, log) (by simpa [noNil] using hx)
  have hw2 := hw
  rw [walk_at, traced_apply, h] at hw2
  simp only [ne_eq, not_true_eq_false, if_false] at hw2
  have hv : verdictOf f (.iface x) p s = (.iface x, p, some .nil) := by
    simp only [verdictOf, h, Option.map_some']
  rcases hr : walk (traced (verdictOf f) f) x p (s1, log ++ [verdictOf f (.iface x) p s])
    with _ | ⟨⟨s2, l2⟩, e2⟩
  · rw [hr] at hw2; cases hw2
  · rw [hr] at hw2
    obtain ⟨t, h1, _⟩ := walk_verdicts f x p s1 _ s2 l2 e2 hr
    have hl : log' = l2 := by
      by_cases hs : stopping e2 = true
      · simp only [hs, if_true, Option.some.injEq, Prod.mk.injEq] at hw2
        exact hw2.1.2.symm
      · simp only [hs, Bool.false_eq_true, if_false, Option.some.injEq, Prod.mk.injEq] at hw2
        exact hw2.1.2.symm
    refine ⟨s', t, e, ?_⟩
    rw [hw, hl, h1, hv, List.append_assoc]
    rfl

set_option maxHeartbeats 0 in
set_option maxRecDepth 100000 in
theorem pass1_traced_eq (content : List Nat) :
    Walk (mkCoff content).toValue (traced (fun _ path s => (path, s.offset)) pass1Walker)
      ({ coff := mkCoff content, offset := 0, diroff := 0 }, []) =
    some (({ coff := patchedCoff content, offset := (content.length + 180) % 4294967296, diroff := 60 },
      (layout content.length).map fun e => (e.1, e.2.1 % 4294967296)), .nil) := by
  simp only [Walk, mkCoff, Coff.toValue, Fields.ofList, Values.ofList, List.map_cons, List.map_nil,
    walk_at, walkPointee_at, walkFields_cons_at, walkFields_nil, walkElems_cons_at, walkElems_nil,
    traced_apply, pass1Walker_apply, patch, patchedCoff, layout,
    pathJoin, indexPath, toString_0, toString_1, toString_2, toString_3, toString_4, toString_5,
    toString_6, toString_7,
    FileHeader.toValue, SectionHeader32.toValue, DataItem.toValue, ImageResourceDirectory.toValue,
    ImageResourceDirectoryEntry.toValue, ImageResourceDataEntry.toValue, RelocationEntry.toValue,
    Symbol.toValue, StringsHeader.toValue, u8, u16, u32, bytes8, STRING_RSRC, Value.Kind, Plain,
    Value.asSizedReader, Value.IsValid, Bool.true_eq_false, stopping_nil, stopping_skip,
    binarySize, toUint32_natCast, toUint32_1, toUint32_2, toUint32_4,
    add32_of_lt, add32_reader, add32_after, sub32_of_le, setEntryOffsetToData,
    setDataEntryOffsetToData, setRVA, RT_MANIFEST,
    String.reduceEq, String.reduceAppend, reduceIte, Nat.reduceAdd, Nat.reduceMod, Nat.reduceSub, Nat.reduceLeDiff, Nat.reduceLT,
    ne_eq, not_true_eq_false, not_false_eq_true, reduceCtorEq,
    List.getElem?_cons_succ, List.getElem?_cons_zero, List.set_cons_succ, List.set_cons_zero, Bool.false_eq_true,
    List.nil_append, List.cons_append]


theorem pass2Walker_apply {ω : Type} (ops : WriterOps ω) (v : Value) (path : String) (w : ω) :
    pass2Walker ops v path w =
      match v with
      | .leaf k n =>
        if Plain k then some (ops.WriteLE k n w, .nil)
        else some (w, .nil)
      | .invalid => none
      | _ =>
        match v.asSizedReader with
        | some content => some (ops.WriteFromSized content w, .WALK_SKIP)
        | none => some (w, .nil) := by
  cases v <;> rfl

theorem leBytes_length (width n : Nat) : (leBytes width n).length = width := by
  simp [leBytes]

theorem WriteLE_Uint8 (n : Nat) (W : List Nat) :
    writerOps.WriteLE .Uint8 n { W := W, Err := none } = { W := W ++ leBytes 1 n, Err := none } :=
  rfl

theorem WriteLE_Uint16 (n : Nat) (W : List Nat) :
    writerOps.WriteLE .Uint16 n { W := W, Err := none } = { W := W ++ leBytes 2 n, Err := none } :=
  rfl

theorem WriteLE_Uint32 (n : Nat) (W : List Nat) :
    writerOps.WriteLE .Uint32 n { W := W, Err := none } = { W := W ++ leBytes 4 n, Err := none } :=
  rfl

theorem WriteFromSized_ok (content W : List Nat) :
    writerOps.WriteFromSized content { W := W, Err := none } =
      { W := W ++ content, Err := none } :=
  rfl

theorem length_reader (c : Nat) (l : List Nat) : c + l.length = l.length + c :=
  Nat.add_comm _ _

theorem length_after (l : List Nat) (a b : Nat) : l.length + a + b = l.length + (a + b) :=
  Nat.add_assoc _ _ _

set_option maxHeartbeats 0 in
set_option maxRecDepth 4000 in
theorem pass2_traced_eq (content : List Nat) :
    (Walk (patchedCoff content).toValue
      (traced (fun v path w => (path, w.W.length, v.written)) (pass2Walker writerOps))
      ({ W := [], Err := none }, [])).map (fun r => (r.1.1.W.length, r.1.1.Err, r.1.2, r.2)) =
    some (content.length + 180, none, layout content.length, .nil) := by
  simp only [Walk, patchedCoff, Coff.toValue, Fields.ofList, Values.ofList, List.map_cons, List.map_nil,
    walk_at, walkPointee_at, walkFields_cons_at, walkFields_nil, walkElems_cons_at, walkElems_nil,
    traced_apply, pass2Walker_apply, layout, Value.written,
    WriteLE_Uint8, WriteLE_Uint16, WriteLE_Uint32, WriteFromSized_ok,
    leBytes_length, List.length_append, List.length_nil, length_reader, length_after,
    pathJoin, indexPath, toString_0, toString_1, toString_2, toString_3, toString_4, toString_5,
    toString_6, toString_7,
    FileHeader.toValue, SectionHeader32.toValue, DataItem.toValue, ImageResourceDirectory.toValue,
    ImageResourceDirectoryEntry.toValue, ImageResourceDataEntry.toValue, RelocationEntry.toValue,
    Symbol.toValue, StringsHeader.toValue, u8, u16, u32, bytes8, STRING_RSRC, Plain,
    Value.asSizedReader, stopping_nil, stopping_skip, RT_MANIFEST,
    String.reduceEq, String.reduceAppend, reduceIte, Nat.reduceAdd,
    ne_eq, not_true_eq_false, not_false_eq_true, reduceCtorEq, Bool.false_eq_true,
    List.nil_append, List.cons_append, Option.map_some']

/-! ## The two passes of `run` in closed form -/

theorem pass1_eq (content : List Nat) :
    pass1 (mkCoff content) =
      some { coff := patchedCoff content, offset := (content.length + 180) % 4294967296,
             diroff := 60 } := by
  unfold pass1
  rw [← Walk_traced (fun _ path s => (path, s.offset)) pass1Walker _ _ [], pass1_traced_eq]
  rfl

theorem pass1Trace_eq (content : List Nat) :
    pass1Trace content =
      some ((layout content.length).map fun e => (e.1, e.2.1 % 4294967296)) := by
  unfold pass1Trace traceOf
  rw [pass1_traced_eq]
  rfl

theorem pass2Trace_eq (content : List Nat) :
    pass2Trace content = some (layout content.length) := by
  unfold pass2Trace traceOf
  rw [pass1_eq]
  obtain ⟨r, hr, hf⟩ := Option.map_eq_some'.mp (pass2_traced_eq content)
  simp only [hr, Option.map_some']
  simp only [Prod.mk.injEq] at hf
  rw [hf.2.2.1]

theorem pass2_eq (content : List Nat) :
    ∃ w : Writer, pass2 (patchedCoff content) { W := [], Err := none } = some w ∧
      w.W.length = content.length + 180 ∧ w.Err = none := by
  obtain ⟨r, hr, hf⟩ := Option.map_eq_some'.mp (pass2_traced_eq content)
  simp only [Prod.mk.injEq] at hf
  refine ⟨r.1.1, ?_, hf.1, hf.2.1⟩
  unfold pass2
  rw [← Walk_traced (fun v path w => (path, w.W.length, v.written)) (pass2Walker writerOps)
    _ _ [], hr]
  rfl

theorem run_eq (content : List Nat) :
    ∃ out : List Nat, run content = some (out, .nil) ∧ out.length = content.length + 180 := by
  obtain ⟨w, hw, hlen, herr⟩ := pass2_eq content
  refine ⟨w.W, ?_, hlen⟩
  unfold run
  simp only [pass1_eq, hw, herr]

/-! ## Facts about the layout table -/

theorem layout_offset_le (L : Nat) : ∀ e ∈ layout L, e.2.1 ≤ L + 176 := by
  intro e he
  simp only [layout, List.mem_cons, List.mem_singleton, List.not_mem_nil, or_false] at he
  rcases he with h | h | h | h | h | h | h | h | h | h | h | h | h | h | h | h | h | h | h | h |
    h | h | h | h | h | h | h | h | h | h | h | h | h | h | h | h | h | h | h | h |
    h | h | h | h | h | h | h | h | h | h | h | h | h | h | h | h | h | h | h | h |
    h | h | h | h | h | h | h | h | h | h | h | h | h | h | h | h | h | h | h | h |
    h | h | h | h | h | h | h | h | h | h | h | h | h | h | h <;> subst h <;> simp only [] <;> omega

theorem layout_mod (L : Nat) (h : 180 + L < 4294967296) :
    ((layout L).map fun e => (e.1, e.2.1 % 4294967296)) =
      (layout L).map fun e => (e.1, e.2.1) := by
  apply List.map_congr_left
  intro e he
  have := layout_offset_le L e he
  rw [Nat.mod_eq_of_lt (by omega)]

/-- C1: for every resource length L with 180 + L < 2^32, Pass 1 and Pass 2 invoke
their callbacks on the same sequence of nodes, and the running offset the Pass-1
callback observes on entering each node equals the number of bytes Pass 2 has emitted
before entering it (a plain field emits its binary.Size, the sized reader its Size()):
no gap and no overlap between consecutively emitted nodes. -/
theorem C1_pass1_offset_eq_pass2_emitted (content : List Nat)
    (h : 180 + content.length < 4294967296) :
    ∃ t1 t2, pass1Trace content = some t1 ∧ pass2Trace content = some t2 ∧
      t1 = t2.map fun e => (e.1, e.2.1) := by
  refine ⟨_, _, pass1Trace_eq content, pass2Trace_eq content, layout_mod _ h⟩

theorem C1_witness :
    180 + ([] : List Nat).length < 4294967296 ∧
    ∃ t1 t2, pass1Trace [] = some t1 ∧ pass2Trace [] = some t2 ∧
      t1 = t2.map fun e => (e.1, e.2.1) :=
  ⟨by decide, C1_pass1_offset_eq_pass2_emitted [] (by decide)⟩

theorem mask_or_24 : MASK_SUBDIRECTORY ||| 24 = 2147483672 := by decide

theorem mask_or_48 : MASK_SUBDIRECTORY ||| 48 = 2147483696 := by decide

theorem patched_entries (content : List Nat) :
    (patchedCoff content).entryOffsetToData 1 = some 2147483672 ∧
    (patchedCoff content).entryOffsetToData 3 = some 2147483696 ∧
    (patchedCoff content).entryOffsetToData 5 = some 72 := by
  simp [patchedCoff, Coff.entryOffsetToData, mask_or_24, mask_or_48]

/-- C2: for every resource length L with 180 + L < 2^32, the values Pass 2 serialises
for SectionHeader32.PointerToRawData, SectionHeader32.PointerToRelocations and
FileHeader.PointerToSymbolTable are 60, 148 + L and 158 + L, and these are the numbers
of bytes emitted before the section body (/Data, whose first field is emitted there),
the relocation table and the symbol table: Pass 2 walks the tree as Pass 1 patched it,
although Pass 1 patched the headers after walking past them. -/
theorem C2_header_pointers_serialised (content : List Nat)
    (h : 180 + content.length < 4294967296) :
    ∃ t, pass2Trace content = some t ∧
      invocationsAt t "/SectionHeader32/PointerToRawData" = [(40, some 60)] ∧
      invocationsAt t "/Data" = [(60, none)] ∧
      invocationsAt t "/Data[0]/Characteristics" = [(60, some 0)] ∧
      invocationsAt t "/SectionHeader32/PointerToRelocations" =
        [(44, some (148 + content.length))] ∧
      invocationsAt t "/Relocations" = [(148 + content.length, none)] ∧
      invocationsAt t "/Relocations[0]/RVA" = [(148 + content.length, some 72)] ∧
      invocationsAt t "/FileHeader/PointerToSymbolTable" =
        [(8, some (158 + content.length))] ∧
      invocationsAt t "/Symbols" = [(158 + content.length, none)] ∧
      invocationsAt t "/Symbols[0]/Name[0]" = [(158 + content.length, some 46)] := by
  have h1 : (content.length + 148) % 4294967296 = 148 + content.length := by omega
  have h2 : (content.length + 158) % 4294967296 = 158 + content.length := by omega
  refine ⟨_, pass2Trace_eq content, ?_, ?_, ?_, ?_, ?_, ?_, ?_, ?_, ?_⟩ <;>
    simp [layout, invocationsAt, List.filter, h1, h2] <;> omega

theorem C2_witness :
    180 + ([] : List Nat).length < 4294967296 ∧
    ∃ t, pass2Trace [] = some t ∧
      invocationsAt t "/SectionHeader32/PointerToRawData" = [(40, some 60)] ∧
      invocationsAt t "/Data" = [(60, none)] ∧
      invocationsAt t "/Data[0]/Characteristics" = [(60, some 0)] ∧
      invocationsAt t "/SectionHeader32/PointerToRelocations" =
        [(44, some (148 + ([] : List Nat).length))] ∧
      invocationsAt t "/Relocations" = [(148 + ([] : List Nat).length, none)] ∧
      invocationsAt t "/Relocations[0]/RVA" = [(148 + ([] : List Nat).length, some 72)] ∧
      invocationsAt t "/FileHeader/PointerToSymbolTable" =
        [(8, some (158 + ([] : List Nat).length))] ∧
      invocationsAt t "/Symbols" = [(158 + ([] : List Nat).length, none)] ∧
      invocationsAt t "/Symbols[0]/Name[0]" = [(158 + ([] : List Nat).length, some 46)] :=
  ⟨by decide, C2_header_pointers_serialised [] (by decide)⟩

/-- C3: for every resource length L, after Pass 1 the low 31 bits of OffsetToData of
the type-level, id-level and language-level directory entries (Data[1], Data[3],
Data[5]) are 24, 48 and 72, the section-relative offsets (bytes emitted since /Data
was entered at 60) at which Data[2], Data[4] and Data[6] start in the emitted
stream. -/
theorem C3_entry_offsets (content : List Nat) :
    ∃ s t, pass1 (mkCoff content) = some s ∧ pass2Trace content = some t ∧
      (s.coff.entryOffsetToData 1).map (· % 2147483648) = some 24 ∧
      (s.coff.entryOffsetToData 3).map (· % 2147483648) = some 48 ∧
      (s.coff.entryOffsetToData 5).map (· % 2147483648) = some 72 ∧
      invocationsAt t "/Data" = [(60, none)] ∧
      invocationsAt t "/Data[2]" = [(60 + 24, none), (60 + 24, none)] ∧
      invocationsAt t "/Data[4]" = [(60 + 48, none), (60 + 48, none)] ∧
      invocationsAt t "/Data[6]" = [(60 + 72, none), (60 + 72, none)] := by
  obtain ⟨e1, e3, e5⟩ := patched_entries content
  refine ⟨_, _, pass1_eq content, pass2Trace_eq content, ?_, ?_, ?_, ?_, ?_, ?_, ?_⟩
  · rw [e1]; rfl
  · rw [e3]; rfl
  · rw [e5]; rfl
  all_goals simp [layout, invocationsAt, List.filter]

/-- C4: for every resource length L with 180 + L < 2^32, after Pass 1 the
ImageResourceDataEntry's OffsetToData (Data[6]) is 16*3 + 8*3 + 16 = 88, the
section-relative offset at which the resource content (Data[7]) starts in the emitted
stream. -/
theorem C4_data_entry_offset (content : List Nat)
    (_h : 180 + content.length < 4294967296) :
    ∃ s t, pass1 (mkCoff content) = some s ∧ pass2Trace content = some t ∧
      (s.coff.dataEntryAt 6).map (·.OffsetToData) = some (16 * 3 + 8 * 3 + 16) ∧
      invocationsAt t "/Data" = [(60, none)] ∧
      invocationsAt t "/Data[7]" = [(60 + (16 * 3 + 8 * 3 + 16), none)] := by
  refine ⟨_, _, pass1_eq content, pass2Trace_eq content, ?_, ?_, ?_⟩
  · simp [patchedCoff, Coff.dataEntryAt]
  all_goals simp [layout, invocationsAt, List.filter]

theorem C4_witness :
    180 + ([] : List Nat).length < 4294967296 ∧
    ∃ s t, pass1 (mkCoff []) = some s ∧ pass2Trace [] = some t ∧
      (s.coff.dataEntryAt 6).map (·.OffsetToData) = some (16 * 3 + 8 * 3 + 16) ∧
      invocationsAt t "/Data" = [(60, none)] ∧
      invocationsAt t "/Data[7]" = [(60 + (16 * 3 + 8 * 3 + 16), none)] :=
  ⟨by decide, C4_data_entry_offset [] (by decide)⟩

/-- C5: for every resource length L, after Pass 1 the sole relocation's RVA is 72,
whatever L, and 72 is the section-relative offset in the emitted stream of the
OffsetToData field of the ImageResourceDataEntry (the field where the value 88 is
serialised, 132 - 60 bytes after the section body starts). -/
theorem C5_relocation_rva (content : List Nat) :
    ∃ s t, pass1 (mkCoff content) = some s ∧ pass2Trace content = some t ∧
      s.coff.relocationRVA = some 72 ∧
      invocationsAt t "/Data" = [(60, none)] ∧
      invocationsAt t "/Data[6]/OffsetToData" = [(60 + 72, some 88)] := by
  refine ⟨_, _, pass1_eq content, pass2Trace_eq content, ?_, ?_, ?_⟩
  · simp [patchedCoff, Coff.relocationRVA]
  all_goals simp [layout, invocationsAt, List.filter]

/-- C6: for every resource length L, after Pass 1 bit 31 of OffsetToData is set in
the type-level and id-level entries (Data[1], Data[3]), which point to the
directories Data[2] and Data[4], and clear in the language-level entry (Data[5]),
which points to the ImageResourceDataEntry Data[6]. -/
theorem C6_subdirectory_bit (content : List Nat) :
    ∃ s, pass1 (mkCoff content) = some s ∧
      (s.coff.entryOffsetToData 1).map (Nat.testBit · 31) = some true ∧
      (s.coff.entryOffsetToData 3).map (Nat.testBit · 31) = some true ∧
      (s.coff.entryOffsetToData 5).map (Nat.testBit · 31) = some false ∧
      s.coff.isDirectoryAt 2 = true ∧ s.coff.isDirectoryAt 4 = true ∧
      (s.coff.dataEntryAt 6).isSome = true := by
  obtain ⟨e1, e3, e5⟩ := patched_entries content
  refine ⟨_, pass1_eq content, ?_, ?_, ?_, ?_, ?_, ?_⟩
  · rw [e1]; decide
  · rw [e3]; decide
  · rw [e5]; decide
  all_goals simp [patchedCoff, Coff.isDirectoryAt, Coff.dataEntryAt]

/-- C7: for every resource length L with 180 + L < 2^32, after Pass 1
SectionHeader32.SizeOfRawData equals PointerToRelocations minus PointerToRawData,
which is 88 + L, the number of bytes Pass 2 emits between entering the section body
(/Data) and entering the relocation table (/Relocations). -/
theorem C7_size_of_raw_data (content : List Nat)
    (h : 180 + content.length < 4294967296) :
    ∃ s t, pass1 (mkCoff content) = some s ∧ pass2Trace content = some t ∧
      s.coff.SectionHeader32.SizeOfRawData =
        s.coff.SectionHeader32.PointerToRelocations -
          s.coff.SectionHeader32.PointerToRawData ∧
      s.coff.SectionHeader32.SizeOfRawData = 88 + content.length ∧
      invocationsAt t "/Data" = [(60, none)] ∧
      invocationsAt t "/Relocations" = [(60 + (88 + content.length), none)] := by
  have h1 : (content.length + 148) % 4294967296 = 148 + content.length := by omega
  have h3 : sub32 (148 + content.length) 60 = 88 + content.length := by
    unfold sub32 toUint32; omega
  refine ⟨_, _, pass1_eq content, pass2Trace_eq content, ?_, ?_, ?_, ?_⟩
  · simp only [patchedCoff, h1, h3]; omega
  · simp only [patchedCoff, h1, h3]
  · simp [layout, invocationsAt, List.filter]
  · simp [layout, invocationsAt, List.filter]; omega

theorem C7_witness :
    180 + ([] : List Nat).length < 4294967296 ∧
    ∃ s t, pass1 (mkCoff []) = some s ∧ pass2Trace [] = some t ∧
      s.coff.SectionHeader32.SizeOfRawData =
        s.coff.SectionHeader32.PointerToRelocations -
          s.coff.SectionHeader32.PointerToRawData ∧
      s.coff.SectionHeader32.SizeOfRawData = 88 + ([] : List Nat).length ∧
      invocationsAt t "/Data" = [(60, none)] ∧
      invocationsAt t "/Relocations" = [(60 + (88 + ([] : List Nat).length), none)] :=
  ⟨by decide, C7_size_of_raw_data [] (by decide)⟩

/-- C8 (counterexample): for a resource of 37 bytes the output of `run` does not have
233 bytes. -/
theorem C8_counterexample :
    ¬ ∃ out, run (List.replicate 37 0) = some (out, .nil) ∧ out.length = 233 := by
  rintro ⟨out, hrun, hlen⟩
  obtain ⟨out1, hrun1, hlen1⟩ := run_eq (List.replicate 37 0)
  rw [hrun1] at hrun
  simp only [Option.some.injEq, Prod.mk.injEq, and_true] at hrun
  subst hrun
  rw [List.length_replicate] at hlen1
  omega

/-- C8 (amended): for a resource content of 37 bytes, `run` returns nil and the
total number of bytes emitted by Pass 2 (the output file length) is
20 + 40 + 16*3 + 8*3 + 16 + 37 + 10 + 18 + 4 = 217 bytes exactly. -/
theorem C8_output_length_37 (content : List Nat) (h : content.length = 37) :
    ∃ out, run content = some (out, .nil) ∧
      out.length = 20 + 40 + 16 * 3 + 8 * 3 + 16 + 37 + 10 + 18 + 4 ∧ out.length = 217 := by
  obtain ⟨out, hrun, hlen⟩ := run_eq content
  exact ⟨out, hrun, by omega, by omega⟩

theorem C8_witness :
    (List.replicate 37 0).length = 37 ∧
    ∃ out, run (List.replicate 37 0) = some (out, .nil) ∧
      out.length = 20 + 40 + 16 * 3 + 8 * 3 + 16 + 37 + 10 + 18 + 4 ∧ out.length = 217 :=
  ⟨by decide, C8_output_length_37 (List.replicate 37 0) (by decide)⟩

/-- C9 (counterexample): for a resource of 37 bytes, after Pass 1 the
ImageResourceDataEntry's OffsetToData is 88, not 16*3 + 8*3 = 72. -/
theorem C9_counterexample :
    ∃ s, pass1 (mkCoff (List.replicate 37 0)) = some s ∧
      (s.coff.dataEntryAt 6).map (·.OffsetToData) = some 88 ∧
      (s.coff.dataEntryAt 6).map (·.OffsetToData) ≠ some (16 * 3 + 8 * 3) := by
  refine ⟨_, pass1_eq _, ?_, ?_⟩ <;> simp [patchedCoff, Coff.dataEntryAt]

/-- C9 (amended): for a resource content of 37 bytes, after Pass 1 the
ImageResourceDataEntry's OffsetToData equals 16*3 + 8*3 + 16 = 88, and this is the
offset from the section base (60) to the start of the content (Data[7]) in the
emitted stream. -/
theorem C9_data_entry_offset_37 (content : List Nat) (_h : content.length = 37) :
    ∃ s t, pass1 (mkCoff content) = some s ∧ pass2Trace content = some t ∧
      (s.coff.dataEntryAt 6).map (·.OffsetToData) = some (16 * 3 + 8 * 3 + 16) ∧
      16 * 3 + 8 * 3 + 16 = 88 ∧
      invocationsAt t "/Data" = [(60, none)] ∧
      invocationsAt t "/Data[7]" = [(60 + 88, none)] := by
  refine ⟨_, _, pass1_eq content, pass2Trace_eq content, ?_, by decide, ?_, ?_⟩
  · simp [patchedCoff, Coff.dataEntryAt]
  all_goals simp [layout, invocationsAt, List.filter]

theorem C9_witness :
    (List.replicate 37 0).length = 37 ∧
    ∃ s t, pass1 (mkCoff (List.replicate 37 0)) = some s ∧
      pass2Trace (List.replicate 37 0) = some t ∧
      (s.coff.dataEntryAt 6).map (·.OffsetToData) = some (16 * 3 + 8 * 3 + 16) ∧
      16 * 3 + 8 * 3 + 16 = 88 ∧
      invocationsAt t "/Data" = [(60, none)] ∧
      invocationsAt t "/Data[7]" = [(60 + 88, none)] :=
  ⟨by decide, C9_data_entry_offset_37 (List.replicate 37 0) (by decide)⟩

/-- C10: a resource of length 0 is laid out and emitted like any other: `run` returns
nil, the data entry's Size1 is 0, the content node (/Data[7]) leaves both the Pass-1
offset and the Pass-2 byte count unchanged (148 on entering it and on entering
/Relocations, the next node), the output is 37 bytes shorter than for a 37-byte
resource, and in general the output length for a resource of L bytes is the length
for 0 bytes plus L. -/
theorem C10_empty_resource :
    (∃ s t1 t2, pass1 (mkCoff []) = some s ∧ pass1Trace [] = some t1 ∧
      pass2Trace [] = some t2 ∧
      (s.coff.dataEntryAt 6).map (·.Size1) = some 0 ∧
      invocationsAt t1 "/Data[7]" = [148] ∧ invocationsAt t1 "/Relocations" = [148] ∧
      invocationsAt t2 "/Data[7]" = [(148, none)] ∧
      invocationsAt t2 "/Relocations" = [(148, none)]) ∧
    (∃ out0 out37, run [] = some (out0, .nil) ∧
      run (List.replicate 37 0) = some (out37, .nil) ∧ out0.length + 37 = out37.length) ∧
    (∀ content : List Nat, ∃ out0 out, run [] = some (out0, .nil) ∧
      run content = some (out, .nil) ∧ out.length = out0.length + content.length) := by
  obtain ⟨out0, hrun0, hlen0⟩ := run_eq []
  refine ⟨⟨_, _, _, pass1_eq [], pass1Trace_eq [], pass2Trace_eq [], ?_, ?_, ?_, ?_, ?_⟩,
    ?_, ?_⟩
  · simp [patchedCoff, Coff.dataEntryAt]
  · simp [layout, invocationsAt, List.filter]
  · simp [layout, invocationsAt, List.filter]
  · simp [layout, invocationsAt, List.filter]
  · simp [layout, invocationsAt, List.filter]
  · obtain ⟨out, hrun, hlen⟩ := run_eq (List.replicate 37 0)
    refine ⟨out0, out, hrun0, hrun, ?_⟩
    rw [List.length_replicate] at hlen
    simp only [List.length_nil] at hlen0
    omega
  · intro content
    obtain ⟨out, hrun, hlen⟩ := run_eq content
    refine ⟨out0, out, hrun0, hrun, ?_⟩
    simp only [List.length_nil] at hlen0
    omega

/-! ## A walk with a callback that never panics follows the listing -/

theorem firstStop_nil_or_stopping (verdict : Value → String → Error)
    (l : List (Value × String)) :
    firstStop verdict l = .nil ∨ stopping (firstStop verdict l) = true := by
  induction l with
  | nil => exact Or.inl rfl
  | cons x rest ih =>
    obtain ⟨v, p⟩ := x
    by_cases h : stopping (verdict v p) = true
    · right; simp only [firstStop, h, if_true]
    · simpa only [firstStop, h, if_false] using ih

theorem firstStop_append (verdict : Value → String → Error) (a b : List (Value × String)) :
    firstStop verdict (a ++ b) =
      if stopping (firstStop verdict a) then firstStop verdict a else firstStop verdict b := by
  induction a with
  | nil => simp [firstStop, stopping_nil]
  | cons x rest ih =>
    obtain ⟨v, p⟩ := x
    by_cases h : stopping (verdict v p) = true
    · simp only [List.cons_append, firstStop, h, if_true]
    · simpa only [List.cons_append, firstStop, h, if_false] using ih

theorem upToStop_append (verdict : Value → String → Error) (a b : List (Value × String)) :
    upToStop verdict (a ++ b) =
      if stopping (firstStop verdict a) then upToStop verdict a
      else a ++ upToStop verdict b := by
  induction a with
  | nil => simp [firstStop, upToStop, stopping_nil]
  | cons x rest ih =>
    obtain ⟨v, p⟩ := x
    by_cases h : stopping (verdict v p) = true
    · simp only [List.cons_append, firstStop, upToStop, h, if_true]
    · have h' : stopping (verdict v p) = false := by simpa using h
      by_cases hr : stopping (firstStop verdict rest) = true
      · simp [firstStop, upToStop, h', ih, hr]
      · simp [firstStop, upToStop, h', ih, hr]

theorem upToStop_of_not_stopping (verdict : Value → String → Error)
    (a : List (Value × String)) (h : stopping (firstStop verdict a) = false) :
    upToStop verdict a = a := by
  have := upToStop_append verdict a []
  simpa [h, upToStop] using this

theorem visits_of_ne_nil (verdict : Value → String → Error) (v : Value) (p : String)
    (h : verdict v p ≠ .nil) : visits verdict v p = [(v, p)] := by
  cases v <;> simp [visits, h]

theorem stopping_of_ne (e : Error) (h1 : e ≠ .nil) (h2 : e ≠ .WALK_SKIP) :
    stopping e = true := by
  simp [stopping, h1, h2]

theorem nodeResult_of_ne_nil (verdict : Value → String → Error) (v : Value) (p : String)
    (h : verdict v p ≠ .nil) : nodeResult verdict v p = verdict v p := by
  unfold nodeResult
  by_cases hs : verdict v p = .WALK_SKIP
  · simp [hs]
  · simp [hs, visits_of_ne_nil verdict v p h, firstStop, stopping_of_ne _ h hs]

theorem upToStop_singleton (verdict : Value → String → Error) (v : Value) (p : String) :
    upToStop verdict [(v, p)] = [(v, p)] := by
  by_cases h : stopping (verdict v p) = true <;> simp [upToStop, h]

theorem stopping_nodeResult (verdict : Value → String → Error) (v : Value) (p : String) :
    stopping (nodeResult verdict v p) = stopping (firstStop verdict (visits verdict v p)) := by
  unfold nodeResult
  by_cases hs : verdict v p = .WALK_SKIP
  · have hne : verdict v p ≠ .nil := by rw [hs]; decide
    simp [hs, visits_of_ne_nil verdict v p hne, firstStop, stopping_skip, stopping_nil]
  · simp [hs]

theorem nodeResult_of_stopping (verdict : Value → String → Error) (v : Value) (p : String)
    (h : stopping (nodeResult verdict v p) = true) :
    nodeResult verdict v p = firstStop verdict (visits verdict v p) := by
  unfold nodeResult at h ⊢
  by_cases hs : verdict v p = .WALK_SKIP
  · simp [hs, stopping_skip] at h
  · simp [hs]

theorem steps_append {σ : Type} (step : Value → String → σ → σ)
    (a b : List (Value × String)) (s : σ) :
    steps step (a ++ b) s = steps step b (steps step a s) := by
  simp [steps, List.foldl_append]

theorem steps_cons {σ : Type} (step : Value → String → σ → σ) (v : Value) (p : String)
    (l : List (Value × String)) (s : σ) :
    steps step ((v, p) :: l) s = steps step l (step v p s) := rfl

theorem steps_nil {σ : Type} (step : Value → String → σ → σ) (s : σ) :
    steps step [] s = s := rfl

/-- The step of a `for` loop of `walk`: after a child walk that followed its listing
`a`, the loop goes on with `rest`, which follows `b`. -/
theorem loop_step {σ α : Type} (step : Value → String → σ → σ)
    (verdict : Value → String → Error)
    (obs : Value × String → α) (a b : List (Value × String)) (r : Error)
    (hr1 : stopping r = stopping (firstStop verdict a))
    (hr2 : stopping r = true → r = firstStop verdict a)
    (s : σ) (log : List α)
    (rest : σ × List α → Option ((σ × List α) × Error))
    (hrest : ∀ s l, rest (s, l) =
      some ((steps step (upToStop verdict b) s, l ++ (upToStop verdict b).map obs),
        firstStop verdict b)) :
    (if stopping r then
        some ((steps step (upToStop verdict a) s, log ++ (upToStop verdict a).map obs), r)
      else rest (steps step (upToStop verdict a) s, log ++ (upToStop verdict a).map obs)) =
      some ((steps step (upToStop verdict (a ++ b)) s,
          log ++ (upToStop verdict (a ++ b)).map obs),
        firstStop verdict (a ++ b)) := by
  rw [firstStop_append, upToStop_append]
  by_cases h : stopping r = true
  · have h' : stopping (firstStop verdict a) = true := by rw [← hr1]; exact h
    rw [if_pos h, if_pos h', if_pos h', hr2 h]
  · have h' : stopping (firstStop verdict a) = false := by rw [← hr1]; simpa using h
    rw [if_neg h, hrest, if_neg (by rw [h']; decide), if_neg (by rw [h']; decide),
      List.map_append, upToStop_of_not_stopping verdict a h', List.append_assoc,
      steps_append]

/-- The `case reflect.Interface` arm of `walk`: a stopping error of the walk of the
held value is returned, anything else becomes nil. -/
theorem iface_step (verdict : Value → String → Error) (e : Value) (p : String) :
    (if stopping (nodeResult verdict e p) then nodeResult verdict e p else Error.nil) =
      firstStop verdict (visits verdict e p) := by
  by_cases h : stopping (nodeResult verdict e p) = true
  · rw [if_pos h, nodeResult_of_stopping verdict e p h]
  · have h' : stopping (firstStop verdict (visits verdict e p)) = false := by
      rw [← stopping_nodeResult]; simpa using h
    rcases firstStop_nil_or_stopping verdict (visits verdict e p) with h0 | h1
    · simp [h, h0]
    · rw [h'] at h1; exact absurd h1 (by decide)

theorem iface_arm {σ α : Type} (verdict : Value → String → Error) (e : Value) (p : String)
    (x : σ × List α) :
    (if stopping (nodeResult verdict e p) = true then some (x, nodeResult verdict e p)
      else some (x, Error.nil)) = some (x, firstStop verdict (visits verdict e p)) := by
  rw [← iface_step verdict e p]
  split <;> rfl

/-- The listing of a node where the verdict is nil: the node, then what is below. -/
theorem upToStop_node (verdict : Value → String → Error) (v : Value) (p : String)
    (l : List (Value × String)) (h0 : verdict v p = .nil) :
    upToStop verdict ((v, p) :: l) = (v, p) :: upToStop verdict l ∧
      firstStop verdict ((v, p) :: l) = firstStop verdict l := by
  have hst : stopping (verdict v p) = false := by rw [h0]; exact stopping_nil
  simp [upToStop, firstStop, hst]

mutual
theorem walk_pure {σ α : Type} (step : Value → String → σ → σ)
    (verdict : Value → String → Error) (obs : Value × String → α) :
    ∀ (v : Value) (p : String) (s : σ) (log : List α), noNil v = true →
      walk (traced (fun v p _ => obs (v, p)) (pureWalker step verdict)) v p (s, log) =
        some ((steps step (upToStop verdict (visits verdict v p)) s,
          log ++ (upToStop verdict (visits verdict v p)).map obs),
          nodeResult verdict v p)
  | v, p, s, log, hv => by
    rw [walk_at, traced_apply]
    by_cases h0 : verdict v p = .nil
    · have hres : nodeResult verdict v p = firstStop verdict (visits verdict v p) := by
        unfold nodeResult; simp [h0]
      rw [hres]
      simp only [pureWalker, h0, ne_eq, not_true_eq_false, if_false]
      cases v with
      | invalid => simp [noNil] at hv
      | leaf k n =>
        simp [visits, h0, upToStop, firstStop, stopping_nil, steps]
      | reader c e =>
        have ih := walkPointee_pure step verdict obs e p (step (.reader c e) p s)
          (log ++ [obs (.reader c e, p)]) (by simpa [noNil] using hv)
        dsimp only
        rw [ih]
        have hl : visits verdict (.reader c e) p =
            (.reader c e, p) :: visitsPointee verdict e p := by
          simp [visits, h0]
        obtain ⟨h1, h2⟩ := upToStop_node verdict (.reader c e) p (visitsPointee verdict e p) h0
        rw [hl, h1, h2, steps_cons, List.map_cons, List.append_assoc]
        rfl
      | ptr e =>
        have ih := walkPointee_pure step verdict obs e p (step (.ptr e) p s)
          (log ++ [obs (.ptr e, p)]) (by simpa [noNil] using hv)
        dsimp only
        rw [ih]
        have hl : visits verdict (.ptr e) p = (.ptr e, p) :: visitsPointee verdict e p := by
          simp [visits, h0]
        obtain ⟨h1, h2⟩ := upToStop_node verdict (.ptr e) p (visitsPointee verdict e p) h0
        rw [hl, h1, h2, steps_cons, List.map_cons, List.append_assoc]
        rfl
      | array es =>
        have ih := walkElems_pure step verdict obs es 0 p (step (.array es) p s)
          (log ++ [obs (.array es, p)]) (by simpa [noNil] using hv)
        dsimp only
        rw [ih]
        have hl : visits verdict (.array es) p =
            (.array es, p) :: visitsElems verdict es 0 p := by
          simp [visits, h0]
        obtain ⟨h1, h2⟩ := upToStop_node verdict (.array es) p (visitsElems verdict es 0 p) h0
        rw [hl, h1, h2, steps_cons, List.map_cons, List.append_assoc]
        rfl
      | slice es =>
        have ih := walkElems_pure step verdict obs es 0 p (step (.slice es) p s)
          (log ++ [obs (.slice es, p)]) (by simpa [noNil] using hv)
        dsimp only
        rw [ih]
        have hl : visits verdict (.slice es) p =
            (.slice es, p) :: visitsElems verdict es 0 p := by
          simp [visits, h0]
        obtain ⟨h1, h2⟩ := upToStop_node verdict (.slice es) p (visitsElems verdict es 0 p) h0
        rw [hl, h1, h2, steps_cons, List.map_cons, List.append_assoc]
        rfl
      | struct fs =>
        have ih := walkFields_pure step verdict obs fs p (step (.struct fs) p s)
          (log ++ [obs (.struct fs, p)]) (by simpa [noNil] using hv)
        dsimp only
        rw [ih]
        have hl : visits verdict (.struct fs) p =
            (.struct fs, p) :: visitsFields verdict fs p := by
          simp [visits, h0]
        obtain ⟨h1, h2⟩ := upToStop_node verdict (.struct fs) p (visitsFields verdict fs p) h0
        rw [hl, h1, h2, steps_cons, List.map_cons, List.append_assoc]
        rfl
      | iface e =>
        have ih := walk_pure step verdict obs e p (step (.iface e) p s)
          (log ++ [obs (.iface e, p)]) (by simpa [noNil] using hv)
        dsimp only
        rw [ih]
        dsimp only
        rw [iface_arm]
        have hl : visits verdict (.iface e) p = (.iface e, p) :: visits verdict e p := by
          simp [visits, h0]
        obtain ⟨h1, h2⟩ := upToStop_node verdict (.iface e) p (visits verdict e p) h0
        rw [hl, h1, h2, steps_cons, List.map_cons, List.append_assoc]
        rfl
    · simp [pureWalker, h0, visits_of_ne_nil verdict v p h0, upToStop_singleton,
        nodeResult_of_ne_nil verdict v p h0, steps]
theorem walkPointee_pure {σ α : Type} (step : Value → String → σ → σ)
    (verdict : Value → String → Error) (obs : Value × String → α) :
    ∀ (e : Value) (p : String) (s : σ) (log : List α), noNil e = true →
      walkPointee (traced (fun v p _ => obs (v, p)) (pureWalker step verdict)) e p
          (s, log) =
        some ((steps step (upToStop verdict (visitsPointee verdict e p)) s,
          log ++ (upToStop verdict (visitsPointee verdict e p)).map obs),
          firstStop verdict (visitsPointee verdict e p))
  | e, p, s, log, he => by
    cases e with
    | invalid => simp [noNil] at he
    | leaf k n => simp [walkPointee, visitsPointee, upToStop, firstStop, steps]
    | reader c e => simp [walkPointee, visitsPointee, upToStop, firstStop, steps]
    | ptr e => simp [walkPointee, visitsPointee, upToStop, firstStop, steps]
    | array es =>
      have ih := walkElems_pure step verdict obs es 0 p s log (by simpa [noNil] using he)
      simp [walkPointee, visitsPointee, ih]
    | slice es =>
      have ih := walkElems_pure step verdict obs es 0 p s log (by simpa [noNil] using he)
      simp [walkPointee, visitsPointee, ih]
    | struct fs =>
      have ih := walkFields_pure step verdict obs fs p s log (by simpa [noNil] using he)
      simp [walkPointee, visitsPointee, ih]
    | iface x =>
      have ih := walk_pure step verdict obs x p s log (by simpa [noNil] using he)
      rw [walkPointee_at]
      dsimp only
      rw [ih]
      dsimp only
      rw [iface_arm]
      simp [visitsPointee]
theorem walkElems_pure {σ α : Type} (step : Value → String → σ → σ)
    (verdict : Value → String → Error) (obs : Value × String → α) :
    ∀ (es : Values) (i : Nat) (p : String) (s : σ) (log : List α), noNilElems es = true →
      walkElems (traced (fun v p _ => obs (v, p)) (pureWalker step verdict)) es i p
          (s, log) =
        some ((steps step (upToStop verdict (visitsElems verdict es i p)) s,
          log ++ (upToStop verdict (visitsElems verdict es i p)).map obs),
          firstStop verdict (visitsElems verdict es i p))
  | .nil, i, p, s, log, _ => by simp [walkElems, visitsElems, upToStop, firstStop, steps]
  | .cons v vs, i, p, s, log, hes => by
    obtain ⟨hv, hvs⟩ := noNilElems_cons v vs hes
    rw [walkElems_cons_at, walk_pure step verdict obs v (indexPath p i) s log hv, visitsElems]
    exact loop_step step verdict obs _ _ _ (stopping_nodeResult verdict v _)
      (nodeResult_of_stopping verdict v _) s log
      (fun sl => walkElems (traced (fun v p _ => obs (v, p)) (pureWalker step verdict))
        vs (i + 1) p sl)
      (fun s l => walkElems_pure step verdict obs vs (i + 1) p s l hvs)
theorem walkFields_pure {σ α : Type} (step : Value → String → σ → σ)
    (verdict : Value → String → Error) (obs : Value × String → α) :
    ∀ (fs : Fields) (p : String) (s : σ) (log : List α), noNilFields fs = true →
      walkFields (traced (fun v p _ => obs (v, p)) (pureWalker step verdict)) fs p
          (s, log) =
        some ((steps step (upToStop verdict (visitsFields verdict fs p)) s,
          log ++ (upToStop verdict (visitsFields verdict fs p)).map obs),
          firstStop verdict (visitsFields verdict fs p))
  | .nil, p, s, log, _ => by simp [walkFields, visitsFields, upToStop, firstStop, steps]
  | .cons name v fs, p, s, log, hfs => by
    obtain ⟨hv, hrest⟩ := noNilFields_cons name v fs hfs
    rw [walkFields_cons_at, walk_pure step verdict obs v (pathJoin p name) s log hv,
      visitsFields]
    exact loop_step step verdict obs _ _ _ (stopping_nodeResult verdict v _)
      (nodeResult_of_stopping verdict v _) s log
      (fun sl => walkFields (traced (fun v p _ => obs (v, p)) (pureWalker step verdict))
        fs p sl)
      (fun s l => walkFields_pure step verdict obs fs p s l hrest)
end

theorem firstStop_ne_skip (verdict : Value → String → Error) (l : List (Value × String)) :
    firstStop verdict l ≠ .WALK_SKIP := by
  rcases firstStop_nil_or_stopping verdict l with h | h
  · rw [h]; decide
  · intro hs; rw [hs, stopping_skip] at h; exact absurd h (by decide)

/-- `Walk` over a tree without nil pointers, with a callback that never panics: the
callback is invoked along the listing of the tree, up to and including the first node
with a stopping verdict; that verdict (nil when there is none) is the result of `Walk`,
and the state is the one the steps at these nodes leave. -/
theorem Walk_pure {σ α : Type} (step : Value → String → σ → σ)
    (verdict : Value → String → Error) (obs : Value × String → α) (v : Value) (s : σ)
    (hv : noNil v = true) :
    Walk v (traced (fun v p _ => obs (v, p)) (pureWalker step verdict)) (s, []) =
      some ((steps step (upToStop verdict (visits verdict v "/")) s,
        (upToStop verdict (visits verdict v "/")).map obs),
        firstStop verdict (visits verdict v "/")) := by
  unfold Walk
  rw [walk_pure step verdict obs v "/" s [] hv, List.nil_append]
  by_cases hk : verdict v "/" = .WALK_SKIP
  · have hne : verdict v "/" ≠ .nil := by rw [hk]; decide
    simp [nodeResult, hk, visits_of_ne_nil verdict v "/" hne, firstStop, stopping_skip]
  · have hr : nodeResult verdict v "/" = firstStop verdict (visits verdict v "/") := by
      simp [nodeResult, hk]
    rw [hr]
    simp only [if_neg (firstStop_ne_skip verdict _)]

theorem traceOf_pure {σ α : Type} (step : Value → String → σ → σ)
    (verdict : Value → String → Error) (obs : Value × String → α) (v : Value) (s : σ)
    (hv : noNil v = true) :
    traceOf (fun v p _ => obs (v, p)) (pureWalker step verdict) v s =
      some ((upToStop verdict (visits verdict v "/")).map obs) := by
  simp [traceOf, Walk_pure step verdict obs v s hv]

theorem Walk_pure_eq {σ : Type} (step : Value → String → σ → σ)
    (verdict : Value → String → Error) (v : Value) (s : σ) (hv : noNil v = true) :
    Walk v (pureWalker step verdict) s =
      some (steps step (upToStop verdict (visits verdict v "/")) s,
        firstStop verdict (visits verdict v "/")) := by
  rw [← Walk_traced (fun v p _ => (v, p)) (pureWalker step verdict) v s [],
    Walk_pure step verdict (fun x => x) v s hv]
  rfl

theorem Walk_pure_result {σ : Type} (step : Value → String → σ → σ)
    (verdict : Value → String → Error) (v : Value) (s : σ) (hv : noNil v = true) :
    (Walk v (pureWalker step verdict) s).map Prod.snd =
      some (firstStop verdict (visits verdict v "/")) := by
  rw [Walk_pure_eq step verdict v s hv]
  rfl

theorem firstStop_of_never (verdict : Value → String → Error)
    (h : ∀ v p, stopping (verdict v p) = false) (l : List (Value × String)) :
    firstStop verdict l = .nil := by
  induction l with
  | nil => rfl
  | cons x rest ih => obtain ⟨v, p⟩ := x; simp [firstStop, h v p, ih]

theorem upToStop_of_never (verdict : Value → String → Error)
    (h : ∀ v p, stopping (verdict v p) = false) (l : List (Value × String)) :
    upToStop verdict l = l := by
  induction l with
  | nil => rfl
  | cons x rest ih => obtain ⟨v, p⟩ := x; simp [upToStop, h v p, ih]

theorem upToStop_split (verdict : Value → String → Error)
    (a b : List (Value × String)) (u : Value) (q : String)
    (ha : ∀ x ∈ a, stopping (verdict x.1 x.2) = false)
    (hu : stopping (verdict u q) = true) :
    upToStop verdict (a ++ (u, q) :: b) = a ++ [(u, q)] ∧
      firstStop verdict (a ++ (u, q) :: b) = verdict u q := by
  induction a with
  | nil => simp [upToStop, firstStop, hu]
  | cons x rest ih =>
    obtain ⟨v, p⟩ := x
    have hx : stopping (verdict v p) = false := ha (v, p) (List.mem_cons_self _ _)
    have := ih (fun y hy => ha y (List.mem_cons_of_mem _ hy))
    simp [upToStop, firstStop, hx, this.1, this.2]

/-! ## Skipping and aborting -/

/-- C14 (counterexample): on a struct with a scalar field A, a nil pointer field B and
a scalar field C, with a callback that returns WALK_SKIP at /A and nil elsewhere, Walk
panics after the invocation on /B: its result is not nil, and the callback is not
invoked on /C, a later sibling of the skipped node.  And on a struct with scalar fields
A and B, with a callback that returns WALK_SKIP at /A and an error at /B, the result
of Walk is that error, not nil. -/
theorem C14_counterexample :
    pureWalker (fun _ _ (s : Unit) => s)
        (fun _ p => if p = "/A" then Error.WALK_SKIP else Error.nil)
        (.leaf .Uint32 1) "/A" () = some ((), .WALK_SKIP) ∧
    Walk (.struct (.cons "A" (.leaf .Uint32 1) (.cons "B" (.ptr .invalid)
          (.cons "C" (.leaf .Uint32 2) .nil))))
        (pureWalker (fun _ _ (s : Unit) => s)
          (fun _ p => if p = "/A" then Error.WALK_SKIP else Error.nil)) () = none ∧
    WalkLog (.struct (.cons "A" (.leaf .Uint32 1) (.cons "B" (.ptr .invalid)
          (.cons "C" (.leaf .Uint32 2) .nil))))
        (pureWalker (fun _ _ (s : Unit) => s)
          (fun _ p => if p = "/A" then Error.WALK_SKIP else Error.nil)) () =
      (none,
        [(.struct (.cons "A" (.leaf .Uint32 1) (.cons "B" (.ptr .invalid)
            (.cons "C" (.leaf .Uint32 2) .nil))), "/", some .nil),
          (.leaf .Uint32 1, "/A", some .WALK_SKIP),
          (.ptr .invalid, "/B", some .nil)]) ∧
    Walk (.struct (.cons "A" (.leaf .Uint32 1) (.cons "B" (.leaf .Uint32 2) .nil)))
        (pureWalker (fun _ _ (s : Unit) => s)
          (fun _ p => if p = "/A" then Error.WALK_SKIP
            else if p = "/B" then Error.other "boom" else Error.nil)) () =
      some ((), .other "boom") := by
  exact ⟨rfl, rfl, rfl, rfl⟩

/-- C14 (amended): when the callback returns WALK_SKIP at a node, Walk invokes it on
none of that node's descendants and the enclosing struct or slice loop goes on to the
next sibling from the state the callback left, exactly as after a leaf where it
returns nil; this holds for every tree and every callback, and when the skipped node
is the root Walk returns nil.  On a tree that holds no nil pointer and no nil
interface, a callback that returns no error other than WALK_SKIP is invoked exactly
along the pre-order listing in which a skipped node has nothing below it, and Walk
returns nil. -/
theorem C14_skip_prunes_subtree {σ : Type} (step : Value → String → σ → σ)
    (verdict : Value → String → Error)
    (hv : ∀ v p, verdict v p = .nil ∨ verdict v p = .WALK_SKIP) (v : Value) (s : σ)
    (hn : noNil v = true) :
    Walk v (traced (fun v p _ => (v, p)) (pureWalker step verdict)) (s, []) =
      some ((steps step (visits verdict v "/") s, visits verdict v "/"), .nil) ∧
    Walk v (pureWalker step verdict) s = some (steps step (visits verdict v "/") s, .nil) ∧
    (∀ u q, verdict u q = .WALK_SKIP → visits verdict u q = [(u, q)]) ∧
    (∀ (α : Type) (obs : Value → String → σ → α) (f : Walker σ) (u : Value) (q : String)
        (s0 s1 : σ) (log : List α),
      f u q s0 = some (s1, .WALK_SKIP) →
        walk (traced obs f) u q (s0, log) = some ((s1, log ++ [obs u q s0]), .WALK_SKIP) ∧
        (∀ name fs p, q = pathJoin p name →
          walkFields (traced obs f) (.cons name u fs) p (s0, log) =
            walkFields (traced obs f) fs p (s1, log ++ [obs u q s0])) ∧
        (∀ i es p, q = indexPath p i →
          walkElems (traced obs f) (.cons u es) i p (s0, log) =
            walkElems (traced obs f) es (i + 1) p (s1, log ++ [obs u q s0])) ∧
        (q = "/" →
          Walk u (traced obs f) (s0, log) = some ((s1, log ++ [obs u q s0]), .nil))) ∧
    (∀ (α : Type) (obs : Value → String → σ → α) (f : Walker σ) (k : Kind) (n : Nat)
        (q : String) (s0 s1 : σ) (log : List α),
      f (.leaf k n) q s0 = some (s1, .nil) →
        walk (traced obs f) (.leaf k n) q (s0, log) =
          some ((s1, log ++ [obs (.leaf k n) q s0]), .nil) ∧
        (∀ name fs p, q = pathJoin p name →
          walkFields (traced obs f) (.cons name (.leaf k n) fs) p (s0, log) =
            walkFields (traced obs f) fs p (s1, log ++ [obs (.leaf k n) q s0])) ∧
        (∀ i es p, q = indexPath p i →
          walkElems (traced obs f) (.cons (.leaf k n) es) i p (s0, log) =
            walkElems (traced obs f) es (i + 1) p (s1, log ++ [obs (.leaf k n) q s0]))) ∧
    (∀ (f : Walker σ),
      (∀ u q s0, u.IsValid = true → ∃ s1 e, f u q s0 = some (s1, e) ∧ stopping e = false) →
        ∀ u s0, noNil u = true → ∃ s', Walk u f s0 = some (s', .nil)) := by
  have hns : ∀ v p, stopping (verdict v p) = false := by
    intro v p
    rcases hv v p with h | h <;> rw [h]
    · exact stopping_nil
    · exact stopping_skip
  have hskip : ∀ u q, verdict u q = .WALK_SKIP → visits verdict u q = [(u, q)] := by
    intro u q h
    exact visits_of_ne_nil verdict u q (by rw [h]; decide)
  refine ⟨?_, ?_, hskip, ?_, ?_, ?_⟩
  · rw [Walk_pure step verdict (fun x => x) v s hn, upToStop_of_never verdict hns,
      firstStop_of_never verdict hns, List.map_id']
  · rw [Walk_pure_eq step verdict v s hn, upToStop_of_never verdict hns,
      firstStop_of_never verdict hns]
  · intro α obs f u q s0 s1 log hf
    have hw := walk_callback_stops obs f u q s0 s1 log .WALK_SKIP hf (by decide)
    refine ⟨hw, ?_, ?_, ?_⟩
    · intro name fs p hq
      subst hq
      exact walkFields_continue _ name u fs p _ _ _ hw stopping_skip
    · intro i es p hq
      subst hq
      exact walkElems_continue _ u es i p _ _ _ hw stopping_skip
    · intro hq
      subst hq
      exact Walk_root_skip obs f u s0 s1 log hf
  · intro α obs f k n q s0 s1 log hf
    have hw := walk_leaf obs f k n q s0 s1 log hf
    refine ⟨hw, ?_, ?_⟩
    · intro name fs p hq
      subst hq
      exact walkFields_continue _ name _ fs p _ _ _ hw stopping_nil
    · intro i es p hq
      subst hq
      exact walkElems_continue _ _ es i p _ _ _ hw stopping_nil
  · intro f hf u s0 hu
    obtain ⟨s', e, h1, h2, h3⟩ :=
      Walk_returns f (fun e => stopping e = false) stopping_nil hf u s0 hu
    refine ⟨s', ?_⟩
    rw [h1]
    cases e with
    | nil => rfl
    | WALK_SKIP => exact absurd rfl h3
    | other msg => cases h2

/-- C14 at a struct with fields A, B, C and a callback that returns WALK_SKIP at /A:
the callback is invoked on the root, /A, /B and /C and Walk returns nil; and at a
callback that counts its invocations and returns WALK_SKIP at the second, on a struct
node: one invocation there, nothing below. -/
theorem C14_witness :
    (∀ (v : Value) (p : String),
      (fun (_ : Value) (p : String) => if p = "/A" then Error.WALK_SKIP else Error.nil) v p =
          Error.nil ∨
        (fun (_ : Value) (p : String) => if p = "/A" then Error.WALK_SKIP else Error.nil) v p =
          Error.WALK_SKIP) ∧
    noNil (.struct (.cons "A" (.struct (.cons "X" (.leaf .Uint32 1) .nil))
      (.cons "B" (.leaf .Uint32 2) .nil))) = true ∧
    Walk (.struct (.cons "A" (.struct (.cons "X" (.leaf .Uint32 1) .nil))
        (.cons "B" (.leaf .Uint32 2) .nil)))
        (traced (fun v p _ => (v, p))
          (pureWalker (fun _ _ (n : Nat) => n + 1)
            (fun _ p => if p = "/A" then Error.WALK_SKIP else Error.nil))) (0, []) =
      some ((3, [(.struct (.cons "A" (.struct (.cons "X" (.leaf .Uint32 1) .nil))
          (.cons "B" (.leaf .Uint32 2) .nil)), "/"),
        (.struct (.cons "X" (.leaf .Uint32 1) .nil), "/A"),
        (.leaf .Uint32 2, "/B")]), .nil) ∧
    ((fun _ _ (n : Nat) => some (n + 1, if n = 1 then Error.WALK_SKIP else Error.nil))
        (Value.struct (.cons "F" (.ptr .invalid) .nil)) "/X" 1 =
      some (2, Error.WALK_SKIP)) ∧
    walk (traced (fun _ p _ => p)
        (fun _ _ (n : Nat) => some (n + 1, if n = 1 then Error.WALK_SKIP else Error.nil)))
        (.struct (.cons "F" (.ptr .invalid) .nil)) "/X" (1, []) =
      some ((2, [] ++ ["/X"]), Error.WALK_SKIP) :=
  have h := C14_skip_prunes_subtree (fun _ _ (n : Nat) => n + 1)
    (fun _ p => if p = "/A" then Error.WALK_SKIP else Error.nil)
    (fun _ p => by by_cases hp : p = "/A" <;> simp [hp])
    (.struct (.cons "A" (.struct (.cons "X" (.leaf .Uint32 1) .nil))
      (.cons "B" (.leaf .Uint32 2) .nil))) 0 (by decide)
  ⟨fun _ p => by by_cases hp : p = "/A" <;> simp [hp], by decide,
    by simpa [visits, visitsFields, pathJoin, steps] using h.1, rfl,
    (h.2.2.2.1 String (fun _ p _ => p)
      (fun _ _ (n : Nat) => some (n + 1, if n = 1 then Error.WALK_SKIP else Error.nil))
      (.struct (.cons "F" (.ptr .invalid) .nil)) "/X" 1 2 [] rfl).1⟩

/-- C15: for every tree, when the callback returns an error other than WALK_SKIP (a
stopping error) at some node, Walk invokes the callback on no node after that one and
returns exactly that error.  For every tree and every callback, also one whose answer
depends on its state or that panics elsewhere: in the log of the invocations of the
walk, an invocation that returned a stopping error is the last invocation, and Walk
returns with exactly that error.  For a callback that never panics and whose answer
depends on the node and the path only, on a tree without nil pointers: the invocations
are the pre-order listing up to and including the first node with a stopping error. -/
theorem C15_error_aborts_walk :
    (∀ (σ : Type) (f : Walker σ) (r : Value) (s0 : σ),
      (WalkLog r f s0).1 = Walk r f s0 ∧
      (∃ rest, (WalkLog r f s0).2 = (r, "/", (f r "/" s0).map Prod.snd) :: rest) ∧
      ∀ (i : Nat) (x : Value) (p : String) (e1 : Error),
        (WalkLog r f s0).2[i]? = some (x, p, some e1) → stopping e1 = true →
          i + 1 = (WalkLog r f s0).2.length ∧ ∃ s', Walk r f s0 = some (s', e1)) ∧
    (∀ (σ : Type) (step : Value → String → σ → σ) (verdict : Value → String → Error)
        (v : Value) (s : σ) (a b : List (Value × String)) (u : Value) (q : String),
      noNil v = true →
      visits verdict v "/" = a ++ (u, q) :: b →
      (∀ x ∈ a, stopping (verdict x.1 x.2) = false) →
      stopping (verdict u q) = true →
        Walk v (traced (fun v p _ => (v, p)) (pureWalker step verdict)) (s, []) =
          some ((steps step (a ++ [(u, q)]) s, a ++ [(u, q)]), verdict u q) ∧
        Walk v (pureWalker step verdict) s =
          some (steps step (a ++ [(u, q)]) s, verdict u q)) := by
  constructor
  · intro σ f r s0
    obtain ⟨h1, t, h2, h3⟩ := WalkLog_spec f r s0
    refine ⟨h1, ⟨t, h2⟩, ?_⟩
    intro i x p e1 hi hs
    rw [h2] at hi ⊢
    exact logAgrees_unique (Walk r f s0) _ h3 i x p e1 hi hs
  · intro σ step verdict v s a b u q hn hl ha hu
    obtain ⟨h1, h2⟩ := upToStop_split verdict a b u q ha hu
    constructor
    · rw [Walk_pure step verdict (fun x => x) v s hn, hl, h1, h2, List.map_id']
    · rw [Walk_pure_eq step verdict v s hn, hl, h1, h2]

/-- C15 at a struct whose field F is a scalar and whose field G is a nil pointer, with
a callback that counts its invocations and fails at the second: the invocation on /F
is the last one and Walk returns its error; and at a struct with scalar fields F and G
whose callback fails at /F. -/
theorem C15_witness :
    ((WalkLog (.struct (.cons "F" (.leaf .Uint32 1) (.cons "G" (.ptr .invalid) .nil)))
        (fun _ _ (n : Nat) => some (n + 1, if n = 1 then Error.other "boom" else Error.nil))
        0).2[1]? = some (.leaf .Uint32 1, "/F", some (Error.other "boom")) ∧
      stopping (Error.other "boom") = true) ∧
    (1 + 1 = (WalkLog (.struct (.cons "F" (.leaf .Uint32 1) (.cons "G" (.ptr .invalid) .nil)))
        (fun _ _ (n : Nat) => some (n + 1, if n = 1 then Error.other "boom" else Error.nil))
        0).2.length ∧
      ∃ s', Walk (.struct (.cons "F" (.leaf .Uint32 1) (.cons "G" (.ptr .invalid) .nil)))
        (fun _ _ (n : Nat) => some (n + 1, if n = 1 then Error.other "boom" else Error.nil))
        0 = some (s', Error.other "boom")) ∧
    (noNil (.struct (.cons "F" (.leaf .Uint32 1) (.cons "G" (.leaf .Uint32 2) .nil))) = true ∧
      visits (fun _ p => if p = "/F" then Error.other "boom" else Error.nil)
          (.struct (.cons "F" (.leaf .Uint32 1) (.cons "G" (.leaf .Uint32 2) .nil))) "/" =
        [(.struct (.cons "F" (.leaf .Uint32 1) (.cons "G" (.leaf .Uint32 2) .nil)), "/")] ++
          (.leaf .Uint32 1, "/F") :: [(.leaf .Uint32 2, "/G")]) ∧
    Walk (.struct (.cons "F" (.leaf .Uint32 1) (.cons "G" (.leaf .Uint32 2) .nil)))
        (pureWalker (fun _ _ (n : Nat) => n + 1)
          (fun _ p => if p = "/F" then Error.other "boom" else Error.nil)) 0 =
      some (steps (fun _ _ (n : Nat) => n + 1)
        ([(.struct (.cons "F" (.leaf .Uint32 1) (.cons "G" (.leaf .Uint32 2) .nil)), "/")] ++
          [(.leaf .Uint32 1, "/F")]) 0, Error.other "boom") :=
  ⟨⟨rfl, by decide⟩,
    (C15_error_aborts_walk.1 Nat
      (fun _ _ (n : Nat) => some (n + 1, if n = 1 then Error.other "boom" else Error.nil))
      (.struct (.cons "F" (.leaf .Uint32 1) (.cons "G" (.ptr .invalid) .nil))) 0).2.2
      1 (.leaf .Uint32 1) "/F" (Error.other "boom") rfl (by decide),
    ⟨by decide, by simp [visits, visitsFields, pathJoin]⟩,
    (C15_error_aborts_walk.2 Nat (fun _ _ (n : Nat) => n + 1)
      (fun _ p => if p = "/F" then Error.other "boom" else Error.nil)
      (.struct (.cons "F" (.leaf .Uint32 1) (.cons "G" (.leaf .Uint32 2) .nil))) 0
      [(.struct (.cons "F" (.leaf .Uint32 1) (.cons "G" (.leaf .Uint32 2) .nil)), "/")]
      [(.leaf .Uint32 2, "/G")] (.leaf .Uint32 1) "/F"
      (by decide) (by simp [visits, visitsFields, pathJoin])
      (by simp [stopping]) (by simp [stopping])).2⟩

/-! ## Coverage of the tree -/

theorem visits_alwaysNil_of_not_ptr (e : Value) (p : String) (h : e.isPtr = false) :
    visits alwaysNil e p = (e, p) :: visitsPointee alwaysNil e p := by
  cases e <;> simp [visits, visitsPointee, alwaysNil, Value.isPtr] at h ⊢

theorem visits_head (verdict : Value → String → Error) (v : Value) (p : String) :
    ∃ rest, visits verdict v p = (v, p) :: rest := by
  cases v <;> simp only [visits] <;> exact ⟨_, rfl⟩

theorem covered_mono (l1 l2 : List (Value × String)) (u : Value)
    (hsub : ∀ x ∈ l1, x ∈ l2)
    (h : ∃ w ∈ l1.map Prod.fst, w = u ∨ (w.isPtr = true ∧ w.Indirect = u)) :
    ∃ w ∈ l2.map Prod.fst, w = u ∨ (w.isPtr = true ∧ w.Indirect = u) := by
  obtain ⟨w, hw, hc⟩ := h
  obtain ⟨x, hx, rfl⟩ := List.mem_map.1 hw
  exact ⟨x.1, List.mem_map.2 ⟨x, hsub x hx, rfl⟩, hc⟩

theorem covered_self (v : Value) (p : String) (rest : List (Value × String)) :
    ∃ w ∈ ((v, p) :: rest).map Prod.fst, w = v ∨ (w.isPtr = true ∧ w.Indirect = v) :=
  ⟨v, by simp, Or.inl rfl⟩

theorem covered_pointee (v e : Value) (p : String) (u : Value)
    (hv : v.isPtr = true ∧ v.Indirect = e) (he : e.isPtr = false)
    (h : ∃ w ∈ (visits alwaysNil e p).map Prod.fst,
      w = u ∨ (w.isPtr = true ∧ w.Indirect = u)) :
    ∃ w ∈ ((v, p) :: visitsPointee alwaysNil e p).map Prod.fst,
      w = u ∨ (w.isPtr = true ∧ w.Indirect = u) := by
  rw [visits_alwaysNil_of_not_ptr e p he] at h
  obtain ⟨w, hw, hc⟩ := h
  simp only [List.map_cons, List.mem_cons] at hw
  rcases hw with rfl | hw
  · rcases hc with rfl | ⟨hp, _⟩
    · exact ⟨v, by simp, Or.inr hv⟩
    · rw [he] at hp; cases hp
  · exact ⟨w, by simp only [List.map_cons, List.mem_cons]; exact Or.inr hw, hc⟩

mutual
theorem covered_visits : ∀ (v : Value) (p : String), noPtrToPtr v = true →
    ∀ u ∈ subvalues v, ∃ w ∈ (visits alwaysNil v p).map Prod.fst,
      w = u ∨ (w.isPtr = true ∧ w.Indirect = u)
  | .invalid, p, _, u, hu => by
    simp [subvalues] at hu; subst hu
    exact ⟨.invalid, by simp [visits], Or.inl rfl⟩
  | .leaf k n, p, _, u, hu => by
    simp [subvalues] at hu; subst hu
    exact ⟨.leaf k n, by simp [visits], Or.inl rfl⟩
  | .array es, p, h, u, hu => by
    have hl : visits alwaysNil (.array es) p = (.array es, p) :: visitsElems alwaysNil es 0 p := by
      simp [visits, alwaysNil]
    rw [hl]
    simp only [subvalues, List.mem_cons] at hu
    rcases hu with rfl | hu
    · exact covered_self _ p _
    · rw [noPtrToPtr] at h
      exact covered_mono _ _ u (fun x hx => List.mem_cons_of_mem _ hx)
        (covered_visitsElems es 0 p h u hu)
  | .slice es, p, h, u, hu => by
    have hl : visits alwaysNil (.slice es) p = (.slice es, p) :: visitsElems alwaysNil es 0 p := by
      simp [visits, alwaysNil]
    rw [hl]
    simp only [subvalues, List.mem_cons] at hu
    rcases hu with rfl | hu
    · exact covered_self _ p _
    · rw [noPtrToPtr] at h
      exact covered_mono _ _ u (fun x hx => List.mem_cons_of_mem _ hx)
        (covered_visitsElems es 0 p h u hu)
  | .struct fs, p, h, u, hu => by
    have hl : visits alwaysNil (.struct fs) p = (.struct fs, p) :: visitsFields alwaysNil fs p := by
      simp [visits, alwaysNil]
    rw [hl]
    simp only [subvalues, List.mem_cons] at hu
    rcases hu with rfl | hu
    · exact covered_self _ p _
    · rw [noPtrToPtr] at h
      exact covered_mono _ _ u (fun x hx => List.mem_cons_of_mem _ hx)
        (covered_visitsFields fs p h u hu)
  | .iface e, p, h, u, hu => by
    have hl : visits alwaysNil (.iface e) p = (.iface e, p) :: visits alwaysNil e p := by
      simp [visits, alwaysNil]
    rw [hl]
    simp only [subvalues, List.mem_cons] at hu
    rcases hu with rfl | hu
    · exact covered_self _ p _
    · rw [noPtrToPtr] at h
      exact covered_mono _ _ u (fun x hx => List.mem_cons_of_mem _ hx)
        (covered_visits e p h u hu)
  | .ptr e, p, h, u, hu => by
    have hl : visits alwaysNil (.ptr e) p = (.ptr e, p) :: visitsPointee alwaysNil e p := by
      simp [visits, alwaysNil]
    rw [hl]
    simp only [subvalues, List.mem_cons] at hu
    rcases hu with rfl | hu
    · exact covered_self _ p _
    · rw [noPtrToPtr] at h
      simp only [Bool.and_eq_true, Bool.not_eq_true'] at h
      exact covered_pointee (.ptr e) e p u ⟨rfl, rfl⟩ h.1 (covered_visits e p h.2 u hu)
  | .reader c e, p, h, u, hu => by
    have hl : visits alwaysNil (.reader c e) p =
        (.reader c e, p) :: visitsPointee alwaysNil e p := by
      simp [visits, alwaysNil]
    rw [hl]
    simp only [subvalues, List.mem_cons] at hu
    rcases hu with rfl | hu
    · exact covered_self _ p _
    · rw [noPtrToPtr] at h
      simp only [Bool.and_eq_true, Bool.not_eq_true'] at h
      exact covered_pointee (.reader c e) e p u ⟨rfl, rfl⟩ h.1 (covered_visits e p h.2 u hu)
theorem covered_visitsElems : ∀ (es : Values) (i : Nat) (p : String),
    noPtrToPtrElems es = true →
    ∀ u ∈ subvaluesElems es, ∃ w ∈ (visitsElems alwaysNil es i p).map Prod.fst,
      w = u ∨ (w.isPtr = true ∧ w.Indirect = u)
  | .nil, i, p, _, u, hu => by simp [subvaluesElems] at hu
  | .cons v vs, i, p, h, u, hu => by
    rw [noPtrToPtrElems] at h
    simp only [Bool.and_eq_true] at h
    simp only [subvaluesElems, List.mem_append] at hu
    rw [visitsElems]
    rcases hu with hu | hu
    · exact covered_mono _ _ u (fun x hx => List.mem_append_left _ hx)
        (covered_visits v (indexPath p i) h.1 u hu)
    · exact covered_mono _ _ u (fun x hx => List.mem_append_right _ hx)
        (covered_visitsElems vs (i + 1) p h.2 u hu)
theorem covered_visitsFields : ∀ (fs : Fields) (p : String),
    noPtrToPtrFields fs = true →
    ∀ u ∈ subvaluesFields fs, ∃ w ∈ (visitsFields alwaysNil fs p).map Prod.fst,
      w = u ∨ (w.isPtr = true ∧ w.Indirect = u)
  | .nil, p, _, u, hu => by simp [subvaluesFields] at hu
  | .cons name v fs, p, h, u, hu => by
    rw [noPtrToPtrFields] at h
    simp only [Bool.and_eq_true] at h
    simp only [subvaluesFields, List.mem_append] at hu
    rw [visitsFields]
    rcases hu with hu | hu
    · exact covered_mono _ _ u (fun x hx => List.mem_append_left _ hx)
        (covered_visits v (pathJoin p name) h.1 u hu)
    · exact covered_mono _ _ u (fun x hx => List.mem_append_right _ hx)
        (covered_visitsFields fs p h.2 u hu)
end

/-- C13 (counterexample): on a pointer to a pointer to a struct, a callback that
always returns nil is invoked on the outer pointer only, so the field of the struct is
a node of the tree on which the callback is never invoked; and on a struct whose field
A is a nil pointer and whose field B is a scalar, Walk panics after the invocation on
A, so the callback is never invoked on B. -/
theorem C13_counterexample :
    (traceOf (fun v p (_ : Unit) => (v, p)) (pureWalker (fun _ _ s => s) alwaysNil)
        (.ptr (.ptr (.struct (.cons "F" (.leaf .Uint32 0) .nil)))) () =
      some [(.ptr (.ptr (.struct (.cons "F" (.leaf .Uint32 0) .nil))), "/")] ∧
      Value.leaf .Uint32 0 ∈
        subvalues (.ptr (.ptr (.struct (.cons "F" (.leaf .Uint32 0) .nil))))) ∧
    (WalkLog (.struct (.cons "A" (.ptr .invalid) (.cons "B" (.leaf .Uint32 0) .nil)))
        (pureWalker (fun _ _ (s : Unit) => s) alwaysNil) () =
      (none,
        [(.struct (.cons "A" (.ptr .invalid) (.cons "B" (.leaf .Uint32 0) .nil)), "/",
            some .nil),
          (.ptr .invalid, "/A", some .nil)]) ∧
      Walk (.struct (.cons "A" (.ptr .invalid) (.cons "B" (.leaf .Uint32 0) .nil)))
        (pureWalker (fun _ _ (s : Unit) => s) alwaysNil) () = none ∧
      Value.leaf .Uint32 0 ∈
        subvalues (.struct (.cons "A" (.ptr .invalid) (.cons "B" (.leaf .Uint32 0) .nil)))) := by
  refine ⟨⟨rfl, ?_⟩, rfl, rfl, ?_⟩
  · simp [subvalues, subvaluesFields]
  · simp [subvalues, subvaluesFields]

/-- C13 (amended): for every finite tree that holds no nil pointer and no nil
interface and every callback that always returns nil, Walk invokes the callback along
the depth-first pre-order listing of the tree: on each node before what lies below it,
on slice and array elements by increasing index, on struct fields in declaration order;
a pointer and the value it points to are one node, passed to the callback as the
pointer; and when no pointer of the tree points to a pointer, every value of the tree
is passed to the callback, itself or as the pointer to it. -/
theorem C13_preorder_traversal {σ : Type} (step : Value → String → σ → σ) (v : Value)
    (s : σ) (hn : noNil v = true) :
    traceOf (fun v p _ => (v, p)) (pureWalker step alwaysNil) v s =
      some (visits alwaysNil v "/") ∧
    (noPtrToPtr v = true →
      ∀ u ∈ subvalues v, ∃ w ∈ (visits alwaysNil v "/").map Prod.fst,
        w = u ∨ (w.isPtr = true ∧ w.Indirect = u)) := by
  have hns : ∀ v p, stopping (alwaysNil v p) = false := fun _ _ => stopping_nil
  refine ⟨?_, covered_visits v "/"⟩
  have := traceOf_pure step alwaysNil (fun x => x) v s hn
  rw [this, upToStop_of_never alwaysNil hns, List.map_id']

/-- C13 at a pointer to a struct with one field: the callback is invoked on the
pointer, then on the field, and every value of the tree is covered. -/
theorem C13_witness :
    noNil (.ptr (.struct (.cons "F" (.leaf .Uint32 0) .nil))) = true ∧
    noPtrToPtr (.ptr (.struct (.cons "F" (.leaf .Uint32 0) .nil))) = true ∧
    traceOf (fun v p _ => (v, p)) (pureWalker (fun _ _ (n : Nat) => n) alwaysNil)
        (.ptr (.struct (.cons "F" (.leaf .Uint32 0) .nil))) 0 =
      some (visits alwaysNil (.ptr (.struct (.cons "F" (.leaf .Uint32 0) .nil))) "/") ∧
    ∀ u ∈ subvalues (.ptr (.struct (.cons "F" (.leaf .Uint32 0) .nil))),
      ∃ w ∈ (visits alwaysNil (.ptr (.struct (.cons "F" (.leaf .Uint32 0) .nil))) "/").map
          Prod.fst, w = u ∨ (w.isPtr = true ∧ w.Indirect = u) :=
  have h := C13_preorder_traversal (fun _ _ (n : Nat) => n)
    (.ptr (.struct (.cons "F" (.leaf .Uint32 0) .nil))) 0 (by decide)
  ⟨by decide, by decide, h.1, h.2 (by decide)⟩

/-- C16: Walk gives the root the path "/", the field F of a struct at path p the
path p joined with F by a single slash ("/F" when p is "/"), the element of index i of
a slice or array at path p the path p followed by "[i]" in decimal, counted from 0;
and each of the eight paths the Pass-1 patch switch matches is a path on which the
Pass-1 callback is invoked during the walk of the Coff tree.  The paths of a whole
walk are those of the listing when the tree holds no nil pointer, so that the walk
does not panic; and for every tree and every callback, in the log of the invocations
kept also when the walk panics, the root is invoked with "/", the walk of a struct is
the loop over its fields, each invoked with the joined path, and the walk of a slice
or array is the loop over its elements from index 0, each invoked with the indexed
path, the next one with the next index. -/
theorem C16_paths :
    (∀ (σ : Type) (step : Value → String → σ → σ) (v : Value) (s : σ),
      noNil v = true →
      traceOf (fun _ p _ => p) (pureWalker step alwaysNil) v s =
        some ((visits alwaysNil v "/").map Prod.snd)) ∧
    (∀ (v : Value), ∃ rest, visits alwaysNil v "/" = (v, "/") :: rest) ∧
    (∀ (F : String) (x : Value) (fs : Fields) (p : String),
      visits alwaysNil (.struct (.cons F x fs)) p =
        (.struct (.cons F x fs), p) ::
          (visits alwaysNil x (pathJoin p F) ++ visitsFields alwaysNil fs p)) ∧
    (∀ (F : String), pathJoin "/" F = "/" ++ F) ∧
    (∀ (p F : String), p ≠ "/" → pathJoin p F = p ++ "/" ++ F) ∧
    (∀ (x : Value) (xs : Values) (p : String),
      visits alwaysNil (.slice (.cons x xs)) p =
        (.slice (.cons x xs), p) ::
          (visits alwaysNil x (indexPath p 0) ++ visitsElems alwaysNil xs 1 p) ∧
      visits alwaysNil (.array (.cons x xs)) p =
        (.array (.cons x xs), p) ::
          (visits alwaysNil x (indexPath p 0) ++ visitsElems alwaysNil xs 1 p)) ∧
    (∀ (x : Value) (xs : Values) (i : Nat) (p : String),
      visitsElems alwaysNil (.cons x xs) i p =
        visits alwaysNil x (indexPath p i) ++ visitsElems alwaysNil xs (i + 1) p) ∧
    (∀ (p : String) (i : Nat), indexPath p i = p ++ "[" ++ Nat.repr i ++ "]") ∧
    (∀ content : List Nat, ∃ t, pass1Trace content = some t ∧
      ∀ key ∈ ["/Data", "/Data[2]", "/Data[4]", "/Data[6]", "/Data[6]/OffsetToData",
          "/Data[7]", "/Relocations", "/Symbols"],
        key ∈ t.map Prod.fst) ∧
    (∀ (σ : Type) (f : Walker σ) (r : Value) (s0 : σ),
      (WalkLog r f s0).1 = Walk r f s0 ∧
      ∃ rest, (WalkLog r f s0).2 = (r, "/", (f r "/" s0).map Prod.snd) :: rest) ∧
    (∀ (σ : Type) (f : Walker σ) (fs : Fields) (p : String) (s s1 : σ)
        (log : List (Value × String × Option Error)),
      f (.struct fs) p s = some (s1, .nil) →
        walkLog f (.struct fs) p s log =
          walkFieldsLog f fs p s1 (log ++ [(.struct fs, p, some .nil)])) ∧
    (∀ (σ : Type) (f : Walker σ) (F : String) (x : Value) (fs : Fields) (p : String)
        (s : σ) (log : List (Value × String × Option Error)),
      (∃ rest, (walkFieldsLog f (.cons F x fs) p s log).2 =
        log ++ (x, pathJoin p F, (f x (pathJoin p F) s).map Prod.snd) :: rest) ∧
      ∀ s1 e1 l, walkLog f x (pathJoin p F) s log = (some (s1, e1), l) →
        stopping e1 = false →
          walkFieldsLog f (.cons F x fs) p s log = walkFieldsLog f fs p s1 l) ∧
    (∀ (σ : Type) (f : Walker σ) (es : Values) (p : String) (s s1 : σ)
        (log : List (Value × String × Option Error)),
      (f (.slice es) p s = some (s1, .nil) →
        walkLog f (.slice es) p s log =
          walkElemsLog f es 0 p s1 (log ++ [(.slice es, p, some .nil)])) ∧
      (f (.array es) p s = some (s1, .nil) →
        walkLog f (.array es) p s log =
          walkElemsLog f es 0 p s1 (log ++ [(.array es, p, some .nil)]))) ∧
    (∀ (σ : Type) (f : Walker σ) (x : Value) (xs : Values) (i : Nat) (p : String)
        (s : σ) (log : List (Value × String × Option Error)),
      (∃ rest, (walkElemsLog f (.cons x xs) i p s log).2 =
        log ++ (x, indexPath p i, (f x (indexPath p i) s).map Prod.snd) :: rest) ∧
      ∀ s1 e1 l, walkLog f x (indexPath p i) s log = (some (s1, e1), l) →
        stopping e1 = false →
          walkElemsLog f (.cons x xs) i p s log = walkElemsLog f xs (i + 1) p s1 l) := by
  have hns : ∀ v p, stopping (alwaysNil v p) = false := fun _ _ => stopping_nil
  refine ⟨?_, ?_, ?_, ?_, ?_, ?_, ?_, ?_, ?_, ?_, ?_, ?_, ?_, ?_⟩
  · intro σ step v s hn
    have := traceOf_pure step alwaysNil Prod.snd v s hn
    rw [upToStop_of_never alwaysNil hns] at this
    exact this
  · intro v; exact visits_head alwaysNil v "/"
  · intro F x fs p; simp [visits, visitsFields, alwaysNil]
  · intro F; simp [pathJoin]
  · intro p F hp; simp [pathJoin, hp]
  · intro x xs p; simp [visits, visitsElems, alwaysNil]
  · intro x xs i p; simp [visitsElems]
  · intro p i; rfl
  · intro content
    refine ⟨_, pass1Trace_eq content, ?_⟩
    simp [layout]
  · intro σ f r s0
    obtain ⟨h1, t, h2, _⟩ := WalkLog_spec f r s0
    exact ⟨h1, t, h2⟩
  · intro σ f fs p s s1 log h
    exact walkLog_struct f fs p s s1 log h
  · intro σ f F x fs p s log
    exact ⟨walkFieldsLog_head f F x fs p s log,
      fun s1 e1 l h hs => walkFieldsLog_next f F x fs p s s1 e1 log l h hs⟩
  · intro σ f es p s s1 log
    exact ⟨walkLog_slice f es p s s1 log, walkLog_array f es p s s1 log⟩
  · intro σ f x xs i p s log
    exact ⟨walkElemsLog_head f x xs i p s log,
      fun s1 e1 l h hs => walkElemsLog_next f x xs i p s s1 e1 log l h hs⟩

theorem C16_witness :
    "/Data[6]" ≠ "/" ∧ pathJoin "/Data[6]" "OffsetToData" = "/Data[6]" ++ "/" ++ "OffsetToData" :=
  ⟨by decide, C16_paths.2.2.2.2.1 "/Data[6]" "OffsetToData" (by decide)⟩

/-- C17: for every resource length L, Pass 1 and Pass 2 invoke their callbacks on the
same sequence of paths, element for element; at any node where the Pass-1 callback
returns, the Pass-2 callback returns the same error (WALK_SKIP at the sized reader,
nil elsewhere). -/
theorem C17_same_path_sequence (content : List Nat) :
    (∃ t1 t2, pass1Trace content = some t1 ∧ pass2Trace content = some t2 ∧
      t1.map Prod.fst = t2.map Prod.fst) ∧
    (∀ (v : Value) (p : String) (s : Pass1) (w : Writer),
      (pass1Walker v p s).map Prod.snd = none ∨
        (pass1Walker v p s).map Prod.snd = (pass2Walker writerOps v p w).map Prod.snd) := by
  constructor
  · refine ⟨_, _, pass1Trace_eq content, pass2Trace_eq content, ?_⟩
    simp [List.map_map, Function.comp_def]
  · intro v p s w
    rw [pass1Walker_apply, pass2Walker_apply]
    rcases patch p s with _ | ⟨coff, offset, diroff⟩
    · left; rfl
    · right
      cases v with
      | leaf k n =>
        by_cases hk : Plain k = true <;> simp [Value.Kind, Value.asSizedReader, Value.IsValid, hk]
      | invalid => simp [Value.Kind, Plain, Value.IsValid]
      | reader c e => simp [Value.Kind, Plain, Value.asSizedReader, Value.IsValid]
      | array es => simp [Value.Kind, Plain, Value.asSizedReader, Value.IsValid]
      | slice es => simp [Value.Kind, Plain, Value.asSizedReader, Value.IsValid]
      | ptr e => simp [Value.Kind, Plain, Value.asSizedReader, Value.IsValid]
      | struct fs => simp [Value.Kind, Plain, Value.asSizedReader, Value.IsValid]
      | iface e => cases e <;> simp [Value.Kind, Plain, Value.asSizedReader, Value.IsValid]

/-- On every value but the zero `reflect.Value` the Pass-2 callback returns: it makes
the step `pass2Step` on the writer and returns `skipReader`. -/
theorem pass2Walker_valid {ω : Type} (ops : WriterOps ω) (v : Value) (p : String) (w : ω)
    (hv : v.IsValid = true) :
    pass2Walker ops v p w = pureWalker (pass2Step ops) skipReader v p w := by
  cases v with
  | invalid => simp [Value.IsValid] at hv
  | leaf k n =>
    by_cases hk : Plain k = true <;> simp [pass2Walker, pureWalker, pass2Step, skipReader, hk]
  | reader c e => simp [pass2Walker, pureWalker, pass2Step, skipReader, Value.asSizedReader]
  | array es => simp [pass2Walker, pureWalker, pass2Step, skipReader, Value.asSizedReader]
  | slice es => simp [pass2Walker, pureWalker, pass2Step, skipReader, Value.asSizedReader]
  | ptr e => simp [pass2Walker, pureWalker, pass2Step, skipReader, Value.asSizedReader]
  | struct fs => simp [pass2Walker, pureWalker, pass2Step, skipReader, Value.asSizedReader]
  | iface e =>
    cases e <;> simp [pass2Walker, pureWalker, pass2Step, skipReader, Value.asSizedReader]

theorem skipReader_not_stopping (v : Value) (p : String) : stopping (skipReader v p) = false := by
  unfold skipReader
  cases v <;> simp only [stopping_nil] <;> split <;> simp [stopping_nil, stopping_skip]

set_option maxHeartbeats 0 in
set_option maxRecDepth 100000 in
theorem visits_patchedCoff (content : List Nat) :
    (visits skipReader (patchedCoff content).toValue "/").map Prod.snd =
      (layout content.length).map Prod.fst := by
  simp only [patchedCoff, Coff.toValue, Fields.ofList, Values.ofList, List.map_cons, List.map_nil,
    visits, visitsPointee, visitsElems, visitsFields, skipReader, layout, List.map_append,
    pathJoin, indexPath, toString_0, toString_1, toString_2, toString_3, toString_4, toString_5,
    toString_6, toString_7,
    FileHeader.toValue, SectionHeader32.toValue, DataItem.toValue, ImageResourceDirectory.toValue,
    ImageResourceDirectoryEntry.toValue, ImageResourceDataEntry.toValue, RelocationEntry.toValue,
    Symbol.toValue, StringsHeader.toValue, u8, u16, u32, bytes8, STRING_RSRC,
    Value.asSizedReader, Option.isSome, RT_MANIFEST,
    String.reduceEq, String.reduceAppend, reduceIte, Nat.reduceAdd,
    ne_eq, not_true_eq_false, not_false_eq_true, reduceCtorEq, Bool.false_eq_true,
    List.nil_append, List.cons_append, List.append_nil]

set_option maxHeartbeats 0 in
set_option maxRecDepth 100000 in
theorem noNil_patchedCoff (content : List Nat) :
    noNil (patchedCoff content).toValue = true := by
  simp only [patchedCoff, Coff.toValue, Fields.ofList, Values.ofList, List.map_cons, List.map_nil,
    noNil, noNilElems, noNilFields,
    FileHeader.toValue, SectionHeader32.toValue, DataItem.toValue, ImageResourceDirectory.toValue,
    ImageResourceDirectoryEntry.toValue, ImageResourceDataEntry.toValue, RelocationEntry.toValue,
    Symbol.toValue, StringsHeader.toValue, u8, u16, u32, bytes8, STRING_RSRC, Bool.and_self]

/-- Pass 2 over the patched tree with any writer: the walk is the walk of the callback
that makes `pass2Step` at every node and returns `skipReader`. -/
theorem pass2_Walk_eq {ω : Type} (ops : WriterOps ω) (w0 : ω) (content : List Nat) :
    Walk (patchedCoff content).toValue (pass2Walker ops) w0 =
      some (steps (pass2Step ops) (visits skipReader (patchedCoff content).toValue "/") w0,
        .nil) := by
  rw [Walk_congr (pass2Walker ops) (pureWalker (pass2Step ops) skipReader)
      (fun v p w hv => pass2Walker_valid ops v p w hv) _ w0 (noNil_patchedCoff content),
    Walk_pure_eq (pass2Step ops) skipReader _ w0 (noNil_patchedCoff content),
    upToStop_of_never skipReader skipReader_not_stopping,
    firstStop_of_never skipReader skipReader_not_stopping]

theorem pass2_trace_paths {ω : Type} (ops : WriterOps ω) (w0 : ω) (content : List Nat) :
    traceOf (fun _ p _ => p) (pass2Walker ops) (patchedCoff content).toValue w0 =
      some ((layout content.length).map Prod.fst) := by
  unfold traceOf
  rw [Walk_congr (traced (fun _ p _ => p) (pass2Walker ops))
      (traced (fun _ p _ => p) (pureWalker (pass2Step ops) skipReader))
      (traced_congr (fun _ p _ => p) _ _ (fun v p w hv => pass2Walker_valid ops v p w hv))
      _ (w0, []) (noNil_patchedCoff content)]
  have := traceOf_pure (pass2Step ops) skipReader Prod.snd (patchedCoff content).toValue w0
    (noNil_patchedCoff content)
  rw [upToStop_of_never skipReader skipReader_not_stopping, visits_patchedCoff] at this
  exact this

theorem runWith_eq {ω : Type} (ops : WriterOps ω) (errOf : ω → Option String)
    (outOf : ω → List Nat) (w0 : ω) (content : List Nat) :
    runWith ops errOf outOf w0 content =
      match errOf (steps (pass2Step ops)
          (visits skipReader (patchedCoff content).toValue "/") w0) with
      | some e =>
        some (outOf (steps (pass2Step ops)
            (visits skipReader (patchedCoff content).toValue "/") w0),
          .other ("Error writing output file: " ++ e))
      | none =>
        some (outOf (steps (pass2Step ops)
          (visits skipReader (patchedCoff content).toValue "/") w0), .nil) := by
  unfold runWith
  rw [pass1_eq content]
  dsimp only
  rw [pass2_Walk_eq ops w0 content]

theorem run_runWith (content : List Nat) :
    run content =
      runWith writerOps (fun w => w.Err) (fun w => w.W) { W := [], Err := none } content := by
  unfold run runWith pass2
  rcases pass1 (mkCoff content) with _ | s
  · rfl
  · dsimp only
    rcases Walk s.coff.toValue (pass2Walker writerOps) { W := [], Err := none }
      with _ | ⟨w, e⟩
    · rfl
    · rfl

theorem counting_WriteLE (k : Kind) (n c : Nat) (e : Option String) :
    countingOps.WriteLE k n (c, e) = (c + 1, some "write failed") := rfl

theorem counting_WriteFromSized (l : List Nat) (c : Nat) (e : Option String) :
    countingOps.WriteFromSized l (c, e) = (c + 1, some "write failed") := rfl

set_option maxHeartbeats 0 in
set_option maxRecDepth 100000 in
theorem pass2_counting_traced_eq :
    Walk (patchedCoff []).toValue
      (traced (fun _ path w => (path, w.1, w.2.isSome)) (pass2Walker countingOps))
      ((0, none), []) =
    some (((70, some "write failed"),
      List.zipWith (fun e c => (e.1, c, !(e.1 == "/" || e.1 == "/FileHeader" ||
          e.1 == "/FileHeader/Machine")))
        (layout 0)
        [0, 0, 0, 1, 2, 3, 4, 5, 6, 7, 7, 7, 8, 9, 10, 11, 12, 13, 14, 15, 16, 17, 18, 19, 20, 21, 22, 23, 24, 24, 24, 24, 25, 26, 27, 28, 29, 30, 30, 30, 31, 32, 32, 32, 33, 34, 35, 36, 37, 38, 38, 38, 39, 40, 40, 40, 41, 42, 43, 44, 45, 46, 46, 46, 47, 48, 48, 48, 49, 50, 51, 52, 53, 53, 53, 54, 55, 56, 56, 56, 56, 57, 58, 59, 60, 61, 62, 63, 64, 65, 66, 67, 68, 69, 69]), .nil) := by
  simp only [Walk, patchedCoff, Coff.toValue, Fields.ofList, Values.ofList, List.map_cons, List.map_nil,
    walk_at, walkPointee_at, walkFields_cons_at, walkFields_nil, walkElems_cons_at, walkElems_nil,
    traced_apply, pass2Walker_apply, layout, List.zipWith,
    counting_WriteLE, counting_WriteFromSized, Option.isSome,
    pathJoin, indexPath, toString_0, toString_1, toString_2, toString_3, toString_4, toString_5,
    toString_6, toString_7,
    FileHeader.toValue, SectionHeader32.toValue, DataItem.toValue, ImageResourceDirectory.toValue,
    ImageResourceDirectoryEntry.toValue, ImageResourceDataEntry.toValue, RelocationEntry.toValue,
    Symbol.toValue, StringsHeader.toValue, u8, u16, u32, bytes8, STRING_RSRC, Plain,
    Value.asSizedReader, stopping_nil, stopping_skip, RT_MANIFEST,
    String.reduceEq, String.reduceAppend, String.reduceBEq, reduceIte, Nat.reduceAdd,
    Bool.or_false, Bool.or_true, Bool.not_true, Bool.not_false, Bool.false_or, Bool.true_or,
    ne_eq, not_true_eq_false, not_false_eq_true, reduceCtorEq, Bool.false_eq_true,
    List.nil_append, List.cons_append, Option.map_some']

/-- C18 (counterexample): with a writer whose every write fails and that counts the
writes requested of it, Pass 2 enters /FileHeader/Machine, the first node it writes,
with no write requested and no error recorded, and still invokes the callback on the
nodes after it, down to the last, with the error set and one more write requested at
each plain node: 70 writes in all; and run reports the failure once the walk is
over. -/
theorem C18_counterexample :
    (∃ t w, Walk (patchedCoff []).toValue
        (traced (fun _ path w => (path, w.1, w.2.isSome)) (pass2Walker countingOps))
        ((0, none), []) = some ((w, t), .nil) ∧
      w = (70, some "write failed") ∧
      invocationsAt t "/FileHeader/Machine" = [(0, false)] ∧
      invocationsAt t "/FileHeader/NumberOfSections" = [(1, true)] ∧
      invocationsAt t "/FileHeader/TimeDateStamp" = [(2, true)] ∧
      invocationsAt t "/StringsHeader/Length" = [(69, true)]) ∧
    runWith countingOps (fun w => w.2) (fun _ => []) (0, none) [] =
      some ([], .other "Error writing output file: write failed") := by
  constructor
  · refine ⟨_, _, pass2_counting_traced_eq, rfl, ?_, ?_, ?_, ?_⟩ <;>
      simp [layout, invocationsAt, List.filter, List.zipWith]
  · have hw := Walk_traced (fun _ path (w : Nat × Option String) => (path, w.1, w.2.isSome))
      (pass2Walker countingOps) (patchedCoff []).toValue (0, none) []
    rw [pass2_counting_traced_eq] at hw
    unfold runWith
    rw [pass1_eq []]
    dsimp only
    rw [← hw]
    rfl

/-- C18 (amended): a write failure during Pass 2 does not abort the traversal:
whatever the writer does, the Pass-2 callback returns nil (WALK_SKIP at the sized
reader) and never an error, so with any writer Pass 2 invokes the callback on every
path of the walk, in the same order, making its step on the writer at each (a write
at every plain node and at the reader), and Walk returns nil; the failure is reported
after the walk: run returns the error "Error writing output file: ..." exactly when
the writer left by the whole walk has `Err` set. -/
theorem C18_write_failure_does_not_abort {ω : Type} (ops : WriterOps ω)
    (errOf : ω → Option String) (outOf : ω → List Nat) (w0 : ω) (content : List Nat) :
    (∀ v p w, v.IsValid = true →
      pass2Walker ops v p w = some (pass2Step ops v p w, skipReader v p) ∧
      stopping (skipReader v p) = false) ∧
    traceOf (fun _ p _ => p) (pass2Walker ops) (patchedCoff content).toValue w0 =
      some ((layout content.length).map Prod.fst) ∧
    Walk (patchedCoff content).toValue (pass2Walker ops) w0 =
      some (steps (pass2Step ops) (visits skipReader (patchedCoff content).toValue "/") w0,
        .nil) ∧
    runWith ops errOf outOf w0 content =
      (match errOf (steps (pass2Step ops)
          (visits skipReader (patchedCoff content).toValue "/") w0) with
      | some e =>
        some (outOf (steps (pass2Step ops)
            (visits skipReader (patchedCoff content).toValue "/") w0),
          .other ("Error writing output file: " ++ e))
      | none =>
        some (outOf (steps (pass2Step ops)
          (visits skipReader (patchedCoff content).toValue "/") w0), .nil)) ∧
    run content =
      runWith writerOps (fun w => w.Err) (fun w => w.W) { W := [], Err := none } content :=
  ⟨fun v p w hv => ⟨pass2Walker_valid ops v p w hv, skipReader_not_stopping v p⟩,
    pass2_trace_paths ops w0 content, pass2_Walk_eq ops w0 content,
    runWith_eq ops errOf outOf w0 content, run_runWith content⟩

/-- C18 at the writer whose every write fails, for the empty manifest: the callback
returns nil at a plain node although the write has failed, and the walk goes through
all 95 invocations. -/
theorem C18_witness :
    (Value.leaf .Uint16 332).IsValid = true ∧
    (pass2Walker failingOps (.leaf .Uint16 332) "/FileHeader/Machine"
        { W := [], Err := none } =
      some (pass2Step failingOps (.leaf .Uint16 332) "/FileHeader/Machine"
        { W := [], Err := none }, skipReader (.leaf .Uint16 332) "/FileHeader/Machine") ∧
      stopping (skipReader (.leaf .Uint16 332) "/FileHeader/Machine") = false) ∧
    traceOf (fun _ p _ => p) (pass2Walker failingOps) (patchedCoff []).toValue
        { W := [], Err := none } =
      some ((layout ([] : List Nat).length).map Prod.fst) :=
  have h := C18_write_failure_does_not_abort failingOps (fun w => w.Err) (fun w => w.W)
    { W := [], Err := none } []
  ⟨rfl, h.1 (.leaf .Uint16 332) "/FileHeader/Machine" { W := [], Err := none } rfl, h.2.1⟩

/-! ## Repeating a patch -/

theorem setEntryOffsetToData_idem (data d : List DataItem) (i x : Nat)
    (h : setEntryOffsetToData data i x = some d) : setEntryOffsetToData d i x = some d := by
  unfold setEntryOffsetToData at h
  split at h
  · rename_i e he
    simp only [Option.some.injEq] at h
    subst h
    have hi : i < data.length := by
      rcases List.getElem?_eq_some.mp he with ⟨hi, _⟩; exact hi
    simp [setEntryOffsetToData, List.getElem?_set_self hi, List.set_set]
  · exact absurd h (by simp)

theorem setDataEntryOffsetToData_idem (data d : List DataItem) (i x : Nat)
    (h : setDataEntryOffsetToData data i x = some d) :
    setDataEntryOffsetToData d i x = some d := by
  unfold setDataEntryOffsetToData at h
  split at h
  · rename_i e he
    simp only [Option.some.injEq] at h
    subst h
    have hi : i < data.length := by
      rcases List.getElem?_eq_some.mp he with ⟨hi, _⟩; exact hi
    simp [setDataEntryOffsetToData, List.getElem?_set_self hi, List.set_set]
  · exact absurd h (by simp)

theorem setRVA_idem (rs r : List RelocationEntry) (x : Nat) (h : setRVA rs x = some r) :
    setRVA r x = some r := by
  cases rs with
  | nil => simp [setRVA] at h
  | cons a rest => simp [setRVA] at h; subst h; simp [setRVA]

theorem patch_idem (path : String) (s s1 : Pass1) (h : patch path s = some s1) :
    patch path s1 = some s1 ∧ s1.offset = s.offset := by
  obtain ⟨⟨fh, sh, data, relocs, syms, strs⟩, offset, diroff⟩ := s
  by_cases h1 : path = "/Data"
  · subst h1
    simp only [patch, reduceIte, Option.some.injEq] at h
    subst h
    exact ⟨by simp only [patch, reduceIte], rfl⟩
  by_cases h2 : path = "/Data[2]"
  · subst h2
    simp only [patch, String.reduceEq, reduceIte] at h
    rcases hd : setEntryOffsetToData data 1 (MASK_SUBDIRECTORY ||| sub32 offset diroff) with _ | d
    · rw [hd] at h; exact absurd h (by simp)
    · rw [hd] at h
      simp only [Option.some.injEq] at h
      subst h
      exact ⟨by simp only [patch, String.reduceEq, reduceIte, setEntryOffsetToData_idem _ _ _ _ hd], rfl⟩
  by_cases h3 : path = "/Data[4]"
  · subst h3
    simp only [patch, String.reduceEq, reduceIte] at h
    rcases hd : setEntryOffsetToData data 3 (MASK_SUBDIRECTORY ||| sub32 offset diroff) with _ | d
    · rw [hd] at h; exact absurd h (by simp)
    · rw [hd] at h
      simp only [Option.some.injEq] at h
      subst h
      exact ⟨by simp only [patch, String.reduceEq, reduceIte, setEntryOffsetToData_idem _ _ _ _ hd], rfl⟩
  by_cases h4 : path = "/Data[6]"
  · subst h4
    simp only [patch, String.reduceEq, reduceIte] at h
    rcases hd : setEntryOffsetToData data 5 (sub32 offset diroff) with _ | d
    · rw [hd] at h; exact absurd h (by simp)
    · rw [hd] at h
      simp only [Option.some.injEq] at h
      subst h
      exact ⟨by simp only [patch, String.reduceEq, reduceIte, setEntryOffsetToData_idem _ _ _ _ hd], rfl⟩
  by_cases h5 : path = "/Data[6]/OffsetToData"
  · subst h5
    simp only [patch, String.reduceEq, reduceIte] at h
    rcases hd : setRVA relocs (sub32 offset diroff) with _ | d
    · rw [hd] at h; exact absurd h (by simp)
    · rw [hd] at h
      simp only [Option.some.injEq] at h
      subst h
      exact ⟨by simp only [patch, String.reduceEq, reduceIte, setRVA_idem _ _ _ hd], rfl⟩
  by_cases h6 : path = "/Data[7]"
  · subst h6
    simp only [patch, String.reduceEq, reduceIte] at h
    rcases hd : setDataEntryOffsetToData data 6 (sub32 offset diroff) with _ | d
    · rw [hd] at h; exact absurd h (by simp)
    · rw [hd] at h
      simp only [Option.some.injEq] at h
      subst h
      exact ⟨by simp only [patch, String.reduceEq, reduceIte, setDataEntryOffsetToData_idem _ _ _ _ hd], rfl⟩
  by_cases h7 : path = "/Relocations"
  · subst h7
    simp only [patch, String.reduceEq, reduceIte, Option.some.injEq] at h
    subst h
    exact ⟨by simp only [patch, String.reduceEq, reduceIte], rfl⟩
  by_cases h8 : path = "/Symbols"
  · subst h8
    simp only [patch, String.reduceEq, reduceIte, Option.some.injEq] at h
    subst h
    exact ⟨by simp only [patch, String.reduceEq, reduceIte], rfl⟩
  · simp only [patch, h1, h2, h3, h4, h5, h6, h7, h8, reduceIte, Option.some.injEq] at h
    subst h
    exact ⟨by simp only [patch, h1, h2, h3, h4, h5, h6, h7, h8, reduceIte], rfl⟩

/-- C19: for an element of interface type (any interface node), walk invokes the
callback on the interface value and then, with the same path, on the value it holds,
unless the first invocation returns non-nil, after which nothing below is visited; in
Pass 1 over the Coff tree both invocations on /Data[0] to /Data[6] observe the same
running offset, the first returns the patched state unchanged and the patch repeated
on it changes nothing, so each patch keyed on such a path writes the same value both
times; on /Data[7] the callback is invoked once, and the next node is entered with
the offset 148 + L (mod 2^32): the resource length is added once. The double
invocation holds for any callback that never panics, also one whose answer depends
on its state: after nil on the interface value the next invocation is on the value it
holds, with the same path; after a non-nil answer there is no further invocation.
(A walk returns when the tree holds no nil pointer and no nil interface; in the log
kept also when it panics, the two invocations are there for every tree.) -/
theorem C19_interface_double_invocation :
    (∀ (σ : Type) (step : Value → String → σ → σ) (verdict : Value → String → Error)
        (e : Value) (p : String) (s : σ) (log : List (Value × String)),
      noNil e = true →
      ∃ s', walk (traced (fun v p _ => (v, p)) (pureWalker step verdict)) (.iface e) p
          (s, log) =
        some ((s', log ++ upToStop verdict (visits verdict (.iface e) p)),
          nodeResult verdict (.iface e) p)) ∧
    (∀ (verdict : Value → String → Error) (e : Value) (p : String),
      verdict (.iface e) p = .nil →
        ∃ rest, upToStop verdict (visits verdict (.iface e) p) =
          (.iface e, p) :: (e, p) :: rest) ∧
    (∀ (verdict : Value → String → Error) (e : Value) (p : String),
      verdict (.iface e) p ≠ .nil →
        upToStop verdict (visits verdict (.iface e) p) = [(.iface e, p)]) ∧
    (∀ content : List Nat, ∃ t, pass1Trace content = some t ∧
      invocationsAt t "/Data[0]" = [60, 60] ∧ invocationsAt t "/Data[1]" = [76, 76] ∧
      invocationsAt t "/Data[2]" = [84, 84] ∧ invocationsAt t "/Data[3]" = [100, 100] ∧
      invocationsAt t "/Data[4]" = [108, 108] ∧ invocationsAt t "/Data[5]" = [124, 124] ∧
      invocationsAt t "/Data[6]" = [132, 132] ∧ invocationsAt t "/Data[7]" = [148] ∧
      invocationsAt t "/Relocations" = [(content.length + 148) % 4294967296]) ∧
    (∀ (e : Value) (p : String) (s : Pass1),
      pass1Walker (.iface (.ptr e)) p s = (patch p s).map fun s1 => (s1, .nil)) ∧
    (∀ (p : String) (s s1 : Pass1), patch p s = some s1 →
      patch p s1 = some s1 ∧ s1.offset = s.offset) ∧
    (∀ (σ : Type) (f : Walker σ), (∀ v p s, (f v p s).isSome = true) →
      ∀ (x : Value) (p : String) (s s1 : σ) (log : List (Value × String × Option Error)),
        noNil x = true →
        f (.iface x) p s = some (s1, .nil) →
          ∃ s' rest e, walk (traced (verdictOf f) f) (.iface x) p (s, log) =
            some ((s', log ++ (.iface x, p, some .nil) :: verdictOf f x p s1 :: rest), e)) ∧
    (∀ (σ : Type) (f : Walker σ) (x : Value) (p : String) (s s1 : σ) (e : Error)
        (log : List (Value × String × Option Error)),
      f (.iface x) p s = some (s1, e) → e ≠ .nil →
        walk (traced (verdictOf f) f) (.iface x) p (s, log) =
          some ((s1, log ++ [(.iface x, p, some e)]), e)) ∧
    (∀ (σ : Type) (f : Walker σ) (x : Value) (p : String) (s s1 : σ)
        (log : List (Value × String × Option Error)),
      f (.iface x) p s = some (s1, .nil) →
        (walkLog f (.iface x) p s log).1 = walk f (.iface x) p s ∧
        ∃ rest, (walkLog f (.iface x) p s log).2 =
          log ++ (.iface x, p, some .nil) :: (x, p, (f x p s1).map Prod.snd) :: rest) := by
  refine ⟨?_, ?_, ?_, ?_, ?_, patch_idem, ?_, ?_, ?_⟩
  · intro σ step verdict e p s log hn
    exact ⟨_, by
      rw [walk_pure step verdict (fun x => x) (.iface e) p s log (by simpa [noNil] using hn),
        List.map_id']⟩
  · intro verdict e p h
    obtain ⟨rest, hr⟩ := visits_head verdict e p
    have hst : stopping (verdict (.iface e) p) = false := by rw [h]; exact stopping_nil
    by_cases hs : stopping (verdict e p) = true
    · exact ⟨[], by simp [visits, h, hr, upToStop, hst, hs, stopping_nil]⟩
    · exact ⟨upToStop verdict rest, by simp [visits, h, hr, upToStop, hst, hs, stopping_nil]⟩
  · intro verdict e p h
    rw [visits_of_ne_nil verdict _ p h, upToStop_singleton]
  · intro content
    refine ⟨_, pass1Trace_eq content, ?_, ?_, ?_, ?_, ?_, ?_, ?_, ?_, ?_⟩ <;>
      simp [layout, invocationsAt, List.filter]
  · intro e p s
    rw [pass1Walker_apply]
    rcases patch p s with _ | ⟨coff, offset, diroff⟩
    · rfl
    · simp [Value.Kind, Plain, Value.asSizedReader, Value.IsValid]
  · intro σ f hf x p s s1 log hx h
    exact walk_iface_twice f hf x p s s1 log hx h
  · intro σ f x p s s1 e log h he
    rw [walk_callback_stops (verdictOf f) f (.iface x) p s s1 log e h he]
    simp only [verdictOf, h, Option.map_some']
  · intro σ f x p s s1 log h
    exact ⟨(walkLog_spec f (.iface x) p s log).1, walkLog_iface_twice f x p s s1 log h⟩

theorem C19_witness :
    patch "/Symbols" { coff := patchedCoff [], offset := 158, diroff := 60 } =
      some { coff := patchedCoff [], offset := 158, diroff := 60 } ∧
    (patch "/Symbols" { coff := patchedCoff [], offset := 158, diroff := 60 } =
      some { coff := patchedCoff [], offset := 158, diroff := 60 } ∧
     (158 : Nat) = 158) :=
  ⟨by rfl, C19_interface_double_invocation.2.2.2.2.2.1 "/Symbols"
    { coff := patchedCoff [], offset := 158, diroff := 60 }
    { coff := patchedCoff [], offset := 158, diroff := 60 } (by rfl)⟩

theorem patched_general (content : List Nat) :
    ∃ s t, pass1 (mkCoff content) = some s ∧ pass2Trace content = some t ∧
      s.offset = (180 + content.length) % 4294967296 ∧
      s.coff.FileHeader.PointerToSymbolTable = (158 + content.length) % 4294967296 ∧
      s.coff.SectionHeader32.PointerToRelocations = (148 + content.length) % 4294967296 ∧
      invocationsAt t "/Symbols" = [(158 + content.length, none)] := by
  refine ⟨_, _, pass1_eq content, pass2Trace_eq content, ?_, ?_, ?_, ?_⟩
  · simp only [Nat.add_comm]
  · simp only [patchedCoff, Nat.add_comm]
  · simp only [patchedCoff, Nat.add_comm]
  · simp [layout, invocationsAt, List.filter]; omega

/-- C20: every Pass-1 offset is the true byte offset reduced modulo 2^32 (uint32
arithmetic); when 180 + L < 2^32 nothing wraps: the Pass-1 offsets are the Pass-2 byte
counts and the patched fields are the exact offsets (60, 148 + L, 88 + L, 158 + L,
2^31 + 24, 2^31 + 48, 72, 88, 72); and for L = 2^32 - 158 the patched
FileHeader.PointerToSymbolTable is (158 + L) mod 2^32 = 0 while the symbol table
starts at byte 158 + L = 2^32 of the emitted stream. -/
theorem C20_uint32_wraparound :
    (∀ content : List Nat, ∃ t1 t2, pass1Trace content = some t1 ∧
      pass2Trace content = some t2 ∧
      t1 = t2.map fun e => (e.1, e.2.1 % 4294967296)) ∧
    (∀ content : List Nat, 180 + content.length < 4294967296 →
      ∃ s t1 t2, pass1 (mkCoff content) = some s ∧ pass1Trace content = some t1 ∧
        pass2Trace content = some t2 ∧
        t1 = (t2.map fun e => (e.1, e.2.1)) ∧
        s.offset = 180 + content.length ∧
        s.coff.SectionHeader32.PointerToRawData = 60 ∧
        s.coff.SectionHeader32.PointerToRelocations = 148 + content.length ∧
        s.coff.SectionHeader32.SizeOfRawData = 88 + content.length ∧
        s.coff.FileHeader.PointerToSymbolTable = 158 + content.length ∧
        s.coff.entryOffsetToData 1 = some (2147483648 + 24) ∧
        s.coff.entryOffsetToData 3 = some (2147483648 + 48) ∧
        s.coff.entryOffsetToData 5 = some 72 ∧
        (s.coff.dataEntryAt 6).map (·.OffsetToData) = some 88 ∧
        s.coff.relocationRVA = some 72) ∧
    (∃ content : List Nat, 158 + content.length ≥ 4294967296 ∧
      ∃ s t, pass1 (mkCoff content) = some s ∧ pass2Trace content = some t ∧
        s.coff.FileHeader.PointerToSymbolTable = (158 + content.length) % 4294967296 ∧
        invocationsAt t "/Symbols" = [(158 + content.length, none)] ∧
        s.coff.FileHeader.PointerToSymbolTable ≠ 158 + content.length) := by
  refine ⟨?_, ?_, ?_⟩
  · intro content
    exact ⟨_, _, pass1Trace_eq content, pass2Trace_eq content, rfl⟩
  · intro content h
    have h1 : (content.length + 148) % 4294967296 = 148 + content.length := by omega
    have h2 : (content.length + 158) % 4294967296 = 158 + content.length := by omega
    have h3 : sub32 (148 + content.length) 60 = 88 + content.length := by
      unfold sub32 toUint32; omega
    obtain ⟨e1, e3, e5⟩ := patched_entries content
    refine ⟨_, _, _, pass1_eq content, pass1Trace_eq content, pass2Trace_eq content,
      layout_mod _ h, ?_, ?_, ?_, ?_, ?_, e1, e3, e5, ?_, ?_⟩
    · show (content.length + 180) % 4294967296 = 180 + content.length
      omega
    · simp only [patchedCoff]
    · simp only [patchedCoff, h1]
    · simp only [patchedCoff, h1, h3]
    · simp only [patchedCoff, h2]
    · simp [patchedCoff, Coff.dataEntryAt]
    · simp [patchedCoff, Coff.relocationRVA]
  · refine ⟨List.replicate 4294967138 0, ?_, ?_⟩
    · rw [List.length_replicate]
    · obtain ⟨s, t, hs, ht, _, hp, _, hsym⟩ := patched_general (List.replicate 4294967138 0)
      refine ⟨s, t, hs, ht, hp, hsym, ?_⟩
      rw [hp, List.length_replicate]
      decide

theorem C20_witness :
    180 + ([] : List Nat).length < 4294967296 ∧
    ∃ s t1 t2, pass1 (mkCoff []) = some s ∧ pass1Trace [] = some t1 ∧
      pass2Trace [] = some t2 ∧
      t1 = (t2.map fun e => (e.1, e.2.1)) ∧
      s.offset = 180 + ([] : List Nat).length ∧
      s.coff.SectionHeader32.PointerToRawData = 60 ∧
      s.coff.SectionHeader32.PointerToRelocations = 148 + ([] : List Nat).length ∧
      s.coff.SectionHeader32.SizeOfRawData = 88 + ([] : List Nat).length ∧
      s.coff.FileHeader.PointerToSymbolTable = 158 + ([] : List Nat).length ∧
      s.coff.entryOffsetToData 1 = some (2147483648 + 24) ∧
      s.coff.entryOffsetToData 3 = some (2147483648 + 48) ∧
      s.coff.entryOffsetToData 5 = some 72 ∧
      (s.coff.dataEntryAt 6).map (·.OffsetToData) = some 88 ∧
      s.coff.relocationRVA = some 72 :=
  ⟨by decide, C20_uint32_wraparound.2.1 [] (by decide)⟩

theorem size1_built (content : List Nat) :
    ((mkCoff content).dataEntryAt 6).map (·.Size1) = some (content.length % 4294967296) := by
  simp [mkCoff, Coff.dataEntryAt, toUint32_natCast]

/-- C11 (counterexample): for a resource of 2^32 bytes the ImageResourceDataEntry
built by run has Size1 = 0, not the length of the resource. -/
theorem C11_counterexample :
    ((mkCoff (List.replicate 4294967296 0)).dataEntryAt 6).map (·.Size1) = some 0 ∧
    ((mkCoff (List.replicate 4294967296 0)).dataEntryAt 6).map (·.Size1) ≠
      some (List.replicate 4294967296 0).length := by
  have h := size1_built (List.replicate 4294967296 0)
  rw [List.length_replicate] at h
  constructor
  · rw [h]
  · rw [h, List.length_replicate]; decide

/-- C11 (amended): for any resource whose byte length L is below 2^32, the
ImageResourceDataEntry built by run has Size1 equal to L exactly, and so has the one
Pass 2 serialises; in general Size1 is L mod 2^32, the field being a uint32 filled by
the conversion uint32(manifest.Size()). -/
theorem C11_size1 (content : List Nat) :
    ((mkCoff content).dataEntryAt 6).map (·.Size1) = some (content.length % 4294967296) ∧
    (content.length < 4294967296 →
      ((mkCoff content).dataEntryAt 6).map (·.Size1) = some content.length ∧
      ∃ t, pass2Trace content = some t ∧
        invocationsAt t "/Data[6]/Size1" = [(136, some content.length)]) := by
  refine ⟨size1_built content, fun h => ⟨?_, _, pass2Trace_eq content, ?_⟩⟩
  · rw [size1_built, Nat.mod_eq_of_lt h]
  · simp [layout, invocationsAt, List.filter, Nat.mod_eq_of_lt h]

theorem C11_witness :
    ([] : List Nat).length < 4294967296 ∧
    (((mkCoff []).dataEntryAt 6).map (·.Size1) = some ([] : List Nat).length ∧
      ∃ t, pass2Trace [] = some t ∧
        invocationsAt t "/Data[6]/Size1" = [(136, some ([] : List Nat).length)]) :=
  ⟨by decide, (C11_size1 []).2 (by decide)⟩


/-! ## The size of each record -/

theorem add32_add32 (a b c : Nat) : add32 (add32 a b) c = add32 a (b + c) := by
  unfold add32; omega

theorem list_of_length_8 (l : List Nat) (h : l.length = 8) :
    ∃ b0 b1 b2 b3 b4 b5 b6 b7, l = [b0, b1, b2, b3, b4, b5, b6, b7] := by
  rcases l with _ | ⟨b0, _ | ⟨b1, _ | ⟨b2, _ | ⟨b3, _ | ⟨b4, _ | ⟨b5, _ | ⟨b6, _ | ⟨b7, _ | ⟨b8, l⟩⟩⟩⟩⟩⟩⟩⟩⟩ <;>
    simp at h
  exact ⟨b0, b1, b2, b3, b4, b5, b6, b7, rfl⟩

set_option maxRecDepth 100000 in
theorem size_FileHeader (content : List Nat) (o d : Nat) (h : FileHeader) :
    (walk pass1Walker h.toValue "/FileHeader"
      { coff := mkCoff content, offset := o, diroff := d }).map
        (fun r => (r.1.offset, r.2)) = some (add32 o 20, .nil) := by
  rw [← walk_traced (fun _ _ _ => ()) pass1Walker _ _ _ []]
  simp only [Fields.ofList, Values.ofList, List.map_cons, List.map_nil,
    walk_at, walkPointee_at, walkFields_cons_at, walkFields_nil, walkElems_cons_at, walkElems_nil,
    traced_apply, pass1Walker_apply, patch, mkCoff,
    pathJoin, indexPath, toString_0, toString_1, toString_2, toString_3, toString_4, toString_5,
    toString_6, toString_7,
    FileHeader.toValue, SectionHeader32.toValue, DataItem.toValue, ImageResourceDirectory.toValue,
    ImageResourceDirectoryEntry.toValue, ImageResourceDataEntry.toValue, RelocationEntry.toValue,
    Symbol.toValue, StringsHeader.toValue, u8, u16, u32, bytes8, Value.Kind, Plain,
    Value.asSizedReader, Value.IsValid, Bool.true_eq_false, stopping_nil, stopping_skip,
    binarySize, toUint32_1, toUint32_2,
    toUint32_4, add32_add32, setEntryOffsetToData, setDataEntryOffsetToData, setRVA,
    String.reduceEq, String.reduceAppend, reduceIte, Nat.reduceAdd,
    ne_eq, not_true_eq_false, not_false_eq_true, reduceCtorEq, Bool.false_eq_true,
    List.getElem?_cons_succ, List.getElem?_cons_zero, List.set_cons_succ, List.set_cons_zero,
    List.nil_append, List.cons_append, dropLog, Option.map_some']

set_option maxRecDepth 100000 in
theorem size_SectionHeader32 (content : List Nat) (o d : Nat) (h : SectionHeader32)
    (hn : h.Name.length = 8) :
    (walk pass1Walker h.toValue "/SectionHeader32"
      { coff := mkCoff content, offset := o, diroff := d }).map
        (fun r => (r.1.offset, r.2)) = some (add32 o 40, .nil) := by
  obtain ⟨b0, b1, b2, b3, b4, b5, b6, b7, hb⟩ := list_of_length_8 _ hn
  rw [← walk_traced (fun _ _ _ => ()) pass1Walker _ _ _ []]
  simp only [hb, Fields.ofList, Values.ofList, List.map_cons, List.map_nil,
    walk_at, walkPointee_at, walkFields_cons_at, walkFields_nil, walkElems_cons_at, walkElems_nil,
    traced_apply, pass1Walker_apply, patch, mkCoff,
    pathJoin, indexPath, toString_0, toString_1, toString_2, toString_3, toString_4, toString_5,
    toString_6, toString_7,
    FileHeader.toValue, SectionHeader32.toValue, DataItem.toValue, ImageResourceDirectory.toValue,
    ImageResourceDirectoryEntry.toValue, ImageResourceDataEntry.toValue, RelocationEntry.toValue,
    Symbol.toValue, StringsHeader.toValue, u8, u16, u32, bytes8, Value.Kind, Plain,
    Value.asSizedReader, Value.IsValid, Bool.true_eq_false, stopping_nil, stopping_skip,
    binarySize, toUint32_1, toUint32_2,
    toUint32_4, add32_add32, setEntryOffsetToData, setDataEntryOffsetToData, setRVA,
    String.reduceEq, String.reduceAppend, reduceIte, Nat.reduceAdd,
    ne_eq, not_true_eq_false, not_false_eq_true, reduceCtorEq, Bool.false_eq_true,
    List.getElem?_cons_succ, List.getElem?_cons_zero, List.set_cons_succ, List.set_cons_zero,
    List.nil_append, List.cons_append, dropLog, Option.map_some']

set_option maxRecDepth 100000 in
theorem size_ImageResourceDirectory (content : List Nat) (o d : Nat)
    (r : ImageResourceDirectory) :
    (walk pass1Walker (DataItem.dir r).toValue "/Data[0]"
      { coff := mkCoff content, offset := o, diroff := d }).map
        (fun r => (r.1.offset, r.2)) = some (add32 o 16, .nil) := by
  rw [← walk_traced (fun _ _ _ => ()) pass1Walker _ _ _ []]
  simp only [Fields.ofList, Values.ofList, List.map_cons, List.map_nil,
    walk_at, walkPointee_at, walkFields_cons_at, walkFields_nil, walkElems_cons_at, walkElems_nil,
    traced_apply, pass1Walker_apply, patch, mkCoff,
    pathJoin, indexPath, toString_0, toString_1, toString_2, toString_3, toString_4, toString_5,
    toString_6, toString_7,
    FileHeader.toValue, SectionHeader32.toValue, DataItem.toValue, ImageResourceDirectory.toValue,
    ImageResourceDirectoryEntry.toValue, ImageResourceDataEntry.toValue, RelocationEntry.toValue,
    Symbol.toValue, StringsHeader.toValue, u8, u16, u32, bytes8, Value.Kind, Plain,
    Value.asSizedReader, Value.IsValid, Bool.true_eq_false, stopping_nil, stopping_skip,
    binarySize, toUint32_1, toUint32_2,
    toUint32_4, add32_add32, setEntryOffsetToData, setDataEntryOffsetToData, setRVA,
    String.reduceEq, String.reduceAppend, reduceIte, Nat.reduceAdd,
    ne_eq, not_true_eq_false, not_false_eq_true, reduceCtorEq, Bool.false_eq_true,
    List.getElem?_cons_succ, List.getElem?_cons_zero, List.set_cons_succ, List.set_cons_zero,
    List.nil_append, List.cons_append, dropLog, Option.map_some']

set_option maxRecDepth 100000 in
theorem size_ImageResourceDirectoryEntry (content : List Nat) (o d : Nat)
    (e : ImageResourceDirectoryEntry) :
    (walk pass1Walker (DataItem.entry e).toValue "/Data[1]"
      { coff := mkCoff content, offset := o, diroff := d }).map
        (fun r => (r.1.offset, r.2)) = some (add32 o 8, .nil) := by
  rw [← walk_traced (fun _ _ _ => ()) pass1Walker _ _ _ []]
  simp only [Fields.ofList, Values.ofList, List.map_cons, List.map_nil,
    walk_at, walkPointee_at, walkFields_cons_at, walkFields_nil, walkElems_cons_at, walkElems_nil,
    traced_apply, pass1Walker_apply, patch, mkCoff,
    pathJoin, indexPath, toString_0, toString_1, toString_2, toString_3, toString_4, toString_5,
    toString_6, toString_7,
    FileHeader.toValue, SectionHeader32.toValue, DataItem.toValue, ImageResourceDirectory.toValue,
    ImageResourceDirectoryEntry.toValue, ImageResourceDataEntry.toValue, RelocationEntry.toValue,
    Symbol.toValue, StringsHeader.toValue, u8, u16, u32, bytes8, Value.Kind, Plain,
    Value.asSizedReader, Value.IsValid, Bool.true_eq_false, stopping_nil, stopping_skip,
    binarySize, toUint32_1, toUint32_2,
    toUint32_4, add32_add32, setEntryOffsetToData, setDataEntryOffsetToData, setRVA,
    String.reduceEq, String.reduceAppend, reduceIte, Nat.reduceAdd,
    ne_eq, not_true_eq_false, not_false_eq_true, reduceCtorEq, Bool.false_eq_true,
    List.getElem?_cons_succ, List.getElem?_cons_zero, List.set_cons_succ, List.set_cons_zero,
    List.nil_append, List.cons_append, dropLog, Option.map_some']

set_option maxRecDepth 100000 in
theorem size_ImageResourceDataEntry (content : List Nat) (o d : Nat)
    (e : ImageResourceDataEntry) :
    (walk pass1Walker (DataItem.dataEntry e).toValue "/Data[6]"
      { coff := mkCoff content, offset := o, diroff := d }).map
        (fun r => (r.1.offset, r.2)) = some (add32 o 16, .nil) := by
  rw [← walk_traced (fun _ _ _ => ()) pass1Walker _ _ _ []]
  simp only [Fields.ofList, Values.ofList, List.map_cons, List.map_nil,
    walk_at, walkPointee_at, walkFields_cons_at, walkFields_nil, walkElems_cons_at, walkElems_nil,
    traced_apply, pass1Walker_apply, patch, mkCoff,
    pathJoin, indexPath, toString_0, toString_1, toString_2, toString_3, toString_4, toString_5,
    toString_6, toString_7,
    FileHeader.toValue, SectionHeader32.toValue, DataItem.toValue, ImageResourceDirectory.toValue,
    ImageResourceDirectoryEntry.toValue, ImageResourceDataEntry.toValue, RelocationEntry.toValue,
    Symbol.toValue, StringsHeader.toValue, u8, u16, u32, bytes8, Value.Kind, Plain,
    Value.asSizedReader, Value.IsValid, Bool.true_eq_false, stopping_nil, stopping_skip,
    binarySize, toUint32_1, toUint32_2,
    toUint32_4, add32_add32, setEntryOffsetToData, setDataEntryOffsetToData, setRVA,
    String.reduceEq, String.reduceAppend, reduceIte, Nat.reduceAdd,
    ne_eq, not_true_eq_false, not_false_eq_true, reduceCtorEq, Bool.false_eq_true,
    List.getElem?_cons_succ, List.getElem?_cons_zero, List.set_cons_succ, List.set_cons_zero,
    List.nil_append, List.cons_append, dropLog, Option.map_some']

set_option maxRecDepth 100000 in
theorem size_RelocationEntry (content : List Nat) (o d : Nat) (r : RelocationEntry) :
    (walk pass1Walker r.toValue "/Relocations[0]"
      { coff := mkCoff content, offset := o, diroff := d }).map
        (fun r => (r.1.offset, r.2)) = some (add32 o 10, .nil) := by
  rw [← walk_traced (fun _ _ _ => ()) pass1Walker _ _ _ []]
  simp only [Fields.ofList, Values.ofList, List.map_cons, List.map_nil,
    walk_at, walkPointee_at, walkFields_cons_at, walkFields_nil, walkElems_cons_at, walkElems_nil,
    traced_apply, pass1Walker_apply, patch, mkCoff,
    pathJoin, indexPath, toString_0, toString_1, toString_2, toString_3, toString_4, toString_5,
    toString_6, toString_7,
    FileHeader.toValue, SectionHeader32.toValue, DataItem.toValue, ImageResourceDirectory.toValue,
    ImageResourceDirectoryEntry.toValue, ImageResourceDataEntry.toValue, RelocationEntry.toValue,
    Symbol.toValue, StringsHeader.toValue, u8, u16, u32, bytes8, Value.Kind, Plain,
    Value.asSizedReader, Value.IsValid, Bool.true_eq_false, stopping_nil, stopping_skip,
    binarySize, toUint32_1, toUint32_2,
    toUint32_4, add32_add32, setEntryOffsetToData, setDataEntryOffsetToData, setRVA,
    String.reduceEq, String.reduceAppend, reduceIte, Nat.reduceAdd,
    ne_eq, not_true_eq_false, not_false_eq_true, reduceCtorEq, Bool.false_eq_true,
    List.getElem?_cons_succ, List.getElem?_cons_zero, List.set_cons_succ, List.set_cons_zero,
    List.nil_append, List.cons_append, dropLog, Option.map_some']

set_option maxRecDepth 100000 in
theorem size_Symbol (content : List Nat) (o d : Nat) (y : Symbol) (hn : y.Name.length = 8) :
    (walk pass1Walker y.toValue "/Symbols[0]"
      { coff := mkCoff content, offset := o, diroff := d }).map
        (fun r => (r.1.offset, r.2)) = some (add32 o 18, .nil) := by
  obtain ⟨b0, b1, b2, b3, b4, b5, b6, b7, hb⟩ := list_of_length_8 _ hn
  rw [← walk_traced (fun _ _ _ => ()) pass1Walker _ _ _ []]
  simp only [hb, Fields.ofList, Values.ofList, List.map_cons, List.map_nil,
    walk_at, walkPointee_at, walkFields_cons_at, walkFields_nil, walkElems_cons_at, walkElems_nil,
    traced_apply, pass1Walker_apply, patch, mkCoff,
    pathJoin, indexPath, toString_0, toString_1, toString_2, toString_3, toString_4, toString_5,
    toString_6, toString_7,
    FileHeader.toValue, SectionHeader32.toValue, DataItem.toValue, ImageResourceDirectory.toValue,
    ImageResourceDirectoryEntry.toValue, ImageResourceDataEntry.toValue, RelocationEntry.toValue,
    Symbol.toValue, StringsHeader.toValue, u8, u16, u32, bytes8, Value.Kind, Plain,
    Value.asSizedReader, Value.IsValid, Bool.true_eq_false, stopping_nil, stopping_skip,
    binarySize, toUint32_1, toUint32_2,
    toUint32_4, add32_add32, setEntryOffsetToData, setDataEntryOffsetToData, setRVA,
    String.reduceEq, String.reduceAppend, reduceIte, Nat.reduceAdd,
    ne_eq, not_true_eq_false, not_false_eq_true, reduceCtorEq, Bool.false_eq_true,
    List.getElem?_cons_succ, List.getElem?_cons_zero, List.set_cons_succ, List.set_cons_zero,
    List.nil_append, List.cons_append, dropLog, Option.map_some']

set_option maxRecDepth 100000 in
theorem size_StringsHeader (content : List Nat) (o d : Nat) (h : StringsHeader) :
    (walk pass1Walker h.toValue "/StringsHeader"
      { coff := mkCoff content, offset := o, diroff := d }).map
        (fun r => (r.1.offset, r.2)) = some (add32 o 4, .nil) := by
  rw [← walk_traced (fun _ _ _ => ()) pass1Walker _ _ _ []]
  simp only [Fields.ofList, Values.ofList, List.map_cons, List.map_nil,
    walk_at, walkPointee_at, walkFields_cons_at, walkFields_nil, walkElems_cons_at, walkElems_nil,
    traced_apply, pass1Walker_apply, patch, mkCoff,
    pathJoin, indexPath, toString_0, toString_1, toString_2, toString_3, toString_4, toString_5,
    toString_6, toString_7,
    FileHeader.toValue, SectionHeader32.toValue, DataItem.toValue, ImageResourceDirectory.toValue,
    ImageResourceDirectoryEntry.toValue, ImageResourceDataEntry.toValue, RelocationEntry.toValue,
    Symbol.toValue, StringsHeader.toValue, u8, u16, u32, bytes8, Value.Kind, Plain,
    Value.asSizedReader, Value.IsValid, Bool.true_eq_false, stopping_nil, stopping_skip,
    binarySize, toUint32_1, toUint32_2,
    toUint32_4, add32_add32, setEntryOffsetToData, setDataEntryOffsetToData, setRVA,
    String.reduceEq, String.reduceAppend, reduceIte, Nat.reduceAdd,
    ne_eq, not_true_eq_false, not_false_eq_true, reduceCtorEq, Bool.false_eq_true,
    List.getElem?_cons_succ, List.getElem?_cons_zero, List.set_cons_succ, List.set_cons_zero,
    List.nil_append, List.cons_append, dropLog, Option.map_some']

/-- C12: walking one record of each type of the data-model table with the Pass-1
callback, from any running offset `o`, returns without error and leaves the running
offset at `o` plus the table's total (as a uint32): FileHeader 20, SectionHeader32 40,
ImageResourceDirectory 16, ImageResourceDirectoryEntry 8, ImageResourceDataEntry 16,
RelocationEntry 10, Symbol 18, StringsHeader 4. The two `Name` fields are Go `[8]byte`
arrays, hence the two length hypotheses; no padding is counted. -/
theorem C12_record_sizes (content : List Nat) (o d : Nat)
    (fh : FileHeader) (sh : SectionHeader32) (dir : ImageResourceDirectory)
    (ent : ImageResourceDirectoryEntry) (de : ImageResourceDataEntry)
    (rel : RelocationEntry) (sym : Symbol) (strs : StringsHeader)
    (hsh : sh.Name.length = 8) (hsym : sym.Name.length = 8) :
    let s : Pass1 := { coff := mkCoff content, offset := o, diroff := d }
    let after : Value → String → Option (Nat × Error) := fun v p =>
      (walk pass1Walker v p s).map (fun r => (r.1.offset, r.2))
    after fh.toValue "/FileHeader" = some (add32 o 20, .nil) ∧
    after sh.toValue "/SectionHeader32" = some (add32 o 40, .nil) ∧
    after (DataItem.dir dir).toValue "/Data[0]" = some (add32 o 16, .nil) ∧
    after (DataItem.entry ent).toValue "/Data[1]" = some (add32 o 8, .nil) ∧
    after (DataItem.dataEntry de).toValue "/Data[6]" = some (add32 o 16, .nil) ∧
    after rel.toValue "/Relocations[0]" = some (add32 o 10, .nil) ∧
    after sym.toValue "/Symbols[0]" = some (add32 o 18, .nil) ∧
    after strs.toValue "/StringsHeader" = some (add32 o 4, .nil) :=
  ⟨size_FileHeader content o d fh, size_SectionHeader32 content o d sh hsh,
    size_ImageResourceDirectory content o d dir,
    size_ImageResourceDirectoryEntry content o d ent,
    size_ImageResourceDataEntry content o d de, size_RelocationEntry content o d rel,
    size_Symbol content o d sym hsym, size_StringsHeader content o d strs⟩

/-- C12 at the records of the empty resource, from offset 0: the eight totals
themselves. -/
theorem C12_witness :
    ({} : SectionHeader32).Name.length = 8 ∧ ({} : Symbol).Name.length = 8 ∧
    (walk pass1Walker ({} : FileHeader).toValue "/FileHeader"
        { coff := mkCoff [], offset := 0, diroff := 0 }).map (fun r => (r.1.offset, r.2))
      = some (20, .nil) ∧
    (walk pass1Walker ({} : SectionHeader32).toValue "/SectionHeader32"
        { coff := mkCoff [], offset := 0, diroff := 0 }).map (fun r => (r.1.offset, r.2))
      = some (40, .nil) ∧
    (walk pass1Walker ({} : Symbol).toValue "/Symbols[0]"
        { coff := mkCoff [], offset := 0, diroff := 0 }).map (fun r => (r.1.offset, r.2))
      = some (18, .nil) :=
  have h := C12_record_sizes [] 0 0 {} {} {} {} {} {} {} {} (by decide) (by decide)
  ⟨by decide, by decide, h.1, h.2.1, h.2.2.2.2.2.2.1⟩

end Rsrc
